import Mathlib

/-!
Verification development for the `tttai` repository (tic-tac-toe engines).

The Python sources are embedded shallowly:
* `killer.py`  — bit-vector board, `simple_minimax` with a transposition cache,
  `alphabeta` with killer-move reordering (namespace `killer`);
* `mcts.py`    — the same bit-vector board and a Monte-Carlo rollout evaluator
  (namespace `mcts`);
* `ttt.py`     — character-matrix board and a plain minimax whose `evaluate`
  is bound to `heuristic_evaluate` (namespace `ttt`);
* `alphabeta.py` — character-matrix board with plain alpha-beta (namespace `ab`).

Machine integers are modelled by `Nat`/`Int`; the Python float infinities used
as initial alpha/beta bounds are modelled by the three-valued type `EInt`.
Recursive searches are embedded with an explicit fuel argument; the wrappers
supply fuel `10`, which is shown to be enough for every well-formed board
(each recursion step fills one of the at most 9 cells).
-/

/-- `POSITIONS = [(r,c) for r in range(3) for c in range(3)]` (shared by all
the sources). -/
def POSITIONS : List (Nat × Nat) :=
  (List.range 3).flatMap (fun r => (List.range 3).map (fun c => (r, c)))

/-- Embeds the Python guard `"Use cache" == False` in `killer.py` (comparing a
non-empty string with `False` yields `False`, so the guarded cache code is
dead). -/
def useCacheFlag : Bool := false

/-- Embeds the Python guard `"Heuristic improvement" == False` in `killer.py`
and `alphabeta.py` (always `False`: the heuristic pre-sorting is dead code). -/
def heuristicFlag : Bool := false

/-- Embeds the truthiness of `if "Killer heuristic":` in `killer.py` (a
non-empty string is truthy, so the killer reordering is always applied). -/
def killerFlag : Bool := true

/-- Embeds Python `int(10**(c-1))` as used by both `heuristic_evaluate`
implementations: for `c = 0` the value is `int(10**(-1)) = int(0.1) = 0`,
otherwise the integer power `10^(c-1)`. -/
def ipow10m1 (c : Nat) : Int := if c = 0 then 0 else 10 ^ (c - 1)

/-- Embeds `gmpy.popcount` (an external library primitive): number of set bits.
Defined with a structural fuel so that it reduces inside the kernel; `n`
halvings always suffice to exhaust `n`. -/
def popcountAux : Nat → Nat → Nat
  | 0, _ => 0
  | fuel+1, n => if n = 0 then 0 else n % 2 + popcountAux fuel (n / 2)

/-- Number of set bits of a natural number (`gmpy.popcount`). -/
def popcount (n : Nat) : Nat := popcountAux n n

/-- Embeds Python `max([...])` on a list of numbers; the `[]` case never arises
in the embedded engines (Python would raise `ValueError`). -/
def maxList : List Int → Int
  | [] => 0
  | x :: xs => xs.foldl max x

/-- Embeds Python `min([...])` on a list of numbers. -/
def minList : List Int → Int
  | [] => 0
  | x :: xs => xs.foldl min x

/-- Scores as used by the searches: integers extended with the two Python
float infinities `-float("inf")` and `float("inf")`. -/
inductive EInt where
  | ninf : EInt
  | fin : Int → EInt
  | pinf : EInt
deriving DecidableEq, Repr

/-- `a <= b` on scores (Python's `<=` on numbers and infinities). -/
def ele : EInt → EInt → Bool
  | .ninf, _ => true
  | _, .pinf => true
  | .fin a, .fin b => a ≤ b
  | _, _ => false

/-- `a < b` on scores. -/
def elt (a b : EInt) : Bool := !(ele b a)

/-- Python `max(a, b)` (returns `a` on ties, which is indistinguishable for a
total order on values). -/
def emax (a b : EInt) : EInt := if ele b a then a else b

/-- Python `min(a, b)`. -/
def emin (a b : EInt) : EInt := if ele a b then a else b

namespace killer

/-- `Board.mask` of `killer.py` (also `mcts.py`): the single-bit mask for
`(row, col)`; the 18-bit vector is row-major with cell (0,0) the most
significant bit of its half, the high 9 bits belong to player `1` (X). -/
def mask (row col : Nat) (who : Int) : Nat :=
  let offset := 3 * (2 - row) + (2 - col)
  let offset := if who = 1 then offset + 9 else offset
  1 <<< offset

/-- `Board.check` of `killer.py`: the mask for `player` at `(row, col)` if the
cell is free for both sides, `None` otherwise. -/
def check (b : Nat) (row col : Nat) (player : Int) : Option Nat :=
  let m := mask row col player
  let othermask := mask row col (-player)
  if (m ||| othermask) &&& b ≠ 0 then none else some m

/-- `Board.place` of `killer.py`, first form (a single mask argument): sets the
bits with no checking. -/
def placeMask (b m : Nat) : Nat := b ||| m

/-- `Board.place` of `killer.py`, second form (`row, col, player`): checks the
cell first.  Python's `if not mask` also rejects a zero mask; `check` only ever
produces `1 <<< k`, which is nonzero. -/
def place (b : Nat) (row col : Nat) (player : Int) : Option Nat :=
  match check b row col player with
  | none => none
  | some m => if m = 0 then none else some (b ||| m)

/-- `Board.masks` of `killer.py`/`mcts.py`: the 8 winning lines on one 9-bit
half (3 rows, 3 columns, 2 diagonals). -/
def masks : List Nat :=
  [0b000000111, 0b000111000, 0b111000000,
   0b001001001, 0b010010010, 0b100100100,
   0b100010001, 0b001010100]

/-- `Board.won` of `killer.py`/`mcts.py`: scan the 8 lines in order, checking
the low (O, player `-1`) half before the shifted high (X, player `1`) half for
each mask, returning the first winner found. -/
def won (b : Nat) : Option Int :=
  let shifted := b >>> 9
  masks.findSome? (fun m =>
    if b &&& m = m then some (-1)
    else if shifted &&& m = m then some 1
    else none)

/-- `Board.spaces` of `killer.py`/`mcts.py`: `9 - popcount(board)` (an `int` in
Python, so modelled in `Int`). -/
def spaces (b : Nat) : Int := 9 - (popcount b : Int)

/-- `simple_evaluate` of `killer.py`/`mcts.py`: `+10`/`-10` for a winner, `0`
for a full board, no value otherwise. -/
def simple_evaluate (b : Nat) : Option Int :=
  match won b with
  | some 1 => some 10
  | some (-1) => some (-10)
  | _ => if spaces b = 0 then some 0 else none

/-- `heuristic_evaluate` of `killer.py`: for each line, `±int(10**(count-1))`
when the line is held by one side only, `0` otherwise; X counts positive. -/
def heuristic_evaluate (b : Nat) : Int :=
  masks.foldl (fun score m =>
    let oboard := b
    let xboard := oboard >>> 9
    let countx := popcount (xboard &&& m)
    let counto := popcount (oboard &&& m)
    if countx = 0 then score - ipow10m1 counto
    else if counto = 0 then score + ipow10m1 countx
    else score) 0

/-- The process-wide `CACHE` dict of `killer.py`, keyed by
`(board.board, player)`; modelled as an association list threaded through the
searches (later entries shadow earlier ones, like dict assignment). -/
abbrev Cache := List ((Nat × Int) × Int)

/-- `(board.board, player) in CACHE` / `CACHE[(board.board, player)]`. -/
def cacheLookup (c : Cache) (b : Nat) (p : Int) : Option Int :=
  (c.find? (fun e => e.1.1 == b && e.1.2 == p)).map (fun e => e.2)

/-- The list comprehension of `simple_minimax`: recursive scores of the child
boards, threading the cache left to right. -/
def smLoop (f : Nat → Cache → Int × Cache) : List Nat → Cache → List Int × Cache
  | [], c => ([], c)
  | b :: rest, c =>
    let r := f b c
    let rr := smLoop f rest r.2
    (r.1 :: rr.1, rr.2)

/-- `simple_minimax` of `killer.py` with explicit fuel: cache lookup, terminal
evaluation, then best of the children's scores, stored into the cache.  The
fuel-0 branch is unreachable from the wrapper on well-formed boards. -/
def simple_minimaxF : Nat → Nat → Int → Cache → Int × Cache
  | 0, board, _player, cache => ((simple_evaluate board).getD 0, cache)
  | fuel+1, board, player, cache =>
    match cacheLookup cache board player with
    | some v => (v, cache)
    | none =>
      match simple_evaluate board with
      | some value => (value, cache)
      | none =>
        let opponent := -player
        let childBoards := POSITIONS.filterMap (fun rc => place board rc.1 rc.2 player)
        let r := smLoop (fun bb c => simple_minimaxF fuel bb opponent c) childBoards cache
        let value := if player = 1 then maxList r.1 else minList r.1
        (value, ((board, player), value) :: r.2)

/-- `simple_minimax(board, player)` with the global cache made explicit. -/
def simple_minimax (board : Nat) (player : Int) (cache : Cache) : Int × Cache :=
  simple_minimaxF 10 board player cache

/-- The `KILLERS.append` + capacity-4 `popleft` sequence of `killer.py`
(lines 191–193): FIFO insertion into the bounded killer table. -/
def pushKiller (killers : List Nat) (m : Nat) : List Nat :=
  let killers := killers ++ [m]
  if killers.length > 4 then killers.tail else killers

/-- The maximizer loop of `alphabeta` (`player == 1`): `value`/`alpha` updates,
beta cut-off with a killer-table push; killer table and cache are threaded
through the recursive calls (they are module-level state in Python). -/
def abMaxLoop (f : Nat → EInt → EInt → List Nat → Cache → EInt × List Nat × Cache)
    (beta : EInt) :
    List (Nat × Nat) → EInt → EInt → List Nat → Cache → EInt × List Nat × Cache
  | [], value, _alpha, killers, cache => (value, killers, cache)
  | (m, child) :: rest, value, alpha, killers, cache =>
    let r := f child alpha beta killers cache
    let value := emax value r.1
    let alpha := emax alpha value
    if ele beta alpha then (value, pushKiller r.2.1 m, r.2.2)
    else abMaxLoop f beta rest value alpha r.2.1 r.2.2

/-- The minimizer loop of `alphabeta`: mirror image with `beta`, and no killer
update on the alpha cut-off. -/
def abMinLoop (f : Nat → EInt → EInt → List Nat → Cache → EInt × List Nat × Cache)
    (alpha : EInt) :
    List (Nat × Nat) → EInt → EInt → List Nat → Cache → EInt × List Nat × Cache
  | [], value, _beta, killers, cache => (value, killers, cache)
  | (_m, child) :: rest, value, beta, killers, cache =>
    let r := f child alpha beta killers cache
    let value := emin value r.1
    let beta := emin beta value
    if ele beta alpha then (value, r.2.1, r.2.2)
    else abMinLoop f alpha rest value beta r.2.1 r.2.2

/-- `alphabeta` of `killer.py` with explicit fuel.  The two cache blocks are
guarded by `useCacheFlag` (the always-false `"Use cache" == False`); the
heuristic pre-sort is guarded by `heuristicFlag` (always false — if taken, the
Python code would fault, since it applies `heuristic_evaluate` to
`(mask, board)` tuples — so the branch is embedded as the identity); the killer
reordering (`sorted` by the boolean key `x[0] not in KILLERS`, a stable
partition with killer moves first) is guarded by the always-true `killerFlag`.
The fuel-0 branch is unreachable from the wrapper on well-formed boards. -/
def alphabetaF : Nat → Nat → Int → EInt → EInt → List Nat → Cache → EInt × List Nat × Cache
  | 0, board, _player, _alpha, _beta, killers, cache =>
    (EInt.fin ((simple_evaluate board).getD 0), killers, cache)
  | fuel+1, board, player, alpha, beta, killers, cache =>
    let hit := if useCacheFlag then cacheLookup cache board player else none
    match hit with
    | some v => (EInt.fin v, killers, cache)
    | none =>
      match simple_evaluate board with
      | some value => (EInt.fin value, killers, cache)
      | none =>
        let opponent := -player
        let masksL := POSITIONS.filterMap (fun rc => check board rc.1 rc.2 player)
        let children := masksL.map (fun m => (m, placeMask board m))
        let children := if heuristicFlag then children else children
        let children := if killerFlag then
            children.filter (fun mc => killers.contains mc.1)
              ++ children.filter (fun mc => !(killers.contains mc.1))
          else children
        let r := if player = 1 then
            abMaxLoop (fun c a bb ks cc => alphabetaF fuel c opponent a bb ks cc)
              beta children EInt.ninf alpha killers cache
          else
            abMinLoop (fun c a bb ks cc => alphabetaF fuel c opponent a bb ks cc)
              alpha children EInt.pinf beta killers cache
        let cache2 := if useCacheFlag then
            (match r.1 with
             | EInt.fin v => ((board, player), v) :: r.2.2
             | _ => r.2.2)
          else r.2.2
        (r.1, r.2.1, cache2)

/-- `alphabeta(board, player, alpha, beta)` with the global killer table and
cache made explicit (fuel 10 suffices on well-formed boards). -/
def alphabeta (board : Nat) (player : Int) (alpha beta : EInt)
    (killers : List Nat) (cache : Cache) : EInt × List Nat × Cache :=
  alphabetaF 10 board player alpha beta killers cache

/-- Reference cache-free minimax value (the recursion of `simple_minimax`
without its cache); used to relate `simple_minimax` and `alphabeta`. -/
def mm : Nat → Nat → Int → Int
  | 0, board, _ => (simple_evaluate board).getD 0
  | fuel+1, board, player =>
    match simple_evaluate board with
    | some v => v
    | none =>
      let cands := (POSITIONS.filterMap (fun rc => place board rc.1 rc.2 player)).map
        (fun b => mm fuel b (-player))
      if player = 1 then maxList cands else minList cands

/-- The two halves of the 18-bit state never mark the same cell: the formula of
the spec's invariant, `((board >> 9) & board & 0x1FF) == 0`. -/
def halvesDisjoint (b : Nat) : Prop := (b >>> 9) &&& b &&& 511 = 0

/-- Well-formed boards: an 18-bit value whose halves do not overlap. -/
def wf (b : Nat) : Prop := b < 2 ^ 18 ∧ halvesDisjoint b

instance : DecidablePred halvesDisjoint := fun _ => by
  unfold halvesDisjoint; infer_instance

instance : DecidablePred wf := fun _ => by
  unfold wf; infer_instance

end killer

namespace mcts

/-- `Board.place` of `mcts.py` (`row, col, what`): produce a new board with the
bit for `what` set, `None` if either side already occupies the cell (the body
inlines the same mask logic as `killer.py`'s `check`). -/
def place (b : Nat) (row col : Nat) (what : Int) : Option Nat :=
  let m := killer.mask row col what
  let checkmask := killer.mask row col (-what)
  if (m ||| checkmask) &&& b ≠ 0 then none else some (b ||| m)

end mcts

/-- Boards reachable from the empty board through successful `place`
operations: either the mask form fed by a successful `check` (as inside
`alphabeta`), the checking `place` of `killer.py`, or the `place` of
`mcts.py`; rows, columns and sides as produced by `POSITIONS` and `PLAYERS`. -/
inductive Reachable : Nat → Prop where
  | empty : Reachable 0
  | maskStep (b r c : Nat) (s : Int) (m : Nat) :
      Reachable b → r < 3 → c < 3 → (s = 1 ∨ s = -1) →
      killer.check b r c s = some m → Reachable (killer.placeMask b m)
  | placeStep (b : Nat) (r c : Nat) (s : Int) (b' : Nat) :
      Reachable b → r < 3 → c < 3 → (s = 1 ∨ s = -1) →
      killer.place b r c s = some b' → Reachable b'
  | mctsStep (b : Nat) (r c : Nat) (s : Int) (b' : Nat) :
      Reachable b → r < 3 → c < 3 → (s = 1 ∨ s = -1) →
      mcts.place b r c s = some b' → Reachable b'

namespace mcts

/-- The random stream: `random.choice(POSITIONS)` draws are modelled as a list
of indices into `POSITIONS`, consumed left to right. -/
def posOf (i : Fin 9) : Nat × Nat := POSITIONS.getD i.val (0, 0)

/-- One random playout (the `while step.spaces():` loop of `mcts`): draw a
position, try to place for `who`, on success hand the turn over and stop as
soon as someone has won or the board is full.  Returns the final board and the
unconsumed part of the stream; `none` if the (finite) stream runs out while
the Python loop would keep drawing. -/
def rollout : List (Fin 9) → Nat → Int → Option (Nat × List (Fin 9))
  | picks, step, who =>
    if killer.spaces step = 0 then some (step, picks)
    else
      match picks with
      | [] => none
      | i :: rest =>
        let rc := posOf i
        match place step rc.1 rc.2 who with
        | none => rollout rest step who
        | some nextstep =>
          match killer.won nextstep with
          | some _ => some (nextstep, rest)
          | none => rollout rest nextstep (-who)

/-- The `for _ in range(N)` loop of `mcts`: run `n` rollouts from `board`
starting with `player`, threading the random stream, counting the rollouts
whose final board is won by `player`. -/
def runRollouts : Nat → List (Fin 9) → Nat → Int → Option (Nat × List (Fin 9))
  | 0, picks, _, _ => some (0, picks)
  | n+1, picks, board, player =>
    match rollout picks board player with
    | none => none
    | some r =>
      match runRollouts n r.2 board player with
      | none => none
      | some cr =>
        some ((if killer.won r.1 = some player then cr.1 + 1 else cr.1), cr.2)

/-- `N = 500`, the number of rollouts per `mcts` call. -/
def N : Nat := 500

/-- `mcts(board, player)` of `mcts.py` with the random stream made explicit:
the fraction of `N` rollouts won by `player` (float division modelled in ℚ);
`none` when the finite stream is too short. -/
def mcts (picks : List (Fin 9)) (board : Nat) (player : Int) : Option ℚ :=
  match runRollouts N picks board player with
  | none => none
  | some cr => some ((cr.1 : ℚ) / (N : ℚ))

end mcts

/-! ### The character-matrix board shared by `ttt.py` and `alphabeta.py` -/

/-- The `Board` of `ttt.py`/`alphabeta.py`: a 3×3 matrix of `' '`/`'X'`/`'O'`
cells (Python one-character strings are modelled as `Char`). -/
abbrev CBoard := List (List Char)

/-- `board[row][col]` (always called in range by the sources). -/
def cget (b : CBoard) (r c : Nat) : Char := (b.getD r []).getD c ' '

/-- The `copy.deepcopy` + single-cell assignment of `Board.place`. -/
def cset (b : CBoard) (r c : Nat) (w : Char) : CBoard :=
  b.set r ((b.getD r []).set c w)

/-- `Board.place` of `ttt.py`/`alphabeta.py`: a fresh board with the cell set,
`None` when the cell is not blank. -/
def cplace (b : CBoard) (r c : Nat) (w : Char) : Option CBoard :=
  if cget b r c = ' ' then some (cset b r c w) else none

/-- The empty character board. -/
def cempty : CBoard := [[' ', ' ', ' '], [' ', ' ', ' '], [' ', ' ', ' ']]

/-- One line test of `Board.won`: `row[0] != ' ' and all(c == row[0] ...)`. -/
def lineWin (row : List Char) : Option Char :=
  if row.getD 0 ' ' != ' ' && row.all (fun ch => ch == row.getD 0 ' ')
  then some (row.getD 0 ' ') else none

/-- `Board.won` of `ttt.py`/`alphabeta.py`: rows first, then columns, then the
two diagonals, returning the first winning symbol found. -/
def cwon (b : CBoard) : Option Char :=
  match b.findSome? lineWin with
  | some w => some w
  | none =>
    match (List.range 3).findSome? (fun n => lineWin [cget b 0 n, cget b 1 n, cget b 2 n]) with
    | some w => some w
    | none =>
      match lineWin [cget b 0 0, cget b 1 1, cget b 2 2] with
      | some w => some w
      | none => lineWin [cget b 0 2, cget b 1 1, cget b 2 0]

/-- `Board.spaces` of `ttt.py`/`alphabeta.py`: the number of blank cells. -/
def cspaces (b : CBoard) : Nat :=
  POSITIONS.countP (fun rc => cget b rc.1 rc.2 == ' ')

/-- `simple_evaluate` of `ttt.py`/`alphabeta.py`. -/
def csimple_evaluate (b : CBoard) : Option Int :=
  match cwon b with
  | some 'X' => some 10
  | some 'O' => some (-10)
  | _ => if cspaces b = 0 then some 0 else none

/-- The 8 lines enumerated by `heuristic_evaluate` of `ttt.py`/`alphabeta.py`:
two diagonals, then horizontals, then verticals. -/
def crows (b : CBoard) : List (List Char) :=
  [[cget b 0 0, cget b 1 1, cget b 2 2],
   [cget b 0 2, cget b 1 1, cget b 2 0]] ++
  (List.range 3).map (fun n => [cget b n 0, cget b n 1, cget b n 2]) ++
  (List.range 3).map (fun n => [cget b 0 n, cget b 1 n, cget b 2 n])

/-- `heuristic_evaluate` of `ttt.py`/`alphabeta.py`. -/
def cheuristic (b : CBoard) : Int :=
  (crows b).foldl (fun score row =>
    let countx := row.countP (fun ch => ch == 'X')
    let counto := row.countP (fun ch => ch == 'O')
    if countx = 0 then score - ipow10m1 counto
    else if counto = 0 then score + ipow10m1 countx
    else score) 0

namespace ttt

/-- `evaluate = heuristic_evaluate` in `ttt.py` (line 85): the evaluator used
by `minimax` is the heuristic one, which always returns a number, so the
`value is not None` test in `minimax` always succeeds. -/
def evaluate (b : CBoard) : Option Int := some (cheuristic b)

/-- `minimax` of `ttt.py` with explicit fuel.  `who` is the player that has
just moved; the recursion over the opponent's moves is dead code because
`evaluate` always returns a value. -/
def minimaxF : Nat → CBoard → Char → Int
  | 0, board, _ => cheuristic board
  | fuel+1, board, who =>
    match evaluate board with
    | some value => value
    | none =>
      let opponent := if who = 'X' then 'O' else 'X'
      let candscores := (POSITIONS.filterMap
          (fun rc => cplace board rc.1 rc.2 opponent)).map
        (fun b => minimaxF fuel b opponent)
      if candscores = [] then 0
      else if who = 'X' then minList candscores else maxList candscores

/-- `minimax(board, who)` of `ttt.py`. -/
def minimax (board : CBoard) (who : Char) : Int := minimaxF 9 board who

end ttt

namespace ab

/-- The maximizer loop of `alphabeta` in `alphabeta.py`. -/
def maxLoopC (f : CBoard → EInt → EInt → EInt) (beta : EInt) :
    List CBoard → EInt → EInt → EInt
  | [], value, _alpha => value
  | child :: rest, value, alpha =>
    let value := emax value (f child alpha beta)
    let alpha := emax alpha value
    if ele beta alpha then value else maxLoopC f beta rest value alpha

/-- The minimizer loop of `alphabeta` in `alphabeta.py`. -/
def minLoopC (f : CBoard → EInt → EInt → EInt) (alpha : EInt) :
    List CBoard → EInt → EInt → EInt
  | [], value, _beta => value
  | child :: rest, value, beta =>
    let value := emin value (f child alpha beta)
    let beta := emin beta value
    if ele beta alpha then value else minLoopC f alpha rest value beta

/-- `alphabeta` of `alphabeta.py` with explicit fuel (`evaluate` is
`simple_evaluate` there, line 87; the heuristic pre-sort is dead code guarded
by the always-false `heuristicFlag`). -/
def alphabetaF : Nat → CBoard → Char → EInt → EInt → EInt
  | 0, board, _, _, _ => EInt.fin ((csimple_evaluate board).getD 0)
  | fuel+1, board, player, alpha, beta =>
    match csimple_evaluate board with
    | some value => EInt.fin value
    | none =>
      let opponent := if player = 'X' then 'O' else 'X'
      let children := POSITIONS.filterMap (fun rc => cplace board rc.1 rc.2 player)
      let children := if heuristicFlag then children else children
      if player = 'X' then
        maxLoopC (fun c a bb => alphabetaF fuel c opponent a bb) beta children EInt.ninf alpha
      else
        minLoopC (fun c a bb => alphabetaF fuel c opponent a bb) alpha children EInt.pinf beta

/-- `alphabeta(board, player, alpha, beta)` of `alphabeta.py`. -/
def alphabeta (board : CBoard) (player : Char) (alpha beta : EInt) : EInt :=
  alphabetaF 10 board player alpha beta

end ab

/-! ### Spec-side definitions (used only to state claims) -/

/-- The per-line contribution described by the spec for the bit-vector
`heuristic_evaluate`: `±10^(c-1)` when the line holds `c ∈ {1,2,3}` cells of
exactly one side, `0` for mixed or empty lines. -/
def specLineScore (b m : Nat) : Int :=
  let cx := popcount ((b >>> 9) &&& m)
  let co := popcount (b &&& m)
  if (cx = 1 ∨ cx = 2 ∨ cx = 3) ∧ co = 0 then 10 ^ (cx - 1)
  else if (co = 1 ∨ co = 2 ∨ co = 3) ∧ cx = 0 then -(10 ^ (co - 1))
  else 0

/-- The per-line contribution described by the spec for the character-matrix
`heuristic_evaluate`. -/
def cspecLineScore (row : List Char) : Int :=
  let cx := row.countP (fun ch => ch == 'X')
  let co := row.countP (fun ch => ch == 'O')
  if (cx = 1 ∨ cx = 2 ∨ cx = 3) ∧ co = 0 then 10 ^ (cx - 1)
  else if (co = 1 ∨ co = 2 ∨ co = 3) ∧ cx = 0 then -(10 ^ (co - 1))
  else 0

/-- The cell-occupancy predicate of the spec: `(row, col)` is occupied by
either side on the bit-vector board. -/
def cellTaken (b : Nat) (row col : Nat) : Prop :=
  b.testBit (3 * (2 - row) + (2 - col)) ∨ b.testBit (3 * (2 - row) + (2 - col) + 9)

instance (b row col : Nat) : Decidable (cellTaken b row col) := by
  unfold cellTaken; infer_instance

/-- The fail-soft alpha-beta contract: a returned score `r` for a node of true
minimax value `w` searched with window `(a, b)` is exact inside the window, an
upper bound on `w` when it fails low, and a lower bound when it fails high. -/
def EContract (w : Int) (a b r : EInt) : Prop :=
  (ele r a = true → ele (EInt.fin w) r = true) ∧
  (ele b r = true → ele r (EInt.fin w) = true) ∧
  (elt a r = true → elt r b = true → r = EInt.fin w)

namespace killer

/-- A transposition cache is valid when every entry holds the exact minimax
value (at any sufficient fuel) of a well-formed board for a genuine player. -/
def ValidC (c : Cache) : Prop :=
  ∀ e ∈ c, wf e.1.1 ∧ (e.1.2 = 1 ∨ e.1.2 = -1) ∧
    ∀ f, 10 ≤ f + popcount e.1.1 → e.2 = mm f e.1.1 e.1.2

end killer

/-- Running maximum of the scores `g x` over a list, seeded with `v` (the
shape of the maximizer loop's `value`). -/
def foldEmax {α : Type} (g : α → EInt) (v : EInt) (l : List α) : EInt :=
  l.foldl (fun acc x => emax acc (g x)) v

/-- Running minimum of the scores `g x` over a list, seeded with `v`. -/
def foldEmin {α : Type} (g : α → EInt) (v : EInt) (l : List α) : EInt :=
  l.foldl (fun acc x => emin acc (g x)) v


/-! ### Bit-level twin of the `alphabeta.py` engine (proof machinery) -/

/-- Character stored at bit offset `off` of a bitboard (X half is bits 9-17). -/
def cellB (b : Nat) (off : Nat) : Char :=
  if b.testBit (off + 9) then 'X' else if b.testBit off then 'O' else ' '

/-- Decode a bitboard into the character matrix of `alphabeta.py`. -/
def encode (b : Nat) : CBoard :=
  [[cellB b 8, cellB b 7, cellB b 6],
   [cellB b 5, cellB b 4, cellB b 3],
   [cellB b 2, cellB b 1, cellB b 0]]

/-- Bit-level twin of `lineWin` on the three cells at offsets `i`, `j`, `k`. -/
def blineN (b : Nat) (i j k : Nat) : Option Char :=
  if b.testBit (i + 9) && b.testBit (j + 9) && b.testBit (k + 9) then some 'X'
  else if b.testBit i && b.testBit j && b.testBit k then some 'O'
  else none

/-- Bit-level twin of `cwon`, scanning the 8 lines in the same order. -/
def bwon (b : Nat) : Option Char :=
  match [blineN b 8 7 6, blineN b 5 4 3, blineN b 2 1 0].findSome? id with
  | some w => some w
  | none =>
    match [blineN b 8 5 2, blineN b 7 4 1, blineN b 6 3 0].findSome? id with
    | some w => some w
    | none =>
      match blineN b 8 4 0 with
      | some w => some w
      | none => blineN b 6 4 2

/-- Bit-level twin of `cspaces`. -/
def bspaces (b : Nat) : Nat :=
  POSITIONS.countP (fun rc =>
    !(b.testBit (3 * (2 - rc.1) + (2 - rc.2) + 9) || b.testBit (3 * (2 - rc.1) + (2 - rc.2))))

/-- Bit-level twin of `csimple_evaluate`. -/
def bEval (b : Nat) : Option Int :=
  match bwon b with
  | some 'X' => some 10
  | some 'O' => some (-10)
  | _ => if bspaces b = 0 then some 0 else none

/-- Bit-level twin of the maximizer loop of `alphabeta.py`. -/
def bMaxLoop (f : Nat → EInt → EInt → EInt) (beta : EInt) : List Nat → EInt → EInt → EInt
  | [], value, _alpha => value
  | c :: rest, value, alpha =>
    let value := emax value (f c alpha beta)
    let alpha := emax alpha value
    if ele beta alpha then value else bMaxLoop f beta rest value alpha

/-- Bit-level twin of the minimizer loop of `alphabeta.py`. -/
def bMinLoop (f : Nat → EInt → EInt → EInt) (alpha : EInt) : List Nat → EInt → EInt → EInt
  | [], value, _beta => value
  | c :: rest, value, beta =>
    let value := emin value (f c alpha beta)
    let beta := emin beta value
    if ele beta alpha then value else bMinLoop f alpha rest value beta

/-- Bit-level twin of `alphabeta.py`'s `alphabeta` (players as `1`/`-1`). -/
def babF : Nat → Nat → Int → EInt → EInt → EInt
  | 0, b, _, _, _ => EInt.fin ((bEval b).getD 0)
  | fuel+1, b, p, alpha, beta =>
    match bEval b with
    | some v => EInt.fin v
    | none =>
      let children := POSITIONS.filterMap (fun rc => killer.place b rc.1 rc.2 p)
      if p = 1 then bMaxLoop (fun c a bb => babF fuel c (-1) a bb) beta children EInt.ninf alpha
      else bMinLoop (fun c a bb => babF fuel c 1 a bb) alpha children EInt.pinf beta

/-- Cache-free reference minimax for the bit-level twin (evaluator `bEval`). -/
def mmB : Nat → Nat → Int → Int
  | 0, b, _ => (bEval b).getD 0
  | fuel+1, b, p =>
    match bEval b with
    | some v => v
    | none =>
      let cands := (POSITIONS.filterMap (fun rc => killer.place b rc.1 rc.2 p)).map
        (fun c => mmB fuel c (-p))
      if p = 1 then maxList cands else minList cands

def lineX (b i j k : Nat) : Bool :=
  b.testBit (i + 9) && b.testBit (j + 9) && b.testBit (k + 9)

def lineO (b i j k : Nat) : Bool :=
  b.testBit i && b.testBit j && b.testBit k

def anyXb (b : Nat) : Bool :=
  lineX b 8 7 6 || lineX b 5 4 3 || lineX b 2 1 0 || lineX b 8 5 2 ||
  lineX b 7 4 1 || lineX b 6 3 0 || lineX b 8 4 0 || lineX b 6 4 2

def anyOb (b : Nat) : Bool :=
  lineO b 8 7 6 || lineO b 5 4 3 || lineO b 2 1 0 || lineO b 8 5 2 ||
  lineO b 7 4 1 || lineO b 6 3 0 || lineO b 8 4 0 || lineO b 6 4 2

/-! ## Lemmas: popcount -/

theorem popcountAux_zero (f : Nat) : popcountAux f 0 = 0 := by
  cases f <;> simp [popcountAux]

theorem popcountAux_stable (f : Nat) : ∀ g n, n ≤ f → n ≤ g →
    popcountAux f n = popcountAux g n := by
  induction f with
  | zero => intro g n hf _; interval_cases n; simp [popcountAux_zero]
  | succ f ih =>
    intro g n hf hg
    rcases Nat.eq_zero_or_pos n with h0 | h0
    · subst h0; simp [popcountAux_zero]
    · obtain ⟨g', rfl⟩ : ∃ g', g = g' + 1 := ⟨g - 1, by omega⟩
      have hne : n ≠ 0 := by omega
      simp only [popcountAux, if_neg hne]
      have h2 : n / 2 ≤ f := by omega
      have h2' : n / 2 ≤ g' := by omega
      rw [ih (n / 2) h2 (g := g') h2']

theorem popcount_unfold (n : Nat) : popcount n = n % 2 + popcount (n / 2) := by
  rcases Nat.eq_zero_or_pos n with h0 | h0
  · subst h0; simp [popcount, popcountAux_zero]
  · obtain ⟨m, rfl⟩ : ∃ m, n = m + 1 := ⟨n - 1, by omega⟩
    show popcountAux (m + 1) (m + 1) = _
    have hne : m + 1 ≠ 0 := by omega
    simp only [popcountAux, if_neg hne]
    congr 1
    exact popcountAux_stable m ((m+1)/2) ((m+1)/2) (by omega) (le_refl _)

theorem popcount_zero : popcount 0 = 0 := rfl

/-- `n % 2` through `testBit 0`. -/
theorem mod_two_eq_toNat_testBit (n : Nat) : n % 2 = (n.testBit 0).toNat := by
  rcases Nat.mod_two_eq_zero_or_one n with h | h <;> simp [Nat.testBit_zero, h]

theorem land_div_two (a b : Nat) : (a &&& b) / 2 = (a / 2) &&& (b / 2) := by
  apply Nat.eq_of_testBit_eq
  intro i
  simp [Nat.testBit_div_two, Nat.testBit_and]

theorem lor_div_two (a b : Nat) : (a ||| b) / 2 = (a / 2) ||| (b / 2) := by
  apply Nat.eq_of_testBit_eq
  intro i
  simp [Nat.testBit_div_two, Nat.testBit_or]

theorem popcount_and_le (a b : Nat) : popcount (a &&& b) ≤ popcount b := by
  induction b using Nat.strong_induction_on generalizing a with
  | _ b ih =>
    rcases Nat.eq_zero_or_pos b with h0 | h0
    · subst h0; simp [Nat.and_zero, popcount_zero]
    · rw [popcount_unfold (a &&& b), popcount_unfold b, land_div_two]
      have h1 : popcount (a / 2 &&& b / 2) ≤ popcount (b / 2) :=
        ih (b / 2) (by omega) (a / 2)
      have h2 : (a &&& b) % 2 ≤ b % 2 := by
        rw [mod_two_eq_toNat_testBit, mod_two_eq_toNat_testBit]
        rw [show (a &&& b).testBit 0 = (a.testBit 0 && b.testBit 0) from Nat.testBit_and a b 0]
        cases a.testBit 0 <;> cases b.testBit 0 <;> simp
      omega

theorem popcount_lor_disjoint (a b : Nat) (h : a &&& b = 0) :
    popcount (a ||| b) = popcount a + popcount b := by
  induction a using Nat.strong_induction_on generalizing b with
  | _ a ih =>
    rcases Nat.eq_zero_or_pos a with h0 | h0
    · subst h0; simp [Nat.zero_or, popcount_zero]
    · rw [popcount_unfold (a ||| b), popcount_unfold a, popcount_unfold b, lor_div_two]
      have hd : (a / 2) &&& (b / 2) = 0 := by
        rw [← land_div_two, h]
      have ih2 := ih (a / 2) (by omega) (b / 2) hd
      have hm : (a ||| b) % 2 = a % 2 + b % 2 := by
        have hb0 : (a &&& b).testBit 0 = false := by rw [h]; simp
        rw [Nat.testBit_and] at hb0
        rw [mod_two_eq_toNat_testBit, mod_two_eq_toNat_testBit, mod_two_eq_toNat_testBit,
          Nat.testBit_or]
        cases ha : a.testBit 0 <;> cases hb : b.testBit 0 <;> simp_all
      omega

theorem popcount_two_pow (k : Nat) : popcount (2 ^ k) = 1 := by
  induction k with
  | zero => rfl
  | succ k ih =>
    rw [popcount_unfold]
    have h1 : 2 ^ (k + 1) % 2 = 0 := by
      simp [Nat.pow_succ, Nat.mul_mod_left]
    have h2 : 2 ^ (k + 1) / 2 = 2 ^ k := by
      rw [Nat.pow_succ, Nat.mul_div_cancel]; omega
    rw [h1, h2, ih]

theorem popcount_lt_two_pow {n k : Nat} (h : n < 2 ^ k) : popcount n ≤ k := by
  induction k generalizing n with
  | zero => interval_cases n; simp [popcount_zero]
  | succ k ih =>
    rw [popcount_unfold]
    have : n / 2 < 2 ^ k := by
      have := Nat.pow_succ 2 k
      omega
    have := ih this
    omega

theorem popcount_or_two_pow {b k : Nat} (h : b.testBit k = false) :
    popcount (b ||| 2 ^ k) = popcount b + 1 := by
  have hd : b &&& 2 ^ k = 0 := by
    apply Nat.eq_of_testBit_eq
    intro i
    rw [Nat.testBit_and, Nat.zero_testBit, Nat.testBit_two_pow]
    by_cases h' : k = i
    · subst h'; simp [h]
    · simp [h']
  rw [popcount_lor_disjoint b (2 ^ k) hd, popcount_two_pow]

/-! ## Lemmas: single bits, masks, check and place -/

theorem nat_eq_zero_iff_testBit (n : Nat) : n = 0 ↔ ∀ i, n.testBit i = false := by
  constructor
  · intro h i; subst h; simp
  · intro h
    apply Nat.eq_of_testBit_eq
    intro i; simp [h i]

theorem lor_eq_zero_iff (a b : Nat) : a ||| b = 0 ↔ a = 0 ∧ b = 0 := by
  simp only [nat_eq_zero_iff_testBit, Nat.testBit_or]
  constructor
  · intro h
    constructor <;> intro i <;> have := h i <;>
      cases ha : a.testBit i <;> cases hb : b.testBit i <;> simp_all
  · intro ⟨h1, h2⟩ i; simp [h1 i, h2 i]

theorem lor_and_distrib (x y b : Nat) : (x ||| y) &&& b = (x &&& b) ||| (y &&& b) := by
  apply Nat.eq_of_testBit_eq
  intro i
  simp only [Nat.testBit_and, Nat.testBit_or]
  cases x.testBit i <;> cases y.testBit i <;> cases b.testBit i <;> rfl

theorem two_pow_and_eq_zero_iff (k b : Nat) : 2 ^ k &&& b = 0 ↔ b.testBit k = false := by
  simp only [nat_eq_zero_iff_testBit, Nat.testBit_and, Nat.testBit_two_pow]
  constructor
  · intro h
    have := h k
    simpa using this
  · intro h i
    by_cases hk : k = i
    · subst hk; simp [h]
    · simp [hk]

namespace killer

/-- The row-major bit offset of a cell on one half of the board. -/
theorem mask_eq (r c : Nat) (s : Int) :
    mask r c s = 2 ^ (if s = 1 then 3 * (2 - r) + (2 - c) + 9 else 3 * (2 - r) + (2 - c)) := by
  unfold mask
  by_cases h : s = 1 <;> simp [h, Nat.one_shiftLeft]

theorem mask_ne_zero (r c : Nat) (s : Int) : mask r c s ≠ 0 := by
  rw [mask_eq]
  positivity

theorem offset_lt_nine (r c : Nat) : 3 * (2 - r) + (2 - c) < 9 := by omega

theorem check_eq_some_iff (b : Nat) (r c : Nat) (p : Int) (m : Nat) :
    check b r c p = some m ↔
      m = mask r c p ∧ (mask r c p ||| mask r c (-p)) &&& b = 0 := by
  unfold check
  by_cases h : (mask r c p ||| mask r c (-p)) &&& b = 0
  · simp [h, eq_comm]
  · simp [h]

theorem check_eq_none_iff (b : Nat) (r c : Nat) (p : Int) :
    check b r c p = none ↔ (mask r c p ||| mask r c (-p)) &&& b ≠ 0 := by
  unfold check
  by_cases h : (mask r c p ||| mask r c (-p)) &&& b = 0 <;> simp [h]

theorem place_eq_some_iff (b : Nat) (r c : Nat) (p : Int) (b' : Nat) :
    place b r c p = some b' ↔
      (mask r c p ||| mask r c (-p)) &&& b = 0 ∧ b' = b ||| mask r c p := by
  unfold place check
  have hnz : mask r c p ≠ 0 := mask_ne_zero r c p
  by_cases h : (mask r c p ||| mask r c (-p)) &&& b = 0
  · simp [h, hnz, eq_comm]
  · simp [h]

theorem place_eq_none_iff (b : Nat) (r c : Nat) (p : Int) :
    place b r c p = none ↔ (mask r c p ||| mask r c (-p)) &&& b ≠ 0 := by
  unfold place check
  have hnz : mask r c p ≠ 0 := mask_ne_zero r c p
  by_cases h : (mask r c p ||| mask r c (-p)) &&& b = 0
  · simp [h, hnz]
  · simp [h]

/-- `mcts.py`'s `place` computes the same function as `killer.py`'s checking
`place`. -/
theorem mcts_place_eq_place (b : Nat) (r c : Nat) (p : Int) :
    mcts.place b r c p = place b r c p := by
  unfold mcts.place
  by_cases h : (mask r c p ||| mask r c (-p)) &&& b = 0
  · simp only [h]
    rw [show place b r c p = some (b ||| mask r c p) from
      (place_eq_some_iff b r c p _).mpr ⟨h, rfl⟩]
    simp
  · simp only [h]
    rw [show place b r c p = none from (place_eq_none_iff b r c p).mpr h]
    simp [h]

/-- The two masks of a `check` are single fresh bits of `b`: the free-cell
condition in terms of `testBit`. -/
theorem free_iff_testBit (b : Nat) (r c : Nat) (p : Int) (hp : p = 1 ∨ p = -1) :
    (mask r c p ||| mask r c (-p)) &&& b = 0 ↔
      (b.testBit (3 * (2 - r) + (2 - c)) = false ∧
       b.testBit (3 * (2 - r) + (2 - c) + 9) = false) := by
  rw [lor_and_distrib, lor_eq_zero_iff]
  rcases hp with rfl | rfl
  · rw [mask_eq, mask_eq]
    norm_num
    rw [two_pow_and_eq_zero_iff, two_pow_and_eq_zero_iff]
    exact and_comm
  · rw [mask_eq, mask_eq]
    norm_num
    rw [two_pow_and_eq_zero_iff, two_pow_and_eq_zero_iff]

end killer

theorem testBit_or_two_pow (b k j : Nat) :
    (b ||| 2 ^ k).testBit j = (b.testBit j || decide (j = k)) := by
  rw [Nat.testBit_or, Nat.testBit_two_pow]
  by_cases h : k = j
  · subst h; simp
  · simp [h, Ne.symm h]

theorem popcount_mul_two_pow (x k : Nat) : popcount (x * 2 ^ k) = popcount x := by
  induction k with
  | zero => simp
  | succ k ih =>
    have h : x * 2 ^ (k + 1) = (x * 2 ^ k) * 2 := by ring
    rw [h, popcount_unfold]
    have h1 : x * 2 ^ k * 2 % 2 = 0 := Nat.mul_mod_left _ 2
    have h2 : x * 2 ^ k * 2 / 2 = x * 2 ^ k := Nat.mul_div_cancel _ (by omega)
    rw [h1, h2, ih]
    omega

namespace killer

theorem halvesDisjoint_iff (b : Nat) :
    halvesDisjoint b ↔ ∀ i, i < 9 → (b.testBit (9 + i) && b.testBit i) = false := by
  unfold halvesDisjoint
  rw [nat_eq_zero_iff_testBit]
  constructor
  · intro h i hi
    have := h i
    rw [Nat.testBit_and, Nat.testBit_and, Nat.testBit_shiftRight,
      show (511 : Nat) = 2 ^ 9 - 1 from rfl, Nat.testBit_two_pow_sub_one] at this
    simpa [hi] using this
  · intro h i
    rw [Nat.testBit_and, Nat.testBit_and, Nat.testBit_shiftRight,
      show (511 : Nat) = 2 ^ 9 - 1 from rfl, Nat.testBit_two_pow_sub_one]
    by_cases hi : i < 9
    · have := h i hi
      cases hx : b.testBit (9 + i) <;> cases ho : b.testBit i <;> simp_all
    · simp [hi]

theorem wf_zero : wf 0 := by constructor <;> simp [halvesDisjoint]

/-- A successful `check` yields a fresh single bit: placing it preserves
well-formedness and fills exactly one more cell. -/
theorem wf_place_of_check {b : Nat} {r c : Nat} {p : Int} {m : Nat}
    (hw : wf b) (hr : r < 3) (hc : c < 3) (hp : p = 1 ∨ p = -1)
    (hchk : check b r c p = some m) :
    wf (b ||| m) ∧ popcount (b ||| m) = popcount b + 1 := by
  rw [check_eq_some_iff] at hchk
  obtain ⟨rfl, hfree⟩ := hchk
  rw [free_iff_testBit b r c p hp] at hfree
  obtain ⟨hlo, hhi⟩ := hfree
  set off := 3 * (2 - r) + (2 - c) with hoff
  have hofflt : off < 9 := offset_lt_nine r c
  have hmask : mask r c p = 2 ^ (if p = 1 then off + 9 else off) := mask_eq r c p
  set k := if p = 1 then off + 9 else off with hk
  have hbk : b.testBit k = false := by
    rcases hp with rfl | rfl
    · simpa [hk] using hhi
    · have : k = off := by simp [hk]
      rw [this]; exact hlo
  have hklt : k < 18 := by
    rcases hp with rfl | rfl <;> simp [hk] <;> omega
  refine ⟨⟨?_, ?_⟩, ?_⟩
  · -- stays an 18-bit value
    rw [hmask]
    exact Nat.or_lt_two_pow hw.1 (Nat.pow_lt_pow_right (by omega) hklt)
  · -- the halves stay disjoint
    rw [hmask]
    rw [halvesDisjoint_iff]
    intro i hi
    rw [testBit_or_two_pow, testBit_or_two_pow]
    have hold := (halvesDisjoint_iff b).1 hw.2 i hi
    rcases hp with rfl | rfl
    · -- the new bit sits in the high half at relative position `off`
      have hkk : k = off + 9 := by simp [hk]
      by_cases hio : i = off
      · subst hio
        have h1 : 9 + off = k := by omega
        have h2 : ¬(off = k) := by omega
        simp [h1, h2, hlo]
      · have h1 : ¬(9 + i = k) := by omega
        have h2 : ¬(i = k) := by omega
        simp only [decide_eq_false h1, decide_eq_false h2, Bool.or_false]
        exact hold
    · -- the new bit sits in the low half at relative position `off`
      have hkk : k = off := by simp [hk]
      by_cases hio : i = off
      · subst hio
        have h1 : ¬(9 + off = k) := by omega
        have h2 : b.testBit (9 + off) = false := by rw [Nat.add_comm]; exact hhi
        simp [h1, h2]
      · have h1 : ¬(9 + i = k) := by omega
        have h2 : ¬(i = k) := by omega
        simp only [decide_eq_false h1, decide_eq_false h2, Bool.or_false]
        exact hold
  · -- one more occupied cell
    rw [hmask]
    exact popcount_or_two_pow hbk

/-- For a well-formed board the two 9-bit halves carry at most 9 set bits in
total. -/
theorem wf_popcount_le {b : Nat} (hw : wf b) : popcount b ≤ 9 := by
  obtain ⟨hlt, hdisj⟩ := hw
  set hi := b >>> 9 with hhi
  set lo := b % 2 ^ 9 with hlo
  have hhilt : hi < 2 ^ 9 := by
    rw [hhi, Nat.shiftRight_eq_div_pow]
    have : (2 : Nat) ^ 18 = 2 ^ 9 * 2 ^ 9 := by norm_num
    rw [this] at hlt
    exact Nat.div_lt_of_lt_mul (by omega)
  have hlolt : lo < 2 ^ 9 := Nat.mod_lt _ (by norm_num)
  have hsplit : b = (hi <<< 9) ||| lo := by
    apply Nat.eq_of_testBit_eq
    intro i
    rw [Nat.testBit_or, Nat.testBit_shiftLeft, hlo, Nat.testBit_mod_two_pow, hhi,
      Nat.testBit_shiftRight]
    by_cases hi9 : i < 9
    · have : ¬(9 ≤ i) := by omega
      simp [this, hi9]
    · have h9 : 9 ≤ i := by omega
      have : 9 + (i - 9) = i := by omega
      simp [h9, hi9, this]
  have hdisj2 : (hi <<< 9) &&& lo = 0 := by
    rw [nat_eq_zero_iff_testBit]
    intro i
    rw [Nat.testBit_and, Nat.testBit_shiftLeft, hlo, Nat.testBit_mod_two_pow]
    by_cases hi9 : i < 9
    · have : ¬(9 ≤ i) := by omega
      simp [this]
    · simp [hi9]
  have hdisj3 : hi &&& lo = 0 := by
    have h511 : lo = b &&& (2 ^ 9 - 1) := by
      rw [hlo, Nat.and_pow_two_sub_one_eq_mod]
    rw [h511, ← Nat.land_assoc]
    have : (511 : Nat) = 2 ^ 9 - 1 := rfl
    rw [← this]
    exact hdisj
  have e1 : popcount b = popcount hi + popcount lo := by
    rw [hsplit, popcount_lor_disjoint _ _ hdisj2, Nat.shiftLeft_eq, popcount_mul_two_pow]
  have e2 : popcount hi + popcount lo = popcount (hi ||| lo) :=
    (popcount_lor_disjoint hi lo hdisj3).symm
  have e3 : popcount (hi ||| lo) ≤ 9 :=
    popcount_lt_two_pow (Nat.or_lt_two_pow hhilt hlolt)
  omega

end killer

/-! ## Lemmas: the extended score order -/

theorem ele_refl (a : EInt) : ele a a = true := by
  cases a <;> simp [ele]

theorem ele_trans {a b c : EInt} (h1 : ele a b = true) (h2 : ele b c = true) :
    ele a c = true := by
  cases a <;> cases b <;> cases c <;> simp_all [ele] <;> omega

theorem ele_total (a b : EInt) : ele a b = true ∨ ele b a = true := by
  cases a <;> cases b <;> simp [ele] <;> omega

theorem ele_antisymm {a b : EInt} (h1 : ele a b = true) (h2 : ele b a = true) :
    a = b := by
  cases a <;> cases b <;> simp_all [ele] <;> omega

theorem elt_iff_not_ele (a b : EInt) : elt a b = true ↔ ¬ ele b a = true := by
  simp [elt]

theorem ele_of_elt {a b : EInt} (h : elt a b = true) : ele a b = true := by
  rcases ele_total a b with h' | h'
  · exact h'
  · rw [elt_iff_not_ele] at h; exact absurd h' h

theorem elt_of_elt_of_ele {a b c : EInt} (h1 : elt a b = true) (h2 : ele b c = true) :
    elt a c = true := by
  rw [elt_iff_not_ele] at h1 ⊢
  intro hca
  exact h1 (ele_trans h2 hca)

theorem elt_of_ele_of_elt {a b c : EInt} (h1 : ele a b = true) (h2 : elt b c = true) :
    elt a c = true := by
  rw [elt_iff_not_ele] at h2 ⊢
  intro hca
  exact h2 (ele_trans hca h1)

theorem emax_or (a b : EInt) : emax a b = a ∨ emax a b = b := by
  unfold emax
  by_cases h : ele b a = true <;> simp [h]

theorem ele_left_emax (a b : EInt) : ele a (emax a b) = true := by
  unfold emax
  by_cases h : ele b a = true <;> simp [h, ele_refl]
  rcases ele_total a b with h' | h'
  · exact h'
  · exact absurd h' h

theorem ele_right_emax (a b : EInt) : ele b (emax a b) = true := by
  unfold emax
  by_cases h : ele b a = true <;> simp [h, ele_refl]

theorem emax_le {a b c : EInt} (h1 : ele a c = true) (h2 : ele b c = true) :
    ele (emax a b) c = true := by
  rcases emax_or a b with h | h <;> rw [h] <;> assumption

theorem ele_emax_elim {a b c : EInt} (h : ele c (emax a b) = true) :
    ele c a = true ∨ ele c b = true := by
  rcases emax_or a b with h' | h' <;> rw [h'] at h <;> [exact Or.inl h; exact Or.inr h]

theorem emin_or (a b : EInt) : emin a b = a ∨ emin a b = b := by
  unfold emin
  by_cases h : ele a b = true <;> simp [h]

theorem ele_emin_left (a b : EInt) : ele (emin a b) a = true := by
  unfold emin
  by_cases h : ele a b = true <;> simp [h, ele_refl]
  rcases ele_total b a with h' | h'
  · exact h'
  · exact absurd h' h

theorem ele_emin_right (a b : EInt) : ele (emin a b) b = true := by
  unfold emin
  by_cases h : ele a b = true <;> simp [h, ele_refl]

theorem le_emin {a b c : EInt} (h1 : ele c a = true) (h2 : ele c b = true) :
    ele c (emin a b) = true := by
  rcases emin_or a b with h | h <;> rw [h] <;> assumption

theorem ele_emin_elim {a b c : EInt} (h : ele (emin a b) c = true) :
    ele a c = true ∨ ele b c = true := by
  rcases emin_or a b with h' | h' <;> rw [h'] at h <;> [exact Or.inl h; exact Or.inr h]

theorem emax_assoc_self (x v r : EInt) :
    emax (emax x v) (emax v r) = emax x (emax v r) := by
  cases x <;> cases v <;> cases r <;>
    simp only [emax, ele] <;> split_ifs <;> simp_all <;> omega

theorem emin_assoc_self (x v r : EInt) :
    emin (emin x v) (emin v r) = emin x (emin v r) := by
  cases x <;> cases v <;> cases r <;>
    simp only [emin, ele] <;> split_ifs <;> simp_all <;> omega

theorem fin_ele_fin_iff (x y : Int) : ele (EInt.fin x) (EInt.fin y) = true ↔ x ≤ y := by
  simp [ele]

theorem ele_ninf_iff (a : EInt) : ele a EInt.ninf = true ↔ a = EInt.ninf := by
  cases a <;> simp [ele]

theorem pinf_ele_iff (a : EInt) : ele EInt.pinf a = true ↔ a = EInt.pinf := by
  cases a <;> simp [ele]

theorem elt_ninf_fin (x : Int) : elt EInt.ninf (EInt.fin x) = true := by
  simp [elt, ele]

theorem elt_fin_pinf (x : Int) : elt (EInt.fin x) EInt.pinf = true := by
  simp [elt, ele]

theorem elt_ninf_pinf : elt EInt.ninf EInt.pinf = true := by
  simp [elt, ele]

/-! ## Lemmas: folded maxima and minima -/

section Folds

variable {α : Type} (g : α → EInt)

theorem foldEmax_nil (v : EInt) : foldEmax g v [] = v := rfl

theorem foldEmax_cons (v : EInt) (x : α) (l : List α) :
    foldEmax g v (x :: l) = foldEmax g (emax v (g x)) l := rfl

theorem ele_seed_foldEmax (v : EInt) (l : List α) : ele v (foldEmax g v l) = true := by
  induction l generalizing v with
  | nil => exact ele_refl v
  | cons x xs ih =>
    rw [foldEmax_cons]
    exact ele_trans (ele_left_emax v (g x)) (ih (emax v (g x)))

theorem ele_mem_foldEmax {v : EInt} {l : List α} {x : α} (hx : x ∈ l) :
    ele (g x) (foldEmax g v l) = true := by
  induction l generalizing v with
  | nil => cases hx
  | cons y ys ih =>
    rw [foldEmax_cons]
    rcases List.mem_cons.mp hx with rfl | hmem
    · exact ele_trans (ele_right_emax v (g x)) (ele_seed_foldEmax g _ ys)
    · exact ih hmem

theorem foldEmax_cases (v : EInt) (l : List α) :
    foldEmax g v l = v ∨ ∃ x ∈ l, foldEmax g v l = g x := by
  induction l generalizing v with
  | nil => exact Or.inl rfl
  | cons y ys ih =>
    rw [foldEmax_cons]
    rcases ih (emax v (g y)) with h | ⟨x, hx, h⟩
    · rcases emax_or v (g y) with h' | h'
      · exact Or.inl (h.trans h')
      · exact Or.inr ⟨y, List.mem_cons_self y ys, h.trans h'⟩
    · exact Or.inr ⟨x, List.mem_cons_of_mem y hx, h⟩

theorem foldEmax_le {v z : EInt} {l : List α} (hv : ele v z = true)
    (hl : ∀ x ∈ l, ele (g x) z = true) : ele (foldEmax g v l) z = true := by
  rcases foldEmax_cases g v l with h | ⟨x, hx, h⟩
  · rw [h]; exact hv
  · rw [h]; exact hl x hx

theorem foldEmin_nil (v : EInt) : foldEmin g v [] = v := rfl

theorem foldEmin_cons (v : EInt) (x : α) (l : List α) :
    foldEmin g v (x :: l) = foldEmin g (emin v (g x)) l := rfl

theorem foldEmin_ele_seed (v : EInt) (l : List α) : ele (foldEmin g v l) v = true := by
  induction l generalizing v with
  | nil => exact ele_refl v
  | cons x xs ih =>
    rw [foldEmin_cons]
    exact ele_trans (ih (emin v (g x))) (ele_emin_left v (g x))

theorem foldEmin_ele_mem {v : EInt} {l : List α} {x : α} (hx : x ∈ l) :
    ele (foldEmin g v l) (g x) = true := by
  induction l generalizing v with
  | nil => cases hx
  | cons y ys ih =>
    rw [foldEmin_cons]
    rcases List.mem_cons.mp hx with rfl | hmem
    · exact ele_trans (foldEmin_ele_seed g _ ys) (ele_emin_right v (g x))
    · exact ih hmem

theorem foldEmin_cases (v : EInt) (l : List α) :
    foldEmin g v l = v ∨ ∃ x ∈ l, foldEmin g v l = g x := by
  induction l generalizing v with
  | nil => exact Or.inl rfl
  | cons y ys ih =>
    rw [foldEmin_cons]
    rcases ih (emin v (g y)) with h | ⟨x, hx, h⟩
    · rcases emin_or v (g y) with h' | h'
      · exact Or.inl (h.trans h')
      · exact Or.inr ⟨y, List.mem_cons_self y ys, h.trans h'⟩
    · exact Or.inr ⟨x, List.mem_cons_of_mem y hx, h⟩

theorem le_foldEmin {v z : EInt} {l : List α} (hv : ele z v = true)
    (hl : ∀ x ∈ l, ele z (g x) = true) : ele z (foldEmin g v l) = true := by
  rcases foldEmin_cases g v l with h | ⟨x, hx, h⟩
  · rw [h]; exact hv
  · rw [h]; exact hl x hx

end Folds

/-! ## Lemmas: `maxList` / `minList` -/

theorem emax_fin_fin (a b : Int) : emax (EInt.fin a) (EInt.fin b) = EInt.fin (max a b) := by
  unfold emax
  by_cases h : b ≤ a
  · simp [ele, h, max_eq_left h]
  · have h' : a ≤ b := by omega
    simp [ele, h, max_eq_right h']

theorem emin_fin_fin (a b : Int) : emin (EInt.fin a) (EInt.fin b) = EInt.fin (min a b) := by
  unfold emin
  by_cases h : a ≤ b
  · simp [ele, h, min_eq_left h]
  · have h' : b ≤ a := by omega
    simp [ele, h, min_eq_right h']

theorem emax_ninf_left (b : EInt) : emax EInt.ninf b = b := by
  cases b <;> simp [emax, ele]

theorem emin_pinf_left (b : EInt) : emin EInt.pinf b = b := by
  cases b <;> simp [emin, ele]

theorem foldEmax_fin (h : Nat → Int) (l : List Nat) (a : Int) :
    foldEmax (fun x => EInt.fin (h x)) (EInt.fin a) l =
      EInt.fin (l.foldl (fun acc x => max acc (h x)) a) := by
  induction l generalizing a with
  | nil => rfl
  | cons x xs ih =>
    rw [foldEmax_cons, emax_fin_fin, ih]
    rfl

theorem foldEmin_fin (h : Nat → Int) (l : List Nat) (a : Int) :
    foldEmin (fun x => EInt.fin (h x)) (EInt.fin a) l =
      EInt.fin (l.foldl (fun acc x => min acc (h x)) a) := by
  induction l generalizing a with
  | nil => rfl
  | cons x xs ih =>
    rw [foldEmin_cons, emin_fin_fin, ih]
    rfl

theorem foldEmax_ninf_maxList (h : Nat → Int) (l : List Nat) (hne : l ≠ []) :
    foldEmax (fun x => EInt.fin (h x)) EInt.ninf l = EInt.fin (maxList (l.map h)) := by
  cases l with
  | nil => cases hne rfl
  | cons x xs =>
    rw [foldEmax_cons, emax_ninf_left, foldEmax_fin]
    simp only [List.map_cons]
    rw [show maxList (h x :: List.map h xs) = (List.map h xs).foldl max (h x) from rfl,
      List.foldl_map]

theorem foldEmin_pinf_minList (h : Nat → Int) (l : List Nat) (hne : l ≠ []) :
    foldEmin (fun x => EInt.fin (h x)) EInt.pinf l = EInt.fin (minList (l.map h)) := by
  cases l with
  | nil => cases hne rfl
  | cons x xs =>
    rw [foldEmin_cons, emin_pinf_left, foldEmin_fin]
    simp only [List.map_cons]
    rw [show minList (h x :: List.map h xs) = (List.map h xs).foldl min (h x) from rfl,
      List.foldl_map]

/-! ## Lemmas: `maxList`/`minList` characterization -/

theorem foldl_max_cases (xs : List Int) (a : Int) :
    xs.foldl max a = a ∨ xs.foldl max a ∈ xs := by
  induction xs generalizing a with
  | nil => exact Or.inl rfl
  | cons x xs ih =>
    simp only [List.foldl_cons]
    rcases ih (max a x) with h | h
    · rcases max_choice a x with h' | h'
      · exact Or.inl (by rw [h, h'])
      · exact Or.inr (by rw [h, h']; exact List.mem_cons_self x xs)
    · exact Or.inr (List.mem_cons_of_mem x h)

theorem le_foldl_max_seed (xs : List Int) (a : Int) : a ≤ xs.foldl max a := by
  induction xs generalizing a with
  | nil => exact le_refl a
  | cons x xs ih =>
    exact le_trans (le_max_left a x) (ih (max a x))

theorem le_foldl_max_mem (xs : List Int) {y : Int} (hy : y ∈ xs) :
    ∀ a, y ≤ xs.foldl max a := by
  induction xs with
  | nil => cases hy
  | cons x xs ih =>
    intro a
    simp only [List.foldl_cons]
    rcases List.mem_cons.mp hy with rfl | hmem
    · exact le_trans (le_max_right a y) (le_foldl_max_seed xs (max a y))
    · exact ih hmem (max a x)

theorem maxList_mem {l : List Int} (h : l ≠ []) : maxList l ∈ l := by
  cases l with
  | nil => cases h rfl
  | cons x xs =>
    rcases foldl_max_cases xs x with h' | h'
    · rw [show maxList (x :: xs) = xs.foldl max x from rfl, h']
      exact List.mem_cons_self x xs
    · exact List.mem_cons_of_mem x h'

theorem le_maxList {l : List Int} {y : Int} (hy : y ∈ l) : y ≤ maxList l := by
  cases l with
  | nil => cases hy
  | cons x xs =>
    rcases List.mem_cons.mp hy with rfl | hmem
    · exact le_foldl_max_seed xs y
    · exact le_foldl_max_mem xs hmem x

theorem foldl_min_cases (xs : List Int) (a : Int) :
    xs.foldl min a = a ∨ xs.foldl min a ∈ xs := by
  induction xs generalizing a with
  | nil => exact Or.inl rfl
  | cons x xs ih =>
    simp only [List.foldl_cons]
    rcases ih (min a x) with h | h
    · rcases min_choice a x with h' | h'
      · exact Or.inl (by rw [h, h'])
      · exact Or.inr (by rw [h, h']; exact List.mem_cons_self x xs)
    · exact Or.inr (List.mem_cons_of_mem x h)

theorem foldl_min_le_seed (xs : List Int) (a : Int) : xs.foldl min a ≤ a := by
  induction xs generalizing a with
  | nil => exact le_refl a
  | cons x xs ih =>
    exact le_trans (ih (min a x)) (min_le_left a x)

theorem foldl_min_le_mem (xs : List Int) {y : Int} (hy : y ∈ xs) :
    ∀ a, xs.foldl min a ≤ y := by
  induction xs with
  | nil => cases hy
  | cons x xs ih =>
    intro a
    simp only [List.foldl_cons]
    rcases List.mem_cons.mp hy with rfl | hmem
    · exact le_trans (foldl_min_le_seed xs (min a y)) (min_le_right a y)
    · exact ih hmem (min a x)

theorem minList_mem {l : List Int} (h : l ≠ []) : minList l ∈ l := by
  cases l with
  | nil => cases h rfl
  | cons x xs =>
    rcases foldl_min_cases xs x with h' | h'
    · rw [show minList (x :: xs) = xs.foldl min x from rfl, h']
      exact List.mem_cons_self x xs
    · exact List.mem_cons_of_mem x h'

theorem minList_le {l : List Int} {y : Int} (hy : y ∈ l) : minList l ≤ y := by
  cases l with
  | nil => cases hy
  | cons x xs =>
    rcases List.mem_cons.mp hy with rfl | hmem
    · exact foldl_min_le_seed xs y
    · exact foldl_min_le_mem xs hmem x

theorem foldEmax_comp {α β : Type} (g : β → EInt) (f : α → β) (v : EInt) (l : List α) :
    foldEmax (fun x => g (f x)) v l = foldEmax g v (l.map f) := by
  unfold foldEmax
  rw [List.foldl_map]

theorem foldEmin_comp {α β : Type} (g : β → EInt) (f : α → β) (v : EInt) (l : List α) :
    foldEmin (fun x => g (f x)) v l = foldEmin g v (l.map f) := by
  unfold foldEmin
  rw [List.foldl_map]

/-- Two nonempty integer lists with the same elements have the same maximum. -/
theorem maxList_congr_mem {A B : List Int} (hA : A ≠ []) (hB : B ≠ [])
    (h : ∀ x, x ∈ A ↔ x ∈ B) : maxList A = maxList B :=
  le_antisymm (le_maxList ((h _).mp (maxList_mem hA)))
    (le_maxList ((h _).mpr (maxList_mem hB)))

/-- Two nonempty integer lists with the same elements have the same minimum. -/
theorem minList_congr_mem {A B : List Int} (hA : A ≠ []) (hB : B ≠ [])
    (h : ∀ x, x ∈ A ↔ x ∈ B) : minList A = minList B :=
  le_antisymm (minList_le ((h _).mpr (minList_mem hB)))
    (minList_le ((h _).mp (minList_mem hA)))

/-! ## Lemmas: move generation -/

/-- The stable boolean-key sort of the killer reordering keeps exactly the
original elements. -/
theorem mem_partition_iff {α : Type} (q : α → Bool) (C : List α) (mc : α) :
    mc ∈ (C.filter q ++ C.filter (fun x => !(q x))) ↔ mc ∈ C := by
  constructor
  · intro h
    rcases List.mem_append.mp h with h' | h' <;> exact (List.mem_filter.mp h').1
  · intro h
    rw [List.mem_append]
    cases hq : q mc
    · exact Or.inr (List.mem_filter.mpr ⟨h, by simp [hq]⟩)
    · exact Or.inl (List.mem_filter.mpr ⟨h, hq⟩)

theorem positions_bounds : ∀ rc ∈ POSITIONS, rc.1 < 3 ∧ rc.2 < 3 := by decide

namespace killer

/-- The child boards of `simple_minimax` are the `place`d versions of the
masks collected by `alphabeta`'s `check` pass. -/
theorem childBoards_eq (b : Nat) (p : Int) :
    POSITIONS.filterMap (fun rc => place b rc.1 rc.2 p) =
      (POSITIONS.filterMap (fun rc => check b rc.1 rc.2 p)).map (fun m => b ||| m) := by
  rw [List.map_filterMap]
  apply List.filterMap_congr
  intro rc _
  rcases hc : check b rc.1 rc.2 p with _ | m
  · rw [(place_eq_none_iff _ _ _ _).mpr ((check_eq_none_iff _ _ _ _).mp hc)]
    rfl
  · have h2 := (check_eq_some_iff b rc.1 rc.2 p m).mp hc
    show place b rc.1 rc.2 p = some (b ||| m)
    rw [h2.1]
    exact (place_eq_some_iff _ _ _ _ _).mpr ⟨h2.2, rfl⟩

/-- The per-mask test of `won` only produces the two player codes. -/
theorem won_values (b : Nat) : won b = none ∨ won b = some 1 ∨ won b = some (-1) := by
  have key : ∀ L : List Nat,
      L.findSome? (fun m => if b &&& m = m then some (-1)
        else if (b >>> 9) &&& m = m then some 1 else none) = none ∨
      L.findSome? (fun m => if b &&& m = m then some (-1)
        else if (b >>> 9) &&& m = m then some 1 else none) = some 1 ∨
      L.findSome? (fun m => if b &&& m = m then some (-1)
        else if (b >>> 9) &&& m = m then some 1 else none) = some (-1) := by
    intro L
    induction L with
    | nil => simp
    | cons m ms ih =>
      rw [List.findSome?_cons]
      by_cases h1 : b &&& m = m
      · simp [h1]
      · by_cases h2 : (b >>> 9) &&& m = m
        · simp [h1, h2]
        · simpa [h1, h2] using ih
  exact key masks

theorem simple_evaluate_eq_none_iff (b : Nat) :
    simple_evaluate b = none ↔ won b = none ∧ spaces b ≠ 0 := by
  unfold simple_evaluate
  rcases won_values b with h | h | h <;> rw [h]
  · by_cases hs : spaces b = 0 <;> simp [hs]
  · simp
  · simp

/-- A well-formed board is full exactly when all nine cells are occupied. -/
theorem spaces_eq_zero_iff {b : Nat} (hw : wf b) : spaces b = 0 ↔ popcount b = 9 := by
  have := wf_popcount_le hw
  unfold spaces
  omega

theorem popcount_split (b : Nat) :
    popcount b = popcount (b >>> 9) + popcount (b % 2 ^ 9) := by
  have hsplit : b = ((b >>> 9) <<< 9) ||| (b % 2 ^ 9) := by
    apply Nat.eq_of_testBit_eq
    intro i
    rw [Nat.testBit_or, Nat.testBit_shiftLeft, Nat.testBit_mod_two_pow,
      Nat.testBit_shiftRight]
    by_cases hi9 : i < 9
    · have : ¬(9 ≤ i) := by omega
      simp [this, hi9]
    · have h9 : 9 ≤ i := by omega
      have : 9 + (i - 9) = i := by omega
      simp [h9, hi9, this]
  have hdisj2 : ((b >>> 9) <<< 9) &&& (b % 2 ^ 9) = 0 := by
    rw [nat_eq_zero_iff_testBit]
    intro i
    rw [Nat.testBit_and, Nat.testBit_shiftLeft, Nat.testBit_mod_two_pow]
    by_cases hi9 : i < 9
    · have : ¬(9 ≤ i) := by omega
      simp [this]
    · simp [hi9]
  conv_lhs => rw [hsplit]
  rw [popcount_lor_disjoint _ _ hdisj2, Nat.shiftLeft_eq, popcount_mul_two_pow]

theorem positions_cover : ∀ k, k < 9 →
    ∃ rc, rc ∈ POSITIONS ∧ 3 * (2 - rc.1) + (2 - rc.2) = k := by decide

/-- A well-formed board with an empty cell admits a successful `check` for
either player. -/
theorem exists_check {b : Nat} {p : Int} (hw : wf b) (hpc : popcount b ≤ 8)
    (hp : p = 1 ∨ p = -1) :
    ∃ rc ∈ POSITIONS, check b rc.1 rc.2 p = some (mask rc.1 rc.2 p) := by
  -- first, an empty cell exists
  have hfree : ∃ k, k < 9 ∧ b.testBit k = false ∧ b.testBit (k + 9) = false := by
    by_contra hall
    push_neg at hall
    set hi := b >>> 9 with hhi
    set lo := b % 2 ^ 9 with hlo
    have hdisj3 : hi &&& lo = 0 := by
      have h511 : lo = b &&& (2 ^ 9 - 1) := by
        rw [hlo, Nat.and_pow_two_sub_one_eq_mod]
      rw [h511, ← Nat.land_assoc]
      have h : (511 : Nat) = 2 ^ 9 - 1 := rfl
      rw [← h]
      exact hw.2
    have hcover : (lo ||| hi) &&& 511 = 511 := by
      apply Nat.eq_of_testBit_eq
      intro i
      rw [Nat.testBit_and, Nat.testBit_or,
        show (511 : Nat) = 2 ^ 9 - 1 from rfl, Nat.testBit_two_pow_sub_one]
      by_cases hi9 : i < 9
      · have hbits := hall i hi9
        have hloB : lo.testBit i = b.testBit i := by
          rw [hlo, Nat.testBit_mod_two_pow]
          simp [hi9]
        have hhiB : hi.testBit i = b.testBit (i + 9) := by
          rw [hhi, Nat.testBit_shiftRight, Nat.add_comm]
        have hor : (b.testBit i || b.testBit (i + 9)) = true := by
          cases h1 : b.testBit i
          · cases h2 : b.testBit (i + 9)
            · exact absurd h2 (hbits h1)
            · rfl
          · rfl
        rw [hloB, hhiB]
        simp [hi9, hor]
      · simp [hi9]
    have h9le : 9 ≤ popcount (lo ||| hi) := by
      have e1 : popcount ((lo ||| hi) &&& 511) = 9 := by rw [hcover]; rfl
      have e2 : popcount ((lo ||| hi) &&& 511) ≤ popcount (lo ||| hi) := by
        rw [Nat.land_comm]
        exact popcount_and_le 511 (lo ||| hi)
      omega
    have hsum : popcount (lo ||| hi) = popcount b := by
      rw [popcount_lor_disjoint lo hi (by rw [Nat.land_comm]; exact hdisj3)]
      rw [popcount_split b, ← hhi, ← hlo]
      omega
    omega
  obtain ⟨k, hk9, hbk, hbk9⟩ := hfree
  obtain ⟨rc, hrc, hoff⟩ := positions_cover k hk9
  refine ⟨rc, hrc, ?_⟩
  rw [check_eq_some_iff]
  refine ⟨rfl, ?_⟩
  rw [free_iff_testBit b rc.1 rc.2 p hp, hoff]
  exact ⟨hbk, by rw [Nat.add_comm] at hbk9 ⊢; exact hbk9⟩

end killer

/-! ## Lemmas: the reference minimax value `mm` -/

namespace killer

theorem neg_player {p : Int} (hp : p = 1 ∨ p = -1) : -p = 1 ∨ -p = -1 := by
  rcases hp with rfl | rfl
  · exact Or.inr rfl
  · exact Or.inl rfl

theorem mm_terminal {fuel : Nat} {b : Nat} {v : Int} (p : Int)
    (h : simple_evaluate b = some v) : mm fuel b p = v := by
  cases fuel with
  | zero => simp [mm, h]
  | succ fuel => simp [mm, h]

theorem mm_nonterminal {fuel : Nat} {b : Nat} (p : Int)
    (h : simple_evaluate b = none) :
    mm (fuel + 1) b p =
      if p = 1 then
        maxList ((POSITIONS.filterMap (fun rc => place b rc.1 rc.2 p)).map
          (fun bb => mm fuel bb (-p)))
      else
        minList ((POSITIONS.filterMap (fun rc => place b rc.1 rc.2 p)).map
          (fun bb => mm fuel bb (-p))) := by
  by_cases hp : p = 1 <;> simp [mm, h, hp]

theorem childBoards_facts {b : Nat} {p : Int} (hw : wf b) (hp : p = 1 ∨ p = -1) :
    ∀ bb ∈ POSITIONS.filterMap (fun rc => place b rc.1 rc.2 p),
      wf bb ∧ popcount bb = popcount b + 1 := by
  intro bb hbb
  rw [List.mem_filterMap] at hbb
  obtain ⟨rc, hrc, hpl⟩ := hbb
  rw [place_eq_some_iff] at hpl
  obtain ⟨hfree, rfl⟩ := hpl
  have hchk : check b rc.1 rc.2 p = some (mask rc.1 rc.2 p) :=
    (check_eq_some_iff b rc.1 rc.2 p _).mpr ⟨rfl, hfree⟩
  have hb := positions_bounds rc hrc
  exact wf_place_of_check hw hb.1 hb.2 hp hchk

theorem nonterminal_popcount_le {b : Nat} (hw : wf b)
    (heval : simple_evaluate b = none) : popcount b ≤ 8 := by
  have hsp := (simple_evaluate_eq_none_iff b).mp heval
  have h9 := wf_popcount_le hw
  have := hsp.2
  unfold spaces at this
  omega

theorem childBoards_ne_nil {b : Nat} {p : Int} (hw : wf b) (hp : p = 1 ∨ p = -1)
    (heval : simple_evaluate b = none) :
    POSITIONS.filterMap (fun rc => place b rc.1 rc.2 p) ≠ [] := by
  obtain ⟨rc, hrc, hchk⟩ := exists_check hw (nonterminal_popcount_le hw heval) hp
  intro hnil
  have hmem : (b ||| mask rc.1 rc.2 p) ∈
      POSITIONS.filterMap (fun rc => place b rc.1 rc.2 p) := by
    rw [List.mem_filterMap]
    refine ⟨rc, hrc, ?_⟩
    rw [place_eq_some_iff]
    exact ⟨((check_eq_some_iff b rc.1 rc.2 p _).mp hchk).2, rfl⟩
  rw [hnil] at hmem
  cases hmem

theorem mm_fuel_irrel : ∀ f g b p, wf b → (p = 1 ∨ p = -1) → 10 ≤ f + popcount b →
    10 ≤ g + popcount b → mm f b p = mm g b p := by
  intro f
  induction f with
  | zero =>
    intro g b p hw _ hf _
    have := wf_popcount_le hw
    omega
  | succ f ih =>
    intro g b p hw hp hf hg
    cases g with
    | zero =>
      have := wf_popcount_le hw
      omega
    | succ g =>
      rcases heval : simple_evaluate b with _ | v
      · rw [mm_nonterminal p heval, mm_nonterminal p heval]
        have hmap : (POSITIONS.filterMap (fun rc => place b rc.1 rc.2 p)).map
            (fun bb => mm f bb (-p)) =
            (POSITIONS.filterMap (fun rc => place b rc.1 rc.2 p)).map
            (fun bb => mm g bb (-p)) := by
          apply List.map_congr_left
          intro bb hbb
          obtain ⟨hwbb, hpcbb⟩ := childBoards_facts hw hp bb hbb
          exact ih g bb (-p) hwbb (neg_player hp) (by omega) (by omega)
        rw [hmap]
      · rw [mm_terminal p heval, mm_terminal p heval]

/-! ## Lemma: `simple_minimax` computes `mm` from any valid cache -/

theorem cacheLookup_some {c : Cache} {b : Nat} {p : Int} {v : Int}
    (h : cacheLookup c b p = some v) :
    ∃ e ∈ c, e.1.1 = b ∧ e.1.2 = p ∧ e.2 = v := by
  unfold cacheLookup at h
  rcases hf : c.find? (fun e => e.1.1 == b && e.1.2 == p) with _ | e
  · rw [hf] at h; cases h
  · rw [hf] at h
    have hmem := List.mem_of_find?_eq_some hf
    have hpred := List.find?_some hf
    simp only [Bool.and_eq_true, beq_iff_eq] at hpred
    simp only [Option.map_some'] at h
    exact ⟨e, hmem, hpred.1, hpred.2, by injection h⟩

theorem smLoop_spec (f : Nat → Cache → Int × Cache) (vals : Nat → Int)
    (P : Nat → Prop)
    (hf : ∀ bb c, P bb → ValidC c → (f bb c).1 = vals bb ∧ ValidC (f bb c).2) :
    ∀ bs c, (∀ bb ∈ bs, P bb) → ValidC c →
      (smLoop f bs c).1 = bs.map vals ∧ ValidC (smLoop f bs c).2 := by
  intro bs
  induction bs with
  | nil => intro c _ hc; exact ⟨rfl, hc⟩
  | cons bb bs ih =>
    intro c hP hc
    have h1 := hf bb c (hP bb (List.mem_cons_self bb bs)) hc
    have h2 := ih (f bb c).2 (fun x hx => hP x (List.mem_cons_of_mem bb hx)) h1.2
    unfold smLoop
    refine ⟨?_, h2.2⟩
    simp only [List.map_cons]
    rw [← h1.1, ← h2.1]

theorem simple_minimaxF_correct :
    ∀ fuel b p c, wf b → (p = 1 ∨ p = -1) → 10 ≤ fuel + popcount b → ValidC c →
      (simple_minimaxF fuel b p c).1 = mm fuel b p ∧
      ValidC (simple_minimaxF fuel b p c).2 := by
  intro fuel
  induction fuel with
  | zero =>
    intro b p c hw _ hf _
    have := wf_popcount_le hw
    omega
  | succ fuel ih =>
    intro b p c hw hp hf hc
    rcases hl : cacheLookup c b p with _ | v
    · -- cache miss: evaluate, then recurse over the children
      rcases heval : simple_evaluate b with _ | v
      · have hmemfacts := childBoards_facts hw hp
        simp only [simple_minimaxF, hl, heval]
        rw [mm_nonterminal p heval]
        generalize hg : POSITIONS.filterMap (fun rc => place b rc.1 rc.2 p) = cbs
          at hmemfacts ⊢
        have hloop := smLoop_spec
          (fun bb cc => simple_minimaxF fuel bb (-p) cc)
          (fun bb => mm fuel bb (-p))
          (fun bb => wf bb ∧ popcount bb = popcount b + 1)
          (fun bb cc hP hcc => ih bb (-p) cc hP.1 (neg_player hp) (by omega) hcc)
          cbs c hmemfacts hc
        constructor
        · rw [hloop.1]
        · intro e he
          rcases List.mem_cons.mp he with rfl | he'
          · refine ⟨hw, hp, ?_⟩
            intro f' hf'
            show (if p = 1 then maxList _ else minList _) = mm f' b p
            rw [hloop.1, mm_fuel_irrel f' (fuel + 1) b p hw hp hf' hf,
              mm_nonterminal p heval, hg]
          · exact hloop.2 e he'
      · -- terminal board
        simp only [simple_minimaxF, hl, heval]
        exact ⟨(mm_terminal p heval).symm, hc⟩
    · -- cache hit: the stored value is the minimax value
      obtain ⟨e, he, he1, he2, he3⟩ := cacheLookup_some hl
      have := (hc e he).2.2 (fuel + 1) (by rw [he1]; omega)
      constructor
      · simp only [simple_minimaxF, hl]
        rw [← he3, this, he1, he2]
      · simp only [simple_minimaxF, hl]
        exact hc

theorem ValidC_nil : ValidC [] := by
  intro e he
  cases he

end killer

/-! ## Lemma: `alphabeta` neither reads nor writes the cache -/

namespace killer

theorem abMaxLoop_frame
    (f : Nat → EInt → EInt → List Nat → Cache → EInt × List Nat × Cache)
    (β : EInt)
    (hf : ∀ ch a bb ks c, f ch a bb ks c =
      ((f ch a bb ks []).1, (f ch a bb ks []).2.1, c)) :
    ∀ cs v a ks c, abMaxLoop f β cs v a ks c =
      ((abMaxLoop f β cs v a ks []).1, (abMaxLoop f β cs v a ks []).2.1, c) := by
  intro cs
  induction cs with
  | nil => intro v a ks c; rfl
  | cons mc rest ih =>
    intro v a ks c
    obtain ⟨m, ch⟩ := mc
    have h1 := hf ch a β ks c
    have h2 := hf ch a β ks []
    simp only [abMaxLoop, h1]
    have h3 : (f ch a β ks []).2.2 = ([] : Cache) := by rw [h2]
    by_cases hcond : ele β (emax a (emax v (f ch a β ks []).1)) = true
    · simp only [hcond, if_true]
    · simp only [eq_false_of_ne_true hcond, Bool.false_eq_true, if_false, h3]
      exact ih (emax v (f ch a β ks []).1) (emax a (emax v (f ch a β ks []).1))
        ((f ch a β ks []).2.1) c

theorem abMinLoop_frame
    (f : Nat → EInt → EInt → List Nat → Cache → EInt × List Nat × Cache)
    (α : EInt)
    (hf : ∀ ch a bb ks c, f ch a bb ks c =
      ((f ch a bb ks []).1, (f ch a bb ks []).2.1, c)) :
    ∀ cs v bb ks c, abMinLoop f α cs v bb ks c =
      ((abMinLoop f α cs v bb ks []).1, (abMinLoop f α cs v bb ks []).2.1, c) := by
  intro cs
  induction cs with
  | nil => intro v bb ks c; rfl
  | cons mc rest ih =>
    intro v bb ks c
    obtain ⟨m, ch⟩ := mc
    have h1 := hf ch α bb ks c
    have h2 := hf ch α bb ks []
    simp only [abMinLoop, h1]
    have h3 : (f ch α bb ks []).2.2 = ([] : Cache) := by rw [h2]
    by_cases hcond : ele (emin bb (emin v (f ch α bb ks []).1)) α = true
    · simp only [hcond, if_true]
    · simp only [eq_false_of_ne_true hcond, Bool.false_eq_true, if_false, h3]
      exact ih (emin v (f ch α bb ks []).1) (emin bb (emin v (f ch α bb ks []).1))
        ((f ch α bb ks []).2.1) c

theorem alphabetaF_cache_frame :
    ∀ fuel b p α β ks c, alphabetaF fuel b p α β ks c =
      ((alphabetaF fuel b p α β ks []).1, (alphabetaF fuel b p α β ks []).2.1, c) := by
  intro fuel
  induction fuel with
  | zero => intro b p α β ks c; rfl
  | succ fuel ih =>
    intro b p α β ks c
    rcases heval : simple_evaluate b with _ | v
    · simp only [alphabetaF, useCacheFlag, Bool.false_eq_true, if_false, heval]
      by_cases hp1 : p = 1
      · simp only [hp1, if_true]
        exact abMaxLoop_frame _ β (fun ch a bb ks' c' => ih ch (-1) a bb ks' c') _ _ _ _ _
      · simp only [hp1, if_false]
        exact abMinLoop_frame _ α (fun ch a bb ks' c' => ih ch (-p) a bb ks' c') _ _ _ _ _
    · simp only [alphabetaF, useCacheFlag, Bool.false_eq_true, if_false, heval]

end killer

/-! ## Lemmas: fail-soft alpha-beta correctness -/

theorem emax_eq_left {a b : EInt} (h : ele b a = true) : emax a b = a := by
  unfold emax
  rw [if_pos h]

theorem emax_ninf_right (a : EInt) : emax a EInt.ninf = a := by
  apply emax_eq_left
  cases a <;> simp [ele]

theorem emin_eq_left {a b : EInt} (h : ele a b = true) : emin a b = a := by
  unfold emin
  rw [if_pos h]

theorem emin_pinf_right (a : EInt) : emin a EInt.pinf = a := by
  apply emin_eq_left
  cases a <;> simp [ele]

theorem elt_true_of_ele_false {a b : EInt} (h : ele b a = false) : elt a b = true := by
  simp [elt, h]

theorem absurd_elt_ele {a b : EInt} (h1 : elt a b = true) (h2 : ele b a = true) : False := by
  rw [elt_iff_not_ele] at h1
  exact h1 h2

theorem ele_of_emax_eq_left {a b : EInt} (h : emax a b = a) : ele b a = true := by
  by_cases h' : ele b a = true
  · exact h'
  · unfold emax at h
    rw [if_neg h'] at h
    rw [h]
    exact ele_refl a

theorem ele_of_emin_eq_left {a b : EInt} (h : emin a b = a) : ele a b = true := by
  by_cases h' : ele a b = true
  · exact h'
  · unfold emin at h
    rw [if_neg h'] at h
    rw [h]
    exact ele_refl a

namespace killer

theorem abMaxLoop_contract
    (f : Nat → EInt → EInt → List Nat → Cache → EInt × List Nat × Cache)
    (val : Nat → Int) (a0 b0 : EInt) :
    ∀ cs : List (Nat × Nat),
      (∀ mc ∈ cs, ∀ a ks cc, elt a b0 = true →
        EContract (val mc.2) a b0 (f mc.2 a b0 ks cc).1) →
      ∀ v a ks cc, a = emax a0 v → elt a b0 = true →
        (ele (abMaxLoop f b0 cs v a ks cc).1 a0 = true →
          ele (foldEmax (fun mc => EInt.fin (val mc.2)) v cs)
            (abMaxLoop f b0 cs v a ks cc).1 = true) ∧
        (ele b0 (abMaxLoop f b0 cs v a ks cc).1 = true →
          ele (abMaxLoop f b0 cs v a ks cc).1
            (foldEmax (fun mc => EInt.fin (val mc.2)) v cs) = true) ∧
        (elt a0 (abMaxLoop f b0 cs v a ks cc).1 = true →
          elt (abMaxLoop f b0 cs v a ks cc).1 b0 = true →
          (abMaxLoop f b0 cs v a ks cc).1 =
            foldEmax (fun mc => EInt.fin (val mc.2)) v cs) := by
  intro cs
  induction cs with
  | nil =>
    intro _ v a ks cc _ _
    exact ⟨fun _ => ele_refl v, fun _ => ele_refl v, fun _ _ => rfl⟩
  | cons mc rest ih =>
    obtain ⟨m, ch⟩ := mc
    intro hf v a ks cc ha hab
    have hva : ele v a = true := ha ▸ ele_right_emax a0 v
    have ha0a : ele a0 a = true := ha ▸ ele_left_emax a0 v
    have Hc := hf (m, ch) (List.mem_cons_self _ _) a ks cc hab
    dsimp only at Hc
    simp only [abMaxLoop, foldEmax_cons]
    obtain ⟨Hc1, Hc2, Hc3⟩ := Hc
    generalize hrc : (f ch a b0 ks cc).1 = rc at Hc1 Hc2 Hc3 ⊢
    by_cases hbreak : ele b0 (emax a (emax v rc)) = true
    · -- beta cut-off: the loop returns `emax v rc` at once
      simp only [hbreak, if_true]
      have hb0rc : ele b0 rc = true := by
        rcases ele_emax_elim hbreak with h | h
        · exact absurd_elt_ele hab h |>.elim
        · rcases ele_emax_elim h with h' | h'
          · exact absurd_elt_ele hab (ele_trans h' hva) |>.elim
          · exact h'
      refine ⟨?_, ?_, ?_⟩
      · intro hRa0
        have : ele b0 a = true :=
          ele_trans hb0rc (ele_trans (ele_trans (ele_right_emax v rc) hRa0) ha0a)
        exact absurd_elt_ele hab this |>.elim
      · intro _
        apply emax_le
        · exact ele_trans (ele_left_emax v (EInt.fin (val ch)))
            (ele_seed_foldEmax _ _ rest)
        · exact ele_trans (Hc2 hb0rc)
            (ele_trans (ele_right_emax v (EInt.fin (val ch)))
              (ele_seed_foldEmax _ _ rest))
      · intro _ hRb0
        exact absurd_elt_ele hRb0
          (ele_trans hb0rc (ele_right_emax v rc)) |>.elim
    · -- no cut-off: continue with the rest of the children
      simp only [eq_false_of_ne_true hbreak, Bool.false_eq_true, if_false]
      have hcont : elt (emax a (emax v rc)) b0 = true :=
        elt_true_of_ele_false (eq_false_of_ne_true hbreak)
      have halpha : emax a (emax v rc) = emax a0 (emax v rc) := by
        rw [ha]
        exact emax_assoc_self a0 v rc
      have IH := ih (fun mc hmc => hf mc (List.mem_cons_of_mem _ hmc))
        (emax v rc) (emax a (emax v rc)) (f ch a b0 ks cc).2.1 (f ch a b0 ks cc).2.2
        halpha hcont
      obtain ⟨IH1, IH2, IH3⟩ := IH
      have hrc_cases : ele rc a = true ∨ (elt a rc = true ∧ rc = EInt.fin (val ch)) := by
        by_cases h : ele rc a = true
        · exact Or.inl h
        · have h' : elt a rc = true := elt_true_of_ele_false (eq_false_of_ne_true h)
          have hrcb : elt rc b0 = true :=
            elt_of_ele_of_elt
              (ele_trans (ele_right_emax v rc) (ele_right_emax a (emax v rc))) hcont
          exact Or.inr ⟨h', Hc3 h' hrcb⟩
      have hvT : ele (emax v rc)
          (foldEmax (fun mc => EInt.fin (val mc.2)) (emax v rc) rest) = true :=
        ele_seed_foldEmax _ _ rest
      rcases hrc_cases with hle | ⟨_, heq⟩
      · -- the child failed low (its soft value is at most alpha)
        refine ⟨?_, ?_, ?_⟩
        · -- fail low
          intro hRa0
          have hT'R := IH1 hRa0
          apply foldEmax_le
          · apply emax_le
            · exact ele_trans (ele_left_emax v rc) (ele_trans hvT hT'R)
            · exact ele_trans (Hc1 hle)
                (ele_trans (ele_right_emax v rc) (ele_trans hvT hT'R))
          · intro mc hmc
            exact ele_trans (ele_mem_foldEmax (fun mc => EInt.fin (val mc.2)) hmc) hT'R
        · -- fail high
          intro hb0R
          have hRT' := IH2 hb0R
          rcases foldEmax_cases (fun mc => EInt.fin (val mc.2)) (emax v rc) rest
            with hT | ⟨mc, hmc, hT⟩
          · rw [hT] at hRT'
            rcases ele_emax_elim hRT' with h | h
            · exact ele_trans h
                (ele_trans (ele_left_emax v (EInt.fin (val ch)))
                  (ele_seed_foldEmax (fun mc => EInt.fin (val mc.2)) _ rest))
            · exact absurd_elt_ele hab
                (ele_trans hb0R (ele_trans h hle)) |>.elim
          · rw [hT] at hRT'
            exact ele_trans hRT'
              (ele_mem_foldEmax (fun mc => EInt.fin (val mc.2)) hmc)
        · -- exact inside the window
          intro ha0R hRb0
          have hR := IH3 ha0R hRb0
          apply ele_antisymm
          · -- the loop result is at most the fold over the true values
            rw [hR]
            rcases foldEmax_cases (fun mc => EInt.fin (val mc.2)) (emax v rc) rest
              with hT | ⟨mc, hmc, hT⟩
            · rw [hT]
              apply emax_le
              · exact ele_trans (ele_left_emax v (EInt.fin (val ch)))
                  (ele_seed_foldEmax (fun mc => EInt.fin (val mc.2)) _ rest)
              · have hrca0v : ele rc (emax a0 v) = true := by rw [← ha]; exact hle
                rcases ele_emax_elim hrca0v with h9 | h9
                · rcases emax_or v rc with hv1 | hv1
                  · have hrcv : ele rc v = true := ele_of_emax_eq_left hv1
                    exact ele_trans hrcv
                      (ele_trans (ele_left_emax v (EInt.fin (val ch)))
                        (ele_seed_foldEmax (fun mc => EInt.fin (val mc.2)) _ rest))
                  · rw [hR, hT, hv1] at ha0R
                    exact absurd_elt_ele ha0R h9 |>.elim
                · exact ele_trans h9
                    (ele_trans (ele_left_emax v (EInt.fin (val ch)))
                      (ele_seed_foldEmax (fun mc => EInt.fin (val mc.2)) _ rest))
            · rw [hT]
              exact ele_mem_foldEmax (fun mc => EInt.fin (val mc.2)) hmc
          · -- the fold is at most the loop result
            apply foldEmax_le
            · apply emax_le
              · rw [hR]
                exact ele_trans (ele_left_emax v rc) hvT
              · rw [hR]
                exact ele_trans (Hc1 hle)
                  (ele_trans (ele_right_emax v rc) hvT)
            · intro mc hmc
              rw [hR]
              exact ele_mem_foldEmax (fun mc => EInt.fin (val mc.2)) hmc
      · -- the child's score is its exact value: seeds agree on both sides
        subst heq
        exact ⟨IH1, IH2, IH3⟩


theorem abMinLoop_contract
    (f : Nat → EInt → EInt → List Nat → Cache → EInt × List Nat × Cache)
    (val : Nat → Int) (a0 b0 : EInt) :
    ∀ cs : List (Nat × Nat),
      (∀ mc ∈ cs, ∀ bb ks cc, elt a0 bb = true →
        EContract (val mc.2) a0 bb (f mc.2 a0 bb ks cc).1) →
      ∀ v bb ks cc, bb = emin b0 v → elt a0 bb = true →
        (ele (abMinLoop f a0 cs v bb ks cc).1 a0 = true →
          ele (foldEmin (fun mc => EInt.fin (val mc.2)) v cs)
            (abMinLoop f a0 cs v bb ks cc).1 = true) ∧
        (ele b0 (abMinLoop f a0 cs v bb ks cc).1 = true →
          ele (abMinLoop f a0 cs v bb ks cc).1
            (foldEmin (fun mc => EInt.fin (val mc.2)) v cs) = true) ∧
        (elt a0 (abMinLoop f a0 cs v bb ks cc).1 = true →
          elt (abMinLoop f a0 cs v bb ks cc).1 b0 = true →
          (abMinLoop f a0 cs v bb ks cc).1 =
            foldEmin (fun mc => EInt.fin (val mc.2)) v cs) := by
  intro cs
  induction cs with
  | nil =>
    intro _ v bb ks cc _ _
    exact ⟨fun _ => ele_refl v, fun _ => ele_refl v, fun _ _ => rfl⟩
  | cons mc rest ih =>
    obtain ⟨m, ch⟩ := mc
    intro hf v bb ks cc hb hab
    have hbv : ele bb v = true := hb ▸ ele_emin_right b0 v
    have hbb0 : ele bb b0 = true := hb ▸ ele_emin_left b0 v
    have Hc := hf (m, ch) (List.mem_cons_self _ _) bb ks cc hab
    dsimp only at Hc
    simp only [abMinLoop, foldEmin_cons]
    obtain ⟨Hc1, Hc2, Hc3⟩ := Hc
    generalize hrc : (f ch a0 bb ks cc).1 = rc at Hc1 Hc2 Hc3 ⊢
    by_cases hbreak : ele (emin bb (emin v rc)) a0 = true
    · -- alpha cut-off: the loop returns `emin v rc` at once
      simp only [hbreak, if_true]
      have hrca0 : ele rc a0 = true := by
        rcases ele_emin_elim hbreak with h | h
        · exact absurd_elt_ele hab h |>.elim
        · rcases ele_emin_elim h with h' | h'
          · exact absurd_elt_ele hab (ele_trans hbv h') |>.elim
          · exact h'
      refine ⟨?_, ?_, ?_⟩
      · intro _
        apply le_emin
        · exact ele_trans (foldEmin_ele_seed _ _ rest)
            (ele_emin_left v (EInt.fin (val ch)))
        · exact ele_trans
            (ele_trans (foldEmin_ele_seed _ _ rest)
              (ele_emin_right v (EInt.fin (val ch))))
            (Hc1 hrca0)
      · intro hb0R
        have : ele bb a0 = true :=
          ele_trans (ele_trans hbb0 (ele_trans hb0R (ele_emin_right v rc))) hrca0
        exact absurd_elt_ele hab this |>.elim
      · intro ha0R _
        exact absurd_elt_ele ha0R
          (ele_trans (ele_emin_right v rc) hrca0) |>.elim
    · -- no cut-off: continue with the rest of the children
      simp only [eq_false_of_ne_true hbreak, Bool.false_eq_true, if_false]
      have hcont : elt a0 (emin bb (emin v rc)) = true :=
        elt_true_of_ele_false (eq_false_of_ne_true hbreak)
      have hbeta : emin bb (emin v rc) = emin b0 (emin v rc) := by
        rw [hb]
        exact emin_assoc_self b0 v rc
      have IH := ih (fun mc hmc => hf mc (List.mem_cons_of_mem _ hmc))
        (emin v rc) (emin bb (emin v rc)) (f ch a0 bb ks cc).2.1 (f ch a0 bb ks cc).2.2
        hbeta hcont
      obtain ⟨IH1, IH2, IH3⟩ := IH
      have hrc_cases : ele bb rc = true ∨ (elt rc bb = true ∧ rc = EInt.fin (val ch)) := by
        by_cases h : ele bb rc = true
        · exact Or.inl h
        · have h' : elt rc bb = true := elt_true_of_ele_false (eq_false_of_ne_true h)
          have ha0rc : elt a0 rc = true :=
            elt_of_elt_of_ele hcont
              (ele_trans (ele_emin_right bb (emin v rc)) (ele_emin_right v rc))
          exact Or.inr ⟨h', Hc3 ha0rc h'⟩
      have hvT : ele (foldEmin (fun mc => EInt.fin (val mc.2)) (emin v rc) rest)
          (emin v rc) = true :=
        foldEmin_ele_seed _ _ rest
      rcases hrc_cases with hge | ⟨_, heq⟩
      · -- the child failed high (its soft value is at least beta)
        refine ⟨?_, ?_, ?_⟩
        · -- fail low
          intro hRa0
          have hT'R := IH1 hRa0
          rcases foldEmin_cases (fun mc => EInt.fin (val mc.2)) (emin v rc) rest
            with hT | ⟨mc, hmc, hT⟩
          · rw [hT] at hT'R
            rcases ele_emin_elim hT'R with h | h
            · exact ele_trans
                (ele_trans (foldEmin_ele_seed (fun mc => EInt.fin (val mc.2)) _ rest)
                  (ele_emin_left v (EInt.fin (val ch)))) h
            · exact absurd_elt_ele hab
                (ele_trans hge (ele_trans h hRa0)) |>.elim
          · rw [hT] at hT'R
            exact ele_trans
              (foldEmin_ele_mem (fun mc => EInt.fin (val mc.2)) hmc) hT'R
        · -- fail high
          intro hb0R
          have hRT' := IH2 hb0R
          apply le_foldEmin
          · apply le_emin
            · exact ele_trans (ele_trans hRT' hvT) (ele_emin_left v rc)
            · exact ele_trans
                (ele_trans (ele_trans hRT' hvT) (ele_emin_right v rc))
                (Hc2 hge)
          · intro mc hmc
            exact ele_trans hRT' (foldEmin_ele_mem (fun mc => EInt.fin (val mc.2)) hmc)
        · -- exact inside the window
          intro ha0R hRb0
          have hR := IH3 ha0R hRb0
          apply ele_antisymm
          · -- the loop result is at most the fold over the true values
            apply le_foldEmin
            · apply le_emin
              · rw [hR]
                exact ele_trans hvT (ele_emin_left v rc)
              · rw [hR]
                exact ele_trans (ele_trans hvT (ele_emin_right v rc)) (Hc2 hge)
            · intro mc hmc
              rw [hR]
              exact foldEmin_ele_mem (fun mc => EInt.fin (val mc.2)) hmc
          · -- the fold is at most the loop result
            rw [hR]
            rcases foldEmin_cases (fun mc => EInt.fin (val mc.2)) (emin v rc) rest
              with hT | ⟨mc, hmc, hT⟩
            · rw [hT]
              apply le_emin
              · exact ele_trans
                  (foldEmin_ele_seed (fun mc => EInt.fin (val mc.2)) _ rest)
                  (ele_emin_left v (EInt.fin (val ch)))
              · have hrcb0v : ele (emin b0 v) rc = true := by rw [← hb]; exact hge
                rcases ele_emin_elim hrcb0v with h9 | h9
                · rcases emin_or v rc with hv1 | hv1
                  · have hvrc : ele v rc = true := ele_of_emin_eq_left hv1
                    exact ele_trans
                      (ele_trans (foldEmin_ele_seed (fun mc => EInt.fin (val mc.2)) _ rest)
                        (ele_emin_left v (EInt.fin (val ch)))) hvrc
                  · rw [hR, hT, hv1] at hRb0
                    exact absurd_elt_ele hRb0 h9 |>.elim
                · exact ele_trans
                    (ele_trans (foldEmin_ele_seed (fun mc => EInt.fin (val mc.2)) _ rest)
                      (ele_emin_left v (EInt.fin (val ch)))) h9
            · rw [hT]
              exact foldEmin_ele_mem (fun mc => EInt.fin (val mc.2)) hmc
      · -- the child's score is its exact value: seeds agree on both sides
        subst heq
        exact ⟨IH1, IH2, IH3⟩

end killer

/-! ## The main fail-soft alpha-beta correctness theorem -/

namespace killer

/-- `alphabeta` satisfies the fail-soft contract with respect to the reference
minimax value `mm`, for any killer table and cache: exact inside the window,
an upper bound on a fail-low, a lower bound on a fail-high. -/
theorem alphabetaF_contract :
    ∀ fuel b p α β ks c, wf b → (p = 1 ∨ p = -1) → 10 ≤ fuel + popcount b →
      elt α β = true →
      EContract (mm fuel b p) α β (alphabetaF fuel b p α β ks c).1 := by
  intro fuel
  induction fuel with
  | zero =>
    intro b p α β ks c hw _ hf _
    have := wf_popcount_le hw
    omega
  | succ fuel ih =>
    intro b p α β ks c hw hp hfc hab
    rcases heval : simple_evaluate b with _ | v
    · -- non-terminal node: unfold one ply and use the loop contracts
      rcases hp with rfl | rfl
      · -- maximizer ply
        have hne_cb : POSITIONS.filterMap (fun rc => place b rc.1 rc.2 1) ≠ [] :=
          childBoards_ne_nil hw (Or.inl rfl) heval
        have hcbf := childBoards_facts hw (Or.inl (rfl : (1 : Int) = 1))
        have hmm1 : mm (fuel + 1) b 1 =
            maxList ((POSITIONS.filterMap (fun rc => place b rc.1 rc.2 1)).map
              (fun bb => mm fuel bb (-1))) := by
          rw [mm_nonterminal 1 heval, if_pos rfl]
        simp only [alphabetaF, useCacheFlag, Bool.false_eq_true, if_false, heval,
          heuristicFlag, killerFlag, eq_self_iff_true, if_true]
        generalize hgc : (POSITIONS.filterMap (fun rc => check b rc.1 rc.2 1)).map
            (fun m => (m, placeMask b m)) = children
        have hsnd : children.map Prod.snd =
            POSITIONS.filterMap (fun rc => place b rc.1 rc.2 1) := by
          rw [← hgc, List.map_map]
          exact (childBoards_eq b 1).symm
        have hne_ch : children ≠ [] := by
          intro h
          apply hne_cb
          rw [← hsnd, h]
          rfl
        have hCSf : ∀ mc ∈ children.filter (fun mc => ks.contains mc.1) ++
            children.filter (fun mc => !ks.contains mc.1),
            wf mc.2 ∧ popcount mc.2 = popcount b + 1 := by
          intro mc h
          have hmc : mc ∈ children :=
            (mem_partition_iff (fun mc => ks.contains mc.1) children mc).mp h
          have h2 : mc.2 ∈ children.map Prod.snd := List.mem_map_of_mem Prod.snd hmc
          rw [hsnd] at h2
          exact hcbf mc.2 h2
        have hf' : ∀ mc ∈ children.filter (fun mc => ks.contains mc.1) ++
            children.filter (fun mc => !ks.contains mc.1),
            ∀ a ks' cc, elt a β = true →
            EContract (mm fuel mc.2 (-1)) a β (alphabetaF fuel mc.2 (-1) a β ks' cc).1 := by
          intro mc h a ks' cc hab'
          obtain ⟨hwmc, hpcmc⟩ := hCSf mc h
          exact ih mc.2 (-1) a β ks' cc hwmc (Or.inr rfl) (by omega) hab'
        have hneCS : (children.filter (fun mc => ks.contains mc.1) ++
            children.filter (fun mc => !ks.contains mc.1)) ≠ [] := by
          obtain ⟨y, hy⟩ := List.exists_mem_of_ne_nil children hne_ch
          exact List.ne_nil_of_mem
            ((mem_partition_iff (fun mc => ks.contains mc.1) children y).mpr hy)
        have hTfold : foldEmax (fun mc => EInt.fin (mm fuel mc.2 (-1))) EInt.ninf
            (children.filter (fun mc => ks.contains mc.1) ++
             children.filter (fun mc => !ks.contains mc.1)) =
            EInt.fin (mm (fuel + 1) b 1) := by
          rw [foldEmax_comp (fun x => EInt.fin (mm fuel x (-1))) Prod.snd,
            foldEmax_ninf_maxList (fun x => mm fuel x (-1)) _
              (fun h => hneCS (List.map_eq_nil.mp h)), hmm1]
          congr 1
          apply maxList_congr_mem
          · intro h
            exact hneCS (List.map_eq_nil.mp (List.map_eq_nil.mp h))
          · intro h
            exact hne_cb (List.map_eq_nil.mp h)
          · intro x
            constructor
            · intro hx
              simp only [List.mem_map] at hx ⊢
              obtain ⟨z, ⟨mc, hmc, rfl⟩, rfl⟩ := hx
              have hmc' : mc ∈ children :=
                (mem_partition_iff (fun mc => ks.contains mc.1) children mc).mp hmc
              have h2 : mc.2 ∈ children.map Prod.snd :=
                List.mem_map_of_mem Prod.snd hmc'
              rw [hsnd] at h2
              exact ⟨mc.2, h2, rfl⟩
            · intro hx
              simp only [List.mem_map] at hx ⊢
              obtain ⟨y, hy, rfl⟩ := hx
              rw [← hsnd] at hy
              obtain ⟨mc, hmc, rfl⟩ := List.mem_map.mp hy
              exact ⟨mc.2,
                ⟨mc, (mem_partition_iff (fun mc => ks.contains mc.1) children mc).mpr hmc,
                  rfl⟩, rfl⟩
        have HC := abMaxLoop_contract
          (fun ch a bb ks' cc => alphabetaF fuel ch (-1) a bb ks' cc)
          (fun x => mm fuel x (-1)) α β
          (children.filter (fun mc => ks.contains mc.1) ++
           children.filter (fun mc => !ks.contains mc.1))
          hf' EInt.ninf α ks c (emax_ninf_right α).symm hab
        rw [hTfold] at HC
        exact HC
      · -- minimizer ply
        have hne1 : ¬((-1 : Int) = 1) := by decide
        have hne_cb : POSITIONS.filterMap (fun rc => place b rc.1 rc.2 (-1)) ≠ [] :=
          childBoards_ne_nil hw (Or.inr rfl) heval
        have hcbf := childBoards_facts hw (Or.inr (rfl : (-1 : Int) = -1))
        have hmm1 : mm (fuel + 1) b (-1) =
            minList ((POSITIONS.filterMap (fun rc => place b rc.1 rc.2 (-1))).map
              (fun bb => mm fuel bb 1)) := by
          rw [mm_nonterminal (-1) heval, if_neg hne1]
          simp only [neg_neg]
        simp only [alphabetaF, useCacheFlag, Bool.false_eq_true, if_false, heval,
          heuristicFlag, killerFlag, eq_self_iff_true, if_true, hne1, neg_neg]
        generalize hgc : (POSITIONS.filterMap (fun rc => check b rc.1 rc.2 (-1))).map
            (fun m => (m, placeMask b m)) = children
        have hsnd : children.map Prod.snd =
            POSITIONS.filterMap (fun rc => place b rc.1 rc.2 (-1)) := by
          rw [← hgc, List.map_map]
          exact (childBoards_eq b (-1)).symm
        have hne_ch : children ≠ [] := by
          intro h
          apply hne_cb
          rw [← hsnd, h]
          rfl
        have hCSf : ∀ mc ∈ children.filter (fun mc => ks.contains mc.1) ++
            children.filter (fun mc => !ks.contains mc.1),
            wf mc.2 ∧ popcount mc.2 = popcount b + 1 := by
          intro mc h
          have hmc : mc ∈ children :=
            (mem_partition_iff (fun mc => ks.contains mc.1) children mc).mp h
          have h2 : mc.2 ∈ children.map Prod.snd := List.mem_map_of_mem Prod.snd hmc
          rw [hsnd] at h2
          exact hcbf mc.2 h2
        have hf' : ∀ mc ∈ children.filter (fun mc => ks.contains mc.1) ++
            children.filter (fun mc => !ks.contains mc.1),
            ∀ bb' ks' cc, elt α bb' = true →
            EContract (mm fuel mc.2 1) α bb' (alphabetaF fuel mc.2 1 α bb' ks' cc).1 := by
          intro mc h bb' ks' cc hab'
          obtain ⟨hwmc, hpcmc⟩ := hCSf mc h
          exact ih mc.2 1 α bb' ks' cc hwmc (Or.inl rfl) (by omega) hab'
        have hneCS : (children.filter (fun mc => ks.contains mc.1) ++
            children.filter (fun mc => !ks.contains mc.1)) ≠ [] := by
          obtain ⟨y, hy⟩ := List.exists_mem_of_ne_nil children hne_ch
          exact List.ne_nil_of_mem
            ((mem_partition_iff (fun mc => ks.contains mc.1) children y).mpr hy)
        have hTfold : foldEmin (fun mc => EInt.fin (mm fuel mc.2 1)) EInt.pinf
            (children.filter (fun mc => ks.contains mc.1) ++
             children.filter (fun mc => !ks.contains mc.1)) =
            EInt.fin (mm (fuel + 1) b (-1)) := by
          rw [foldEmin_comp (fun x => EInt.fin (mm fuel x 1)) Prod.snd,
            foldEmin_pinf_minList (fun x => mm fuel x 1) _
              (fun h => hneCS (List.map_eq_nil.mp h)), hmm1]
          congr 1
          apply minList_congr_mem
          · intro h
            exact hneCS (List.map_eq_nil.mp (List.map_eq_nil.mp h))
          · intro h
            exact hne_cb (List.map_eq_nil.mp h)
          · intro x
            constructor
            · intro hx
              simp only [List.mem_map] at hx ⊢
              obtain ⟨z, ⟨mc, hmc, rfl⟩, rfl⟩ := hx
              have hmc' : mc ∈ children :=
                (mem_partition_iff (fun mc => ks.contains mc.1) children mc).mp hmc
              have h2 : mc.2 ∈ children.map Prod.snd :=
                List.mem_map_of_mem Prod.snd hmc'
              rw [hsnd] at h2
              exact ⟨mc.2, h2, rfl⟩
            · intro hx
              simp only [List.mem_map] at hx ⊢
              obtain ⟨y, hy, rfl⟩ := hx
              rw [← hsnd] at hy
              obtain ⟨mc, hmc, rfl⟩ := List.mem_map.mp hy
              exact ⟨mc.2,
                ⟨mc, (mem_partition_iff (fun mc => ks.contains mc.1) children mc).mpr hmc,
                  rfl⟩, rfl⟩
        have HC := abMinLoop_contract
          (fun ch a bb ks' cc => alphabetaF fuel ch 1 a bb ks' cc)
          (fun x => mm fuel x 1) α β
          (children.filter (fun mc => ks.contains mc.1) ++
           children.filter (fun mc => !ks.contains mc.1))
          hf' EInt.pinf β ks c (emin_pinf_right β).symm hab
        rw [hTfold] at HC
        exact HC
    · -- terminal node: the exact score is returned unconditionally
      simp only [alphabetaF, useCacheFlag, Bool.false_eq_true, if_false, heval]
      show EContract (mm (fuel + 1) b p) α β (EInt.fin v)
      rw [mm_terminal p heval]
      exact ⟨fun _ => ele_refl _, fun _ => ele_refl _, fun _ _ => rfl⟩

end killer

/-! ## C1: alpha-beta with killer reordering computes the plain minimax value -/

/-- C1: for every well-formed board and genuine side to move, the killer-engine
`alphabeta` called with the initial window `(-inf, +inf)` returns exactly the
value computed by `simple_minimax` started from an empty cache — for every
possible contents of the killer table and of the cache at the time of the call,
so the killer reordering never changes the returned value. -/
theorem C1_alphabeta_eq_simple_minimax (b : Nat) (p : Int) (ks : List Nat)
    (c : killer.Cache) (hw : killer.wf b) (hp : p = 1 ∨ p = -1) :
    (killer.alphabeta b p EInt.ninf EInt.pinf ks c).1 =
      EInt.fin (killer.simple_minimax b p []).1 := by
  have hsm := killer.simple_minimaxF_correct 10 b p [] hw hp (by omega) killer.ValidC_nil
  obtain ⟨h1, h2, h3⟩ :=
    killer.alphabetaF_contract 10 b p EInt.ninf EInt.pinf ks c hw hp (by omega) elt_ninf_pinf
  show (killer.alphabetaF 10 b p EInt.ninf EInt.pinf ks c).1 =
    EInt.fin (killer.simple_minimaxF 10 b p []).1
  rw [hsm.1]
  rcases hR : (killer.alphabetaF 10 b p EInt.ninf EInt.pinf ks c).1 with _ | r | _
  · rw [hR] at h1
    have hcon := h1 (ele_refl _)
    rw [ele_ninf_iff] at hcon
    simp at hcon
  · rw [hR] at h3
    exact h3 (elt_ninf_fin r) (elt_fin_pinf r)
  · rw [hR] at h2
    have hcon := h2 (ele_refl _)
    rw [pinf_ele_iff] at hcon
    simp at hcon

/-- Witness for C1 at a concrete mid-game position (O on the top row's right
two cells, X on the bottom row's left two cells), a nonempty killer table and
an empty cache. -/
theorem C1_alphabeta_eq_simple_minimax_witness :
    killer.wf 3264 ∧ ((1 : Int) = 1 ∨ (1 : Int) = -1) ∧
    (killer.alphabeta 3264 1 EInt.ninf EInt.pinf [16, 8192] []).1 =
      EInt.fin (killer.simple_minimax 3264 1 []).1 :=
  ⟨by decide, Or.inl rfl,
    C1_alphabeta_eq_simple_minimax 3264 1 [16, 8192] [] (by decide) (Or.inl rfl)⟩

/-! ## C10: `alphabeta` never touches the cache -/

/-- C10: the killer engine's `alphabeta` leaves the cache exactly unchanged and
its returned value and killer table are independent of the cache contents,
because both cache blocks sit under the always-false guard
`"Use cache" == False`; by contrast `simple_minimax` both writes the cache
(nonempty cache after a search from an empty one) and reads it (a preloaded
bogus entry for the root is returned verbatim). -/
theorem C10_alphabeta_never_touches_cache :
    (∀ b p α β ks c, (killer.alphabeta b p α β ks c).2.2 = c) ∧
    (∀ b p α β ks c c',
      (killer.alphabeta b p α β ks c).1 = (killer.alphabeta b p α β ks c').1 ∧
      (killer.alphabeta b p α β ks c).2.1 = (killer.alphabeta b p α β ks c').2.1) ∧
    (killer.simple_minimax 140485 1 []).2 ≠ [] ∧
    (killer.simple_minimax 140485 1 [((140485, 1), 7)]).1 = 7 := by
  refine ⟨?_, ?_, ?_, ?_⟩
  · intro b p α β ks c
    show (killer.alphabetaF 10 b p α β ks c).2.2 = c
    rw [killer.alphabetaF_cache_frame 10 b p α β ks c]
  · intro b p α β ks c c'
    constructor
    · show (killer.alphabetaF 10 b p α β ks c).1 = (killer.alphabetaF 10 b p α β ks c').1
      rw [killer.alphabetaF_cache_frame 10 b p α β ks c,
        killer.alphabetaF_cache_frame 10 b p α β ks c']
    · show (killer.alphabetaF 10 b p α β ks c).2.1 =
        (killer.alphabetaF 10 b p α β ks c').2.1
      rw [killer.alphabetaF_cache_frame 10 b p α β ks c,
        killer.alphabetaF_cache_frame 10 b p α β ks c']
  · decide
  · decide

/-! ## C6: `place` semantics -/

/-- C6: for rows and columns in range and a genuine side, `place` fails (returns
`none`, Python's `None` sentinel) exactly when the target cell is occupied by
either side; on success the new board has the single bit for `(row, col, side)`
set and every other bit unchanged (the original board value, being a pure value
here, is untouched); placing on the same cell a second time is always illegal
for either side; and `mcts.py`'s `place` computes the same function. -/
theorem C6_place_semantics :
    ∀ b r c : Nat, r < 3 → c < 3 → ∀ s : Int, s = 1 ∨ s = -1 →
      (killer.place b r c s = none ↔ cellTaken b r c) ∧
      (∀ b', killer.place b r c s = some b' →
        (b'.testBit (3 * (2 - r) + (2 - c) + if s = 1 then 9 else 0) = true ∧
         ∀ j, j ≠ 3 * (2 - r) + (2 - c) + (if s = 1 then 9 else 0) →
           b'.testBit j = b.testBit j) ∧
        ∀ s' : Int, s' = 1 ∨ s' = -1 → killer.place b' r c s' = none) ∧
      mcts.place b r c s = killer.place b r c s := by
  intro b r c hr hc s hs
  refine ⟨?_, ?_, killer.mcts_place_eq_place b r c s⟩
  · rw [killer.place_eq_none_iff]
    constructor
    · intro h
      by_contra hcT
      apply h
      rw [killer.free_iff_testBit b r c s hs]
      unfold cellTaken at hcT
      push_neg at hcT
      simp only [Bool.not_eq_true] at hcT
      exact hcT
    · intro hcT h0
      rw [killer.free_iff_testBit b r c s hs] at h0
      rcases hcT with h | h
      · rw [h0.1] at h
        simp at h
      · rw [h0.2] at h
        simp at h
  · intro b' hpl
    obtain ⟨hfree, rfl⟩ := (killer.place_eq_some_iff b r c s b').mp hpl
    rcases hs with rfl | rfl
    · simp only [killer.mask_eq, eq_self_iff_true, if_true]
      refine ⟨⟨?_, ?_⟩, ?_⟩
      · rw [testBit_or_two_pow]
        simp
      · intro j hj
        rw [testBit_or_two_pow]
        simp [hj]
      · intro s' hs'
        rw [killer.place_eq_none_iff]
        intro h0
        rw [killer.free_iff_testBit _ r c s' hs'] at h0
        have hbit := h0.2
        rw [testBit_or_two_pow] at hbit
        simp at hbit
    · have hneg : ¬((-1 : Int) = 1) := by decide
      simp only [killer.mask_eq, hneg, if_false, Nat.add_zero]
      refine ⟨⟨?_, ?_⟩, ?_⟩
      · rw [testBit_or_two_pow]
        simp
      · intro j hj
        rw [testBit_or_two_pow]
        simp [hj]
      · intro s' hs'
        rw [killer.place_eq_none_iff]
        intro h0
        rw [killer.free_iff_testBit _ r c s' hs'] at h0
        have hbit := h0.1
        rw [testBit_or_two_pow] at hbit
        simp at hbit

/-- Witness for C6: O cannot play on the cell `(2, 1)` already held by X. -/
theorem C6_place_semantics_witness :
    (2 : Nat) < 3 ∧ (1 : Nat) < 3 ∧ ((-1 : Int) = 1 ∨ (-1 : Int) = -1) ∧
    (killer.place 1024 2 1 (-1) = none ↔ cellTaken 1024 2 1) :=
  ⟨by decide, by decide, Or.inr rfl,
    (C6_place_semantics 1024 2 1 (by decide) (by decide) (-1) (Or.inr rfl)).1⟩

/-! ## C8: the two halves of a reachable board never overlap -/

/-- C8: every board reachable from the empty board through successful `place`
operations — including the mask-form `place` fed by `check` inside the search
and `mcts.py`'s `place` — satisfies `((board >>> 9) &&& board &&& 511) = 0`:
no cell is ever occupied by both sides. -/
theorem C8_reachable_halves_disjoint (b : Nat) (h : Reachable b) :
    killer.halvesDisjoint b := by
  have hwf : killer.wf b := by
    induction h with
    | empty => exact killer.wf_zero
    | maskStep b r c s m hb hr hc hs hchk ih =>
      exact (killer.wf_place_of_check ih hr hc hs hchk).1
    | placeStep b r c s b' hb hr hc hs hpl ih =>
      obtain ⟨hfree, rfl⟩ := (killer.place_eq_some_iff b r c s b').mp hpl
      exact (killer.wf_place_of_check ih hr hc hs
        ((killer.check_eq_some_iff b r c s _).mpr ⟨rfl, hfree⟩)).1
    | mctsStep b r c s b' hb hr hc hs hpl ih =>
      rw [killer.mcts_place_eq_place] at hpl
      obtain ⟨hfree, rfl⟩ := (killer.place_eq_some_iff b r c s b').mp hpl
      exact (killer.wf_place_of_check ih hr hc hs
        ((killer.check_eq_some_iff b r c s _).mpr ⟨rfl, hfree⟩)).1
  exact hwf.2

/-- Witness for C8: the board reached by X at `(0,0)` (via `killer.py`'s
`place`) and then O at `(1,1)` (via `mcts.py`'s `place`). -/
theorem C8_reachable_halves_disjoint_witness :
    Reachable 131088 ∧ killer.halvesDisjoint 131088 := by
  have h1 : Reachable 131072 :=
    Reachable.placeStep 0 0 0 1 131072 Reachable.empty (by decide) (by decide)
      (Or.inl rfl) (by decide)
  have h2 : Reachable 131088 :=
    Reachable.mctsStep 131072 1 1 (-1) 131088 h1 (by decide) (by decide)
      (Or.inr rfl) (by decide)
  exact ⟨h2, C8_reachable_halves_disjoint 131088 h2⟩

/-! ## C7: `heuristic_evaluate` is the sum of per-line scores -/

theorem specLineScore_eq (b m : Nat) :
    specLineScore b m =
      (if (popcount ((b >>> 9) &&& m) = 1 ∨ popcount ((b >>> 9) &&& m) = 2 ∨
            popcount ((b >>> 9) &&& m) = 3) ∧ popcount (b &&& m) = 0
       then (10 : Int) ^ (popcount ((b >>> 9) &&& m) - 1)
       else if (popcount (b &&& m) = 1 ∨ popcount (b &&& m) = 2 ∨
            popcount (b &&& m) = 3) ∧ popcount ((b >>> 9) &&& m) = 0
       then -((10 : Int) ^ (popcount (b &&& m) - 1))
       else (0 : Int)) := rfl

theorem heuristic_step (b : Nat) (s : Int) (m : Nat) (hm : popcount m = 3) :
    (if popcount ((b >>> 9) &&& m) = 0 then s - ipow10m1 (popcount (b &&& m))
     else if popcount (b &&& m) = 0 then s + ipow10m1 (popcount ((b >>> 9) &&& m))
     else s) = s + specLineScore b m := by
  have hx : popcount ((b >>> 9) &&& m) ≤ 3 := by
    have := popcount_and_le (b >>> 9) m
    omega
  have ho : popcount (b &&& m) ≤ 3 := by
    have := popcount_and_le b m
    omega
  rw [specLineScore_eq]
  obtain ⟨cx, hcx⟩ : ∃ v, popcount ((b >>> 9) &&& m) = v :=
    ⟨popcount ((b >>> 9) &&& m), rfl⟩
  obtain ⟨co, hco⟩ : ∃ v, popcount (b &&& m) = v := ⟨popcount (b &&& m), rfl⟩
  rw [hcx] at hx ⊢
  rw [hco] at ho ⊢
  interval_cases cx <;> interval_cases co <;> simp [ipow10m1] <;> omega

theorem heuristic_foldl (b : Nat) :
    ∀ l : List Nat, (∀ m ∈ l, popcount m = 3) → ∀ s : Int,
      l.foldl (fun score m =>
        let oboard := b
        let xboard := oboard >>> 9
        let countx := popcount (xboard &&& m)
        let counto := popcount (oboard &&& m)
        if countx = 0 then score - ipow10m1 counto
        else if counto = 0 then score + ipow10m1 countx
        else score) s = s + (l.map (specLineScore b)).sum := by
  intro l
  induction l with
  | nil =>
    intro _ s
    simp
  | cons m ms ih =>
    intro hm s
    simp only [List.foldl_cons, List.map_cons, List.sum_cons]
    rw [ih (fun x hx => hm x (List.mem_cons_of_mem m hx))]
    rw [heuristic_step b s m (hm m (List.mem_cons_self m ms))]
    omega

theorem cspecLineScore_eq (row : List Char) :
    cspecLineScore row =
      (if (row.countP (fun ch => ch == 'X') = 1 ∨ row.countP (fun ch => ch == 'X') = 2 ∨
            row.countP (fun ch => ch == 'X') = 3) ∧ row.countP (fun ch => ch == 'O') = 0
       then (10 : Int) ^ (row.countP (fun ch => ch == 'X') - 1)
       else if (row.countP (fun ch => ch == 'O') = 1 ∨ row.countP (fun ch => ch == 'O') = 2 ∨
            row.countP (fun ch => ch == 'O') = 3) ∧ row.countP (fun ch => ch == 'X') = 0
       then -((10 : Int) ^ (row.countP (fun ch => ch == 'O') - 1))
       else (0 : Int)) := rfl

theorem cheuristic_step (s : Int) (row : List Char) (hrow : row.length = 3) :
    (if row.countP (fun ch => ch == 'X') = 0 then
       s - ipow10m1 (row.countP (fun ch => ch == 'O'))
     else if row.countP (fun ch => ch == 'O') = 0 then
       s + ipow10m1 (row.countP (fun ch => ch == 'X'))
     else s) = s + cspecLineScore row := by
  have hx : row.countP (fun ch => ch == 'X') ≤ 3 := by
    have := List.countP_le_length (l := row) (p := fun ch => ch == 'X')
    omega
  have ho : row.countP (fun ch => ch == 'O') ≤ 3 := by
    have := List.countP_le_length (l := row) (p := fun ch => ch == 'O')
    omega
  rw [cspecLineScore_eq]
  obtain ⟨cx, hcx⟩ : ∃ v, row.countP (fun ch => ch == 'X') = v :=
    ⟨row.countP (fun ch => ch == 'X'), rfl⟩
  obtain ⟨co, hco⟩ : ∃ v, row.countP (fun ch => ch == 'O') = v :=
    ⟨row.countP (fun ch => ch == 'O'), rfl⟩
  rw [hcx] at hx ⊢
  rw [hco] at ho ⊢
  interval_cases cx <;> interval_cases co <;> simp [ipow10m1] <;> omega

theorem cheuristic_foldl :
    ∀ l : List (List Char), (∀ r ∈ l, r.length = 3) → ∀ s : Int,
      l.foldl (fun score row =>
        let countx := row.countP (fun ch => ch == 'X')
        let counto := row.countP (fun ch => ch == 'O')
        if countx = 0 then score - ipow10m1 counto
        else if counto = 0 then score + ipow10m1 countx
        else score) s = s + (l.map cspecLineScore).sum := by
  intro l
  induction l with
  | nil =>
    intro _ s
    simp
  | cons row rs ih =>
    intro hm s
    simp only [List.foldl_cons, List.map_cons, List.sum_cons]
    rw [ih (fun x hx => hm x (List.mem_cons_of_mem row hx))]
    rw [cheuristic_step s row (hm row (List.mem_cons_self row rs))]
    omega

theorem crows_length : ∀ (b : CBoard) (r : List Char), r ∈ crows b → r.length = 3 := by
  intro b r hr
  unfold crows at hr
  rcases List.mem_append.mp hr with h | h
  · rcases List.mem_append.mp h with h2 | h2
    · rcases List.mem_cons.mp h2 with rfl | h3
      · rfl
      · rcases List.mem_cons.mp h3 with rfl | h4
        · rfl
        · cases h4
    · obtain ⟨n, _, rfl⟩ := List.mem_map.mp h2
      rfl
  · obtain ⟨n, _, rfl⟩ := List.mem_map.mp h
    rfl

/-- C7: on both board representations, `heuristic_evaluate` equals the sum over
the 8 lines (3 rows, 3 columns, 2 diagonals) of the spec's per-line score:
`+10^(c-1)` for a line with `c ∈ {1,2,3}` maximizer cells and no minimizer
cell, `-10^(c-1)` in the mirrored case, and `0` for mixed or empty lines. -/
theorem C7_heuristic_evaluate_line_sum :
    (∀ b : Nat, killer.heuristic_evaluate b = (killer.masks.map (specLineScore b)).sum) ∧
    (∀ b : CBoard, cheuristic b = ((crows b).map cspecLineScore).sum) := by
  constructor
  · intro b
    have hm : ∀ m ∈ killer.masks, popcount m = 3 := by decide
    have h := heuristic_foldl b killer.masks hm 0
    unfold killer.heuristic_evaluate
    rw [h]
    omega
  · intro b
    have h := cheuristic_foldl (crows b) (crows_length b) 0
    unfold cheuristic
    rw [h]
    omega

/-! ## C2: `ttt.py`'s minimax returns the heuristic score, not a terminal one -/

/-- C2 (refuted): because `ttt.py` line 85 rebinds `evaluate = heuristic_evaluate`,
`minimax` returns the heuristic score of the root immediately for every board
and side; on the board with a single X at `(0,0)` it returns `3` — a
non-terminal heuristic value outside `{+10, -10, 0}` — so a heuristic score
is returned as the engine's final result. -/
theorem C2_minimax_returns_heuristic :
    (∀ (b : CBoard) (who : Char), ttt.minimax b who = cheuristic b) ∧
    ttt.minimax [['X', ' ', ' '], [' ', ' ', ' '], [' ', ' ', ' ']] 'X' = 3 ∧
    (3 : Int) ≠ 10 ∧ (3 : Int) ≠ -10 ∧ (3 : Int) ≠ 0 := by
  refine ⟨?_, by decide, by decide, by decide, by decide⟩
  intro b who
  rfl

/-! ## C9: the killer table is bounded, FIFO, and only fed by maximizer cut-offs -/

namespace killer

theorem pushKiller_length_le {ks : List Nat} (m : Nat) (h : ks.length ≤ 4) :
    (pushKiller ks m).length ≤ 4 := by
  simp only [pushKiller]
  by_cases hlen : (ks ++ [m]).length > 4
  · rw [if_pos hlen]
    simp only [List.length_tail, List.length_append, List.length_singleton]
    omega
  · rw [if_neg hlen]
    simp only [List.length_append, List.length_singleton] at hlen ⊢
    omega

theorem abMaxLoop_killers_le
    (f : Nat → EInt → EInt → List Nat → Cache → EInt × List Nat × Cache) (β : EInt)
    (hf : ∀ ch a ks cc, ks.length ≤ 4 → (f ch a β ks cc).2.1.length ≤ 4) :
    ∀ cs v a ks c, ks.length ≤ 4 → (abMaxLoop f β cs v a ks c).2.1.length ≤ 4 := by
  intro cs
  induction cs with
  | nil => intro v a ks c h; exact h
  | cons mc rest ih =>
    obtain ⟨m, ch⟩ := mc
    intro v a ks c h
    simp only [abMaxLoop]
    by_cases hcond : ele β (emax a (emax v (f ch a β ks c).1)) = true
    · rw [if_pos hcond]
      exact pushKiller_length_le m (hf ch a ks c h)
    · rw [if_neg hcond]
      exact ih _ _ _ _ (hf ch a ks c h)

theorem abMinLoop_killers_le
    (f : Nat → EInt → EInt → List Nat → Cache → EInt × List Nat × Cache) (α : EInt)
    (hf : ∀ ch bb ks cc, ks.length ≤ 4 → (f ch α bb ks cc).2.1.length ≤ 4) :
    ∀ cs v bb ks c, ks.length ≤ 4 → (abMinLoop f α cs v bb ks c).2.1.length ≤ 4 := by
  intro cs
  induction cs with
  | nil => intro v bb ks c h; exact h
  | cons mc rest ih =>
    obtain ⟨m, ch⟩ := mc
    intro v bb ks c h
    simp only [abMinLoop]
    by_cases hcond : ele (emin bb (emin v (f ch α bb ks c).1)) α = true
    · rw [if_pos hcond]
      exact hf ch bb ks c h
    · rw [if_neg hcond]
      exact ih _ _ _ _ (hf ch bb ks c h)

theorem alphabetaF_killers_le :
    ∀ fuel b p α β ks c, ks.length ≤ 4 →
      (alphabetaF fuel b p α β ks c).2.1.length ≤ 4 := by
  intro fuel
  induction fuel with
  | zero => intro b p α β ks c h; exact h
  | succ fuel ih =>
    intro b p α β ks c h
    rcases heval : simple_evaluate b with _ | v
    · simp only [alphabetaF, useCacheFlag, Bool.false_eq_true, if_false, heval]
      by_cases hp1 : p = 1
      · simp only [hp1, if_true]
        exact abMaxLoop_killers_le _ β
          (fun ch a ks' cc h' => ih ch (-1) a β ks' cc h') _ _ _ _ _ h
      · simp only [hp1, if_false]
        exact abMinLoop_killers_le _ α
          (fun ch bb ks' cc h' => ih ch (-p) α bb ks' cc h') _ _ _ _ _ h
    · simp only [alphabetaF, useCacheFlag, Bool.false_eq_true, if_false, heval]
      exact h

end killer

/-- C9: the killer table invariants of `killer.py`: an insertion keeps the
table at no more than 4 masks; below capacity `KILLERS.append` just appends;
at capacity the oldest (front) entry is dropped first-in-first-out; a beta
cut-off at a maximizer ply returns the child's table with the cutting mask
pushed, while an alpha cut-off at a minimizer ply returns the child's table
unchanged; and any `alphabeta` call keeps the table within capacity 4. -/
theorem C9_killer_table :
    (∀ (ks : List Nat) (m : Nat), ks.length ≤ 4 →
      (killer.pushKiller ks m).length ≤ 4) ∧
    (∀ (ks : List Nat) (m : Nat), ks.length < 4 →
      killer.pushKiller ks m = ks ++ [m]) ∧
    (∀ (ks : List Nat) (m : Nat), ks.length = 4 →
      killer.pushKiller ks m = ks.tail ++ [m]) ∧
    (∀ (f : Nat → EInt → EInt → List Nat → killer.Cache →
          EInt × List Nat × killer.Cache)
       (b0 : EInt) (m ch : Nat) (rest : List (Nat × Nat)) (v a : EInt)
       (ks : List Nat) (c : killer.Cache),
      ele b0 (emax a (emax v (f ch a b0 ks c).1)) = true →
      killer.abMaxLoop f b0 ((m, ch) :: rest) v a ks c =
        (emax v (f ch a b0 ks c).1,
         killer.pushKiller (f ch a b0 ks c).2.1 m, (f ch a b0 ks c).2.2)) ∧
    (∀ (f : Nat → EInt → EInt → List Nat → killer.Cache →
          EInt × List Nat × killer.Cache)
       (a0 : EInt) (m ch : Nat) (rest : List (Nat × Nat)) (v bb : EInt)
       (ks : List Nat) (c : killer.Cache),
      ele (emin bb (emin v (f ch a0 bb ks c).1)) a0 = true →
      killer.abMinLoop f a0 ((m, ch) :: rest) v bb ks c =
        (emin v (f ch a0 bb ks c).1,
         (f ch a0 bb ks c).2.1, (f ch a0 bb ks c).2.2)) ∧
    (∀ fuel b p α β ks c, ks.length ≤ 4 →
      (killer.alphabetaF fuel b p α β ks c).2.1.length ≤ 4) := by
  refine ⟨fun ks m h => killer.pushKiller_length_le m h, ?_, ?_, ?_, ?_,
    killer.alphabetaF_killers_le⟩
  · intro ks m h
    simp only [killer.pushKiller]
    rw [if_neg]
    simp only [List.length_append, List.length_singleton]
    omega
  · intro ks m h
    simp only [killer.pushKiller]
    rw [if_pos]
    · cases ks with
      | nil => cases h
      | cons k ks' => rfl
    · simp only [List.length_append, List.length_singleton]
      omega
  · intro f b0 m ch rest v a ks c hcut
    simp only [killer.abMaxLoop]
    rw [if_pos hcut]
  · intro f a0 m ch rest v bb ks c hcut
    simp only [killer.abMinLoop]
    rw [if_pos hcut]

/-- Witness for C9: pushing a fifth mask onto a full table drops the oldest. -/
theorem C9_killer_table_witness :
    ([1, 2, 4, 8] : List Nat).length = 4 ∧
    killer.pushKiller [1, 2, 4, 8] 16 = [2, 4, 8, 16] := by
  have h := C9_killer_table.2.2.1 [1, 2, 4, 8] 16 (by decide)
  exact ⟨by decide, h.trans (by decide)⟩

/-! ## C5: the rollout evaluator on already-won boards -/

theorem masks_lt_512 : ∀ m ∈ killer.masks, m < 512 := by decide

theorem lor_and_self (m x : Nat) : m ||| (x &&& m) = m := by
  apply Nat.eq_of_testBit_eq
  intro j
  rw [Nat.testBit_or, Nat.testBit_and]
  cases hm : m.testBit j <;> simp [hm]

theorem shiftRight9_or_two_pow (b k : Nat) (hk : 9 ≤ k) :
    (b ||| 2 ^ k) >>> 9 = (b >>> 9) ||| 2 ^ (k - 9) := by
  apply Nat.eq_of_testBit_eq
  intro j
  rw [Nat.testBit_shiftRight, testBit_or_two_pow, Nat.testBit_or,
    Nat.testBit_shiftRight, Nat.testBit_two_pow]
  by_cases h : 9 + j = k
  · simp [h, show k - 9 = j by omega]
  · simp [h, show ¬(k - 9 = j) by omega]

theorem shiftRight9_or_two_pow_lt (b k : Nat) (hk : k < 9) :
    (b ||| 2 ^ k) >>> 9 = b >>> 9 := by
  apply Nat.eq_of_testBit_eq
  intro j
  rw [Nat.testBit_shiftRight, testBit_or_two_pow, Nat.testBit_shiftRight]
  simp [show ¬(9 + j = k) by omega]

theorem and_small_or_high (b k m : Nat) (hk : 9 ≤ k) (hm : m < 512) :
    (b ||| 2 ^ k) &&& m = b &&& m := by
  rw [lor_and_distrib]
  have h0 : 2 ^ k &&& m = 0 := by
    rw [two_pow_and_eq_zero_iff]
    apply Nat.testBit_lt_two_pow
    calc m < 512 := hm
    _ ≤ 2 ^ k := by
      calc (512 : Nat) = 2 ^ 9 := by norm_num
      _ ≤ 2 ^ k := Nat.pow_le_pow_right (by norm_num) hk
  rw [h0, Nat.or_zero]

/-- If a first-some scan returns `w`, and the second function agrees on the
other values while preserving every `w`-hit, its scan also returns `w`. -/
theorem findSome?_preserve (f g : Nat → Option Int) (w : Int) :
    ∀ L : List Nat,
      (∀ m ∈ L, f m = some w → g m = some w) →
      (∀ m ∈ L, ∀ v, g m = some v → v = w ∨ f m = some v) →
      L.findSome? f = some w → L.findSome? g = some w := by
  intro L
  induction L with
  | nil =>
    intro _ _ h
    simp [List.findSome?_nil] at h
  | cons m ms ih =>
    intro h1 h2 hf
    rcases hfm : f m with _ | v
    · simp only [List.findSome?_cons, hfm] at hf
      simp only [List.findSome?_cons]
      rcases hgm : g m with _ | v
      · exact ih (fun x hx => h1 x (List.mem_cons_of_mem m hx))
          (fun x hx => h2 x (List.mem_cons_of_mem m hx)) hf
      · rcases h2 m (List.mem_cons_self m ms) v hgm with rfl | hfv
        · rfl
        · rw [hfm] at hfv
          cases hfv
    · simp only [List.findSome?_cons, hfm] at hf
      have hv : v = w := by injection hf
      subst hv
      simp only [List.findSome?_cons, h1 m (List.mem_cons_self m ms) hfm]

theorem won_preserve_high (b k : Nat) (hk : 9 ≤ k)
    (hw : killer.won b = some 1) : killer.won (b ||| 2 ^ k) = some 1 := by
  have hw' : killer.masks.findSome? (fun m =>
      if b &&& m = m then some (-1)
      else if (b >>> 9) &&& m = m then some (1 : Int) else none) = some 1 := hw
  show killer.masks.findSome? (fun m =>
      if (b ||| 2 ^ k) &&& m = m then some (-1)
      else if ((b ||| 2 ^ k) >>> 9) &&& m = m then some (1 : Int) else none) = some 1
  apply findSome?_preserve _ _ 1 killer.masks ?hmono ?hother hw'
  case hmono =>
    intro m hm hf
    have hm512 : m < 512 := masks_lt_512 m hm
    rw [and_small_or_high b k m hk hm512, shiftRight9_or_two_pow b k hk,
      lor_and_distrib]
    by_cases h1 : b &&& m = m
    · rw [if_pos h1] at hf
      cases hf
    · rw [if_neg h1] at hf
      by_cases h2 : (b >>> 9) &&& m = m
      · rw [if_neg h1, h2, lor_and_self, if_pos rfl]
      · rw [if_neg h2] at hf
        cases hf
  case hother =>
    intro m hm v hg
    have hm512 : m < 512 := masks_lt_512 m hm
    rw [and_small_or_high b k m hk hm512] at hg
    by_cases h1 : b &&& m = m
    · rw [if_pos h1] at hg
      right
      rw [if_pos h1]
      exact hg
    · rw [if_neg h1] at hg
      by_cases h2 : ((b ||| 2 ^ k) >>> 9) &&& m = m
      · rw [if_pos h2] at hg
        left
        injection hg with hv
        omega
      · rw [if_neg h2] at hg
        cases hg

theorem won_preserve_low (b k : Nat) (hk : k < 9)
    (hw : killer.won b = some (-1)) : killer.won (b ||| 2 ^ k) = some (-1) := by
  have hw' : killer.masks.findSome? (fun m =>
      if b &&& m = m then some (-1)
      else if (b >>> 9) &&& m = m then some (1 : Int) else none) = some (-1) := hw
  show killer.masks.findSome? (fun m =>
      if (b ||| 2 ^ k) &&& m = m then some (-1)
      else if ((b ||| 2 ^ k) >>> 9) &&& m = m then some (1 : Int) else none) = some (-1)
  apply findSome?_preserve _ _ (-1) killer.masks ?hmono ?hother hw'
  case hmono =>
    intro m hm hf
    rw [shiftRight9_or_two_pow_lt b k hk, lor_and_distrib]
    by_cases h1 : b &&& m = m
    · rw [h1, lor_and_self, if_pos rfl]
    · rw [if_neg h1] at hf
      by_cases h2 : (b >>> 9) &&& m = m
      · rw [if_pos h2] at hf
        cases hf
      · rw [if_neg h2] at hf
        cases hf
  case hother =>
    intro m hm v hg
    rw [shiftRight9_or_two_pow_lt b k hk] at hg
    by_cases hg1 : (b ||| 2 ^ k) &&& m = m
    · rw [if_pos hg1] at hg
      left
      injection hg with hv
      omega
    · rw [if_neg hg1] at hg
      by_cases h2 : (b >>> 9) &&& m = m
      · rw [if_pos h2] at hg
        right
        have h1 : ¬(b &&& m = m) := by
          intro h1
          apply hg1
          rw [lor_and_distrib, h1, lor_and_self]
        rw [if_neg h1, if_pos h2]
        exact hg
      · rw [if_neg h2] at hg
        cases hg

/-- Placing one more stone of the side that has already won does not change
the reported winner (the scan can only find the same side's lines earlier). -/
theorem won_preserve_mask (b : Nat) (r c : Nat) (s : Int) (hs : s = 1 ∨ s = -1)
    (hw : killer.won b = some s) :
    killer.won (b ||| killer.mask r c s) = some s := by
  rcases hs with rfl | rfl
  · rw [killer.mask_eq, if_pos rfl]
    exact won_preserve_high b _ (by omega) hw
  · rw [killer.mask_eq, if_neg (by decide : ¬((-1 : Int) = 1))]
    exact won_preserve_low b _ (killer.offset_lt_nine r c) hw

theorem rollout_full (picks : List (Fin 9)) (b : Nat) (who : Int)
    (h : killer.spaces b = 0) : mcts.rollout picks b who = some (b, picks) := by
  unfold mcts.rollout
  rw [if_pos h]

/-- Every completed rollout from a board already won by the side to move ends
on a board still won by that side. -/
theorem rollout_won_side :
    ∀ (picks : List (Fin 9)) (b : Nat) (s : Int), (s = 1 ∨ s = -1) →
      killer.won b = some s →
      ∀ r, mcts.rollout picks b s = some r → killer.won r.1 = some s := by
  intro picks
  induction picks with
  | nil =>
    intro b s hs hw r hr
    rw [mcts.rollout.eq_1] at hr
    by_cases hsp : killer.spaces b = 0
    · rw [if_pos hsp] at hr
      injection hr with h
      subst h
      exact hw
    · rw [if_neg hsp] at hr
      cases hr
  | cons i rest ih =>
    intro b s hs hw r hr
    rw [mcts.rollout.eq_2] at hr
    by_cases hsp : killer.spaces b = 0
    · rw [if_pos hsp] at hr
      injection hr with h
      subst h
      exact hw
    · rw [if_neg hsp] at hr
      rcases hpl : mcts.place b (mcts.posOf i).1 (mcts.posOf i).2 s with _ | next
      · simp only [hpl] at hr
        exact ih b s hs hw r hr
      · simp only [hpl] at hr
        rw [killer.mcts_place_eq_place] at hpl
        obtain ⟨hfree, rfl⟩ :=
          (killer.place_eq_some_iff b (mcts.posOf i).1 (mcts.posOf i).2 s next).mp hpl
        have hwn := won_preserve_mask b (mcts.posOf i).1 (mcts.posOf i).2 s hs hw
        simp only [hwn] at hr
        injection hr with h
        subst h
        exact hwn

/-- Every completed batch of rollouts from a board already won by the side to
move counts a win for every round. -/
theorem runRollouts_won_side :
    ∀ (n : Nat) (picks : List (Fin 9)) (b : Nat) (s : Int), (s = 1 ∨ s = -1) →
      killer.won b = some s →
      ∀ cr, mcts.runRollouts n picks b s = some cr → cr.1 = n := by
  intro n
  induction n with
  | zero =>
    intro picks b s hs hw cr hcr
    injection hcr with h
    subst h
    rfl
  | succ n ih =>
    intro picks b s hs hw cr hcr
    rw [mcts.runRollouts.eq_2] at hcr
    rcases hro : mcts.rollout picks b s with _ | r
    · simp only [hro] at hcr
      cases hcr
    · simp only [hro] at hcr
      rcases hrr : mcts.runRollouts n r.2 b s with _ | cr2
      · simp only [hrr] at hcr
        cases hcr
      · simp only [hrr] at hcr
        have hwon := rollout_won_side picks b s hs hw r hro
        rw [if_pos hwon] at hcr
        injection hcr with h
        subst h
        show cr2.1 + 1 = n + 1
        rw [ih r.2 b s hs hw cr2 hrr]

theorem runRollouts_full (b : Nat) (p : Int) (hsp : killer.spaces b = 0)
    (hw : killer.won b = some p) :
    ∀ (n : Nat) (picks : List (Fin 9)),
      mcts.runRollouts n picks b p = some (n, picks) := by
  intro n
  induction n with
  | zero => intro picks; rfl
  | succ n ih =>
    intro picks
    rw [mcts.runRollouts.eq_2, rollout_full picks b p hsp]
    simp [ih, hw]

theorem mcts_full_won (b : Nat) (p : Int) (hsp : killer.spaces b = 0)
    (hw : killer.won b = some p) (picks : List (Fin 9)) :
    mcts.mcts picks b p = some 1 := by
  show (match mcts.runRollouts mcts.N picks b p with
    | none => none
    | some cr => some ((cr.1 : ℚ) / (mcts.N : ℚ))) = some 1
  rw [runRollouts_full b p hsp hw mcts.N picks]
  norm_num [mcts.N]

/-- C5 (amended): every completed `mcts` estimate for a board already won by
`side` is exactly `1.0`, for every random stream; the `0.0` direction of the
original claim is refuted by the counterexample below. -/
theorem C5_mcts_won_side_amended (picks : List (Fin 9)) (b : Nat) (s : Int)
    (q : ℚ) (hs : s = 1 ∨ s = -1) (hw : killer.won b = some s)
    (hm : mcts.mcts picks b s = some q) : q = 1 := by
  have hm' : (match mcts.runRollouts mcts.N picks b s with
    | none => none
    | some cr => some ((cr.1 : ℚ) / (mcts.N : ℚ))) = some q := hm
  rcases hrr : mcts.runRollouts mcts.N picks b s with _ | cr
  · simp only [hrr] at hm'
    cases hm'
  · simp only [hrr] at hm'
    injection hm' with h
    have hc := runRollouts_won_side mcts.N picks b s hs hw cr hrr
    rw [← h, hc]
    norm_num [mcts.N]

/-- Witness for the amended C5: a full board won by X, evaluated for X. -/
theorem C5_mcts_won_side_amended_witness :
    killer.won 239659 = some 1 ∧ ((1 : Int) = 1 ∨ (1 : Int) = -1) ∧ (1 : ℚ) = 1 :=
  ⟨by decide, Or.inl rfl,
    C5_mcts_won_side_amended [] 239659 1 1 (Or.inl rfl) (by decide)
      (mcts_full_won 239659 1 (by decide) (by decide) [])⟩

theorem roll3520 (rest : List (Fin 9)) :
    mcts.rollout ((8 : Fin 9) :: rest) 3520 1 = some (4032, rest) := rfl

theorem runRolloutsRep3520 :
    ∀ n m, n ≤ m →
      mcts.runRollouts n (List.replicate m (8 : Fin 9)) 3520 1 =
        some (n, List.replicate (m - n) (8 : Fin 9)) := by
  intro n
  induction n with
  | zero =>
    intro m _
    simp only [Nat.sub_zero]
    rfl
  | succ n ih =>
    intro m hnm
    obtain ⟨m', rfl⟩ : ∃ m', m = m' + 1 := ⟨m - 1, by omega⟩
    rw [List.replicate_succ, mcts.runRollouts.eq_2]
    simp only [roll3520]
    simp only [ih m' (by omega)]
    rw [if_pos (by decide : killer.won (4032 : Nat) = some 1)]
    have harith : m' + 1 - (n + 1) = m' - n := by omega
    rw [harith]

set_option maxRecDepth 10000 in
/-- Counterexample to C5's `0.0` direction: the board with O holding the whole
top row (already won by the opponent of side `1`) still has empty cells, the
rollout places one X move before re-checking the winner, and the winner scan —
which tests the bottom-row mask before the top-row mask and reads X off the
shifted half — then reports X; with a random stream that always draws cell
`(2,2)`, all 500 rollouts are counted for X and `mcts` returns `1.0`, not
`0.0`. -/
theorem C5_mcts_zero_counterexample :
    killer.won 3520 = some (-1) ∧
    mcts.mcts (List.replicate 500 (8 : Fin 9)) 3520 1 = some 1 ∧
    (1 : ℚ) ≠ 0 := by
  refine ⟨by decide, ?_, by norm_num⟩
  show (match mcts.runRollouts mcts.N (List.replicate 500 (8 : Fin 9)) 3520 1 with
    | none => none
    | some cr => some ((cr.1 : ℚ) / (mcts.N : ℚ))) = some 1
  rw [show mcts.N = 500 from rfl, runRolloutsRep3520 500 500 (le_refl 500)]
  norm_num

/-! ## Shared machinery for evaluating concrete root positions: closed `emax`
and `ele` values, and the one-ply unfolding of both maximizer engines -/

theorem emax_ninf_fin0 : emax EInt.ninf (EInt.fin 0) = EInt.fin 0 := rfl

theorem emax_fin0_fin0 : emax (EInt.fin 0) (EInt.fin 0) = EInt.fin 0 := rfl

theorem emax_fin0_fin10 : emax (EInt.fin 0) (EInt.fin 10) = EInt.fin 10 := rfl

theorem emax_fin10_fin10 : emax (EInt.fin 10) (EInt.fin 10) = EInt.fin 10 := rfl

theorem ele_pinf_fin0 : ele EInt.pinf (EInt.fin 0) = false := rfl

theorem ele_pinf_fin10 : ele EInt.pinf (EInt.fin 10) = false := rfl

/-- One ply of `killer.py`'s `alphabeta` at a non-terminal maximizer node: the
returned value is the maximizer loop over the killer-partitioned children. -/
theorem alphabetaF_max_val (fuel b : Nat) (α β : EInt) (ks : List Nat)
    (c : killer.Cache) (he : killer.simple_evaluate b = none) :
    (killer.alphabetaF (fuel + 1) b 1 α β ks c).1 =
      (killer.abMaxLoop
        (fun cc a bb ks2 c2 => killer.alphabetaF fuel cc (-1) a bb ks2 c2) β
        (((POSITIONS.filterMap (fun rc => killer.check b rc.1 rc.2 1)).map
            (fun m => (m, killer.placeMask b m))).filter (fun mc => ks.contains mc.1) ++
         (((POSITIONS.filterMap (fun rc => killer.check b rc.1 rc.2 1)).map
            (fun m => (m, killer.placeMask b m))).filter (fun mc => !ks.contains mc.1)))
        EInt.ninf α ks c).1 := by
  simp only [killer.alphabetaF, useCacheFlag, Bool.false_eq_true, if_false, he,
    heuristicFlag, killerFlag, eq_self_iff_true, if_true]

/-- One ply of `alphabeta.py`'s `alphabeta` at a non-terminal maximizer node. -/
theorem ab_alphabetaF_max_val (fuel : Nat) (b : CBoard) (α β : EInt)
    (he : csimple_evaluate b = none) :
    ab.alphabetaF (fuel + 1) b 'X' α β =
      ab.maxLoopC (fun c a bb => ab.alphabetaF fuel c 'O' a bb) β
        (POSITIONS.filterMap (fun rc => cplace b rc.1 rc.2 'X')) EInt.ninf α := by
  simp only [ab.alphabetaF, he, heuristicFlag, Bool.false_eq_true, if_false,
    eq_self_iff_true, if_true]

/-! ## C4: concrete values after the minimizer's first reply (each root is
expanded one ply; every child subtree is evaluated by the kernel) -/

set_option maxRecDepth 40000 in
set_option maxHeartbeats 8000000 in
theorem C4K1child1 :
    killer.alphabetaF 9 196624 (-1) EInt.ninf EInt.pinf [] [] =
      (EInt.fin 0, [32768, 32768, 32768, 32768], []) := by decide

set_option maxRecDepth 40000 in
set_option maxHeartbeats 8000000 in
theorem C4K1child2 :
    killer.alphabetaF 9 163856 (-1) (EInt.fin 0) EInt.pinf [32768, 32768, 32768, 32768] [] =
      (EInt.fin 0, [32768, 32768, 512, 512], []) := by decide

set_option maxRecDepth 40000 in
set_option maxHeartbeats 8000000 in
theorem C4K1child3 :
    killer.alphabetaF 9 147472 (-1) (EInt.fin 0) EInt.pinf [32768, 32768, 512, 512] [] =
      (EInt.fin 0, [512, 2048, 2048, 2048], []) := by decide

set_option maxRecDepth 40000 in
set_option maxHeartbeats 8000000 in
theorem C4K1child4 :
    killer.alphabetaF 9 135184 (-1) (EInt.fin 0) EInt.pinf [512, 2048, 2048, 2048] [] =
      (EInt.fin 0, [2048, 32768, 512, 512], []) := by decide

set_option maxRecDepth 40000 in
set_option maxHeartbeats 8000000 in
theorem C4K1child5 :
    killer.alphabetaF 9 133136 (-1) (EInt.fin 0) EInt.pinf [2048, 32768, 512, 512] [] =
      (EInt.fin 0, [1024, 1024, 512, 1024], []) := by decide

set_option maxRecDepth 40000 in
set_option maxHeartbeats 8000000 in
theorem C4K1child6 :
    killer.alphabetaF 9 132112 (-1) (EInt.fin 0) EInt.pinf [1024, 1024, 512, 1024] [] =
      (EInt.fin 0, [32768, 512, 512, 2048], []) := by decide

set_option maxRecDepth 40000 in
set_option maxHeartbeats 8000000 in
theorem C4K1child7 :
    killer.alphabetaF 9 131600 (-1) (EInt.fin 0) EInt.pinf [32768, 512, 512, 2048] [] =
      (EInt.fin 0, [2048, 2048, 2048, 4096], []) := by decide

theorem C4K1children :
    List.filter (fun mc => List.contains ([] : List Nat) mc.1)
      ((List.filterMap (fun rc => killer.check 131088 rc.1 rc.2 1) POSITIONS).map
        (fun m => (m, killer.placeMask 131088 m))) ++
    List.filter (fun mc => !List.contains ([] : List Nat) mc.1)
      ((List.filterMap (fun rc => killer.check 131088 rc.1 rc.2 1) POSITIONS).map
        (fun m => (m, killer.placeMask 131088 m))) =
    [(65536, 196624), (32768, 163856), (16384, 147472), (4096, 135184), (2048, 133136), (1024, 132112), (512, 131600)] := by decide

set_option maxRecDepth 40000 in
set_option maxHeartbeats 8000000 in
theorem C4K2child1 :
    killer.alphabetaF 9 163968 (-1) EInt.ninf EInt.pinf [] [] =
      (EInt.fin 0, [2048, 2048, 2048, 8192], []) := by decide

set_option maxRecDepth 40000 in
set_option maxHeartbeats 8000000 in
theorem C4K2child2 :
    killer.alphabetaF 9 147584 (-1) (EInt.fin 0) EInt.pinf [2048, 2048, 2048, 8192] [] =
      (EInt.fin 10, [2048, 4096, 4096, 8192], []) := by decide

set_option maxRecDepth 40000 in
set_option maxHeartbeats 8000000 in
theorem C4K2child3 :
    killer.alphabetaF 9 139392 (-1) (EInt.fin 10) EInt.pinf [2048, 4096, 4096, 8192] [] =
      (EInt.fin 10, [2048, 4096, 4096, 8192], []) := by decide

set_option maxRecDepth 40000 in
set_option maxHeartbeats 8000000 in
theorem C4K2child4 :
    killer.alphabetaF 9 135296 (-1) (EInt.fin 10) EInt.pinf [2048, 4096, 4096, 8192] [] =
      (EInt.fin 10, [2048, 4096, 4096, 8192], []) := by decide

set_option maxRecDepth 40000 in
set_option maxHeartbeats 8000000 in
theorem C4K2child5 :
    killer.alphabetaF 9 133248 (-1) (EInt.fin 10) EInt.pinf [2048, 4096, 4096, 8192] [] =
      (EInt.fin 10, [2048, 4096, 4096, 8192], []) := by decide

set_option maxRecDepth 40000 in
set_option maxHeartbeats 8000000 in
theorem C4K2child6 :
    killer.alphabetaF 9 132224 (-1) (EInt.fin 10) EInt.pinf [2048, 4096, 4096, 8192] [] =
      (EInt.fin 10, [2048, 4096, 4096, 8192], []) := by decide

set_option maxRecDepth 40000 in
set_option maxHeartbeats 8000000 in
theorem C4K2child7 :
    killer.alphabetaF 9 131712 (-1) (EInt.fin 10) EInt.pinf [2048, 4096, 4096, 8192] [] =
      (EInt.fin 10, [2048, 4096, 4096, 8192], []) := by decide

theorem C4K2children :
    List.filter (fun mc => List.contains ([] : List Nat) mc.1)
      ((List.filterMap (fun rc => killer.check 131200 rc.1 rc.2 1) POSITIONS).map
        (fun m => (m, killer.placeMask 131200 m))) ++
    List.filter (fun mc => !List.contains ([] : List Nat) mc.1)
      ((List.filterMap (fun rc => killer.check 131200 rc.1 rc.2 1) POSITIONS).map
        (fun m => (m, killer.placeMask 131200 m))) =
    [(32768, 163968), (16384, 147584), (8192, 139392), (4096, 135296), (2048, 133248), (1024, 132224), (512, 131712)] := by decide

set_option maxRecDepth 40000 in
set_option maxHeartbeats 8000000 in
theorem C4CAchild1 :
    ab.alphabetaF 9 [['X', 'X', ' '], [' ', 'O', ' '], [' ', ' ', ' ']] 'O' EInt.ninf EInt.pinf = EInt.fin 0 := by decide

set_option maxRecDepth 40000 in
set_option maxHeartbeats 8000000 in
theorem C4CAchild2 :
    ab.alphabetaF 9 [['X', ' ', 'X'], [' ', 'O', ' '], [' ', ' ', ' ']] 'O' (EInt.fin 0) EInt.pinf = EInt.fin 0 := by decide

set_option maxRecDepth 40000 in
set_option maxHeartbeats 8000000 in
theorem C4CAchild3 :
    ab.alphabetaF 9 [['X', ' ', ' '], ['X', 'O', ' '], [' ', ' ', ' ']] 'O' (EInt.fin 0) EInt.pinf = EInt.fin 0 := by decide

set_option maxRecDepth 40000 in
set_option maxHeartbeats 8000000 in
theorem C4CAchild4 :
    ab.alphabetaF 9 [['X', ' ', ' '], [' ', 'O', 'X'], [' ', ' ', ' ']] 'O' (EInt.fin 0) EInt.pinf = EInt.fin 0 := by decide

set_option maxRecDepth 40000 in
set_option maxHeartbeats 8000000 in
theorem C4CAchild5 :
    ab.alphabetaF 9 [['X', ' ', ' '], [' ', 'O', ' '], ['X', ' ', ' ']] 'O' (EInt.fin 0) EInt.pinf = EInt.fin 0 := by decide

set_option maxRecDepth 40000 in
set_option maxHeartbeats 8000000 in
theorem C4CAchild6 :
    ab.alphabetaF 9 [['X', ' ', ' '], [' ', 'O', ' '], [' ', 'X', ' ']] 'O' (EInt.fin 0) EInt.pinf = EInt.fin 0 := by decide

set_option maxRecDepth 40000 in
set_option maxHeartbeats 8000000 in
theorem C4CAchild7 :
    ab.alphabetaF 9 [['X', ' ', ' '], [' ', 'O', ' '], [' ', ' ', 'X']] 'O' (EInt.fin 0) EInt.pinf = EInt.fin 0 := by decide

theorem C4CAchildren :
    POSITIONS.filterMap (fun rc => cplace [['X', ' ', ' '], [' ', 'O', ' '], [' ', ' ', ' ']] rc.1 rc.2 'X') =
    [[['X', 'X', ' '], [' ', 'O', ' '], [' ', ' ', ' ']],
     [['X', ' ', 'X'], [' ', 'O', ' '], [' ', ' ', ' ']],
     [['X', ' ', ' '], ['X', 'O', ' '], [' ', ' ', ' ']],
     [['X', ' ', ' '], [' ', 'O', 'X'], [' ', ' ', ' ']],
     [['X', ' ', ' '], [' ', 'O', ' '], ['X', ' ', ' ']],
     [['X', ' ', ' '], [' ', 'O', ' '], [' ', 'X', ' ']],
     [['X', ' ', ' '], [' ', 'O', ' '], [' ', ' ', 'X']]] := by decide

set_option maxRecDepth 40000 in
set_option maxHeartbeats 8000000 in
theorem C4CBchild1 :
    ab.alphabetaF 9 [['X', 'O', 'X'], [' ', ' ', ' '], [' ', ' ', ' ']] 'O' EInt.ninf EInt.pinf = EInt.fin 0 := by decide

set_option maxRecDepth 40000 in
set_option maxHeartbeats 8000000 in
theorem C4CBchild2 :
    ab.alphabetaF 9 [['X', 'O', ' '], ['X', ' ', ' '], [' ', ' ', ' ']] 'O' (EInt.fin 0) EInt.pinf = EInt.fin 10 := by decide

set_option maxRecDepth 40000 in
set_option maxHeartbeats 8000000 in
theorem C4CBchild3 :
    ab.alphabetaF 9 [['X', 'O', ' '], [' ', 'X', ' '], [' ', ' ', ' ']] 'O' (EInt.fin 10) EInt.pinf = EInt.fin 10 := by decide

set_option maxRecDepth 40000 in
set_option maxHeartbeats 8000000 in
theorem C4CBchild4 :
    ab.alphabetaF 9 [['X', 'O', ' '], [' ', ' ', 'X'], [' ', ' ', ' ']] 'O' (EInt.fin 10) EInt.pinf = EInt.fin 10 := by decide

set_option maxRecDepth 40000 in
set_option maxHeartbeats 8000000 in
theorem C4CBchild5 :
    ab.alphabetaF 9 [['X', 'O', ' '], [' ', ' ', ' '], ['X', ' ', ' ']] 'O' (EInt.fin 10) EInt.pinf = EInt.fin 10 := by decide

set_option maxRecDepth 40000 in
set_option maxHeartbeats 8000000 in
theorem C4CBchild6 :
    ab.alphabetaF 9 [['X', 'O', ' '], [' ', ' ', ' '], [' ', 'X', ' ']] 'O' (EInt.fin 10) EInt.pinf = EInt.fin 10 := by decide

set_option maxRecDepth 40000 in
set_option maxHeartbeats 8000000 in
theorem C4CBchild7 :
    ab.alphabetaF 9 [['X', 'O', ' '], [' ', ' ', ' '], [' ', ' ', 'X']] 'O' (EInt.fin 10) EInt.pinf = EInt.fin 10 := by decide

theorem C4CBchildren :
    POSITIONS.filterMap (fun rc => cplace [['X', 'O', ' '], [' ', ' ', ' '], [' ', ' ', ' ']] rc.1 rc.2 'X') =
    [[['X', 'O', 'X'], [' ', ' ', ' '], [' ', ' ', ' ']],
     [['X', 'O', ' '], ['X', ' ', ' '], [' ', ' ', ' ']],
     [['X', 'O', ' '], [' ', 'X', ' '], [' ', ' ', ' ']],
     [['X', 'O', ' '], [' ', ' ', 'X'], [' ', ' ', ' ']],
     [['X', 'O', ' '], [' ', ' ', ' '], ['X', ' ', ' ']],
     [['X', 'O', ' '], [' ', ' ', ' '], [' ', 'X', ' ']],
     [['X', 'O', ' '], [' ', ' ', ' '], [' ', ' ', 'X']]] := by decide

/-- C4: with X at `(0,0)`, the full-window search with the maximizer to move
returns exactly `0` after the minimizer replies at `(1,1)` and exactly `+10`
after the minimizer replies at `(0,1)` — on both engines: the killer-table
bit-board `alphabeta` of `killer.py` and the character-matrix `alphabeta` of
`alphabeta.py`. -/
theorem C4_one_move_reply_values :
    (killer.alphabeta 131088 1 EInt.ninf EInt.pinf [] []).1 = EInt.fin 0 ∧
    (killer.alphabeta 131200 1 EInt.ninf EInt.pinf [] []).1 = EInt.fin 10 ∧
    ab.alphabeta [['X', ' ', ' '], [' ', 'O', ' '], [' ', ' ', ' ']] 'X' EInt.ninf EInt.pinf = EInt.fin 0 ∧
    ab.alphabeta [['X', 'O', ' '], [' ', ' ', ' '], [' ', ' ', ' ']] 'X' EInt.ninf EInt.pinf = EInt.fin 10 := by
  refine ⟨?_, ?_, ?_, ?_⟩
  · show (killer.alphabetaF 10 131088 1 EInt.ninf EInt.pinf [] []).1 = EInt.fin 0
    rw [show (10 : Nat) = 9 + 1 from rfl,
      alphabetaF_max_val 9 131088 EInt.ninf EInt.pinf [] [] (by decide), C4K1children]
    rw [killer.abMaxLoop.eq_2]
    simp only [C4K1child1, emax_ninf_fin0, emax_fin0_fin0, emax_fin0_fin10, emax_fin10_fin10, ele_pinf_fin0, ele_pinf_fin10,
      Bool.false_eq_true, if_false]
    rw [killer.abMaxLoop.eq_2]
    simp only [C4K1child2, emax_ninf_fin0, emax_fin0_fin0, emax_fin0_fin10, emax_fin10_fin10, ele_pinf_fin0, ele_pinf_fin10,
      Bool.false_eq_true, if_false]
    rw [killer.abMaxLoop.eq_2]
    simp only [C4K1child3, emax_ninf_fin0, emax_fin0_fin0, emax_fin0_fin10, emax_fin10_fin10, ele_pinf_fin0, ele_pinf_fin10,
      Bool.false_eq_true, if_false]
    rw [killer.abMaxLoop.eq_2]
    simp only [C4K1child4, emax_ninf_fin0, emax_fin0_fin0, emax_fin0_fin10, emax_fin10_fin10, ele_pinf_fin0, ele_pinf_fin10,
      Bool.false_eq_true, if_false]
    rw [killer.abMaxLoop.eq_2]
    simp only [C4K1child5, emax_ninf_fin0, emax_fin0_fin0, emax_fin0_fin10, emax_fin10_fin10, ele_pinf_fin0, ele_pinf_fin10,
      Bool.false_eq_true, if_false]
    rw [killer.abMaxLoop.eq_2]
    simp only [C4K1child6, emax_ninf_fin0, emax_fin0_fin0, emax_fin0_fin10, emax_fin10_fin10, ele_pinf_fin0, ele_pinf_fin10,
      Bool.false_eq_true, if_false]
    rw [killer.abMaxLoop.eq_2]
    simp only [C4K1child7, emax_ninf_fin0, emax_fin0_fin0, emax_fin0_fin10, emax_fin10_fin10, ele_pinf_fin0, ele_pinf_fin10,
      Bool.false_eq_true, if_false]
    rw [killer.abMaxLoop.eq_1]
  · show (killer.alphabetaF 10 131200 1 EInt.ninf EInt.pinf [] []).1 = EInt.fin 10
    rw [show (10 : Nat) = 9 + 1 from rfl,
      alphabetaF_max_val 9 131200 EInt.ninf EInt.pinf [] [] (by decide), C4K2children]
    rw [killer.abMaxLoop.eq_2]
    simp only [C4K2child1, emax_ninf_fin0, emax_fin0_fin0, emax_fin0_fin10, emax_fin10_fin10, ele_pinf_fin0, ele_pinf_fin10,
      Bool.false_eq_true, if_false]
    rw [killer.abMaxLoop.eq_2]
    simp only [C4K2child2, emax_ninf_fin0, emax_fin0_fin0, emax_fin0_fin10, emax_fin10_fin10, ele_pinf_fin0, ele_pinf_fin10,
      Bool.false_eq_true, if_false]
    rw [killer.abMaxLoop.eq_2]
    simp only [C4K2child3, emax_ninf_fin0, emax_fin0_fin0, emax_fin0_fin10, emax_fin10_fin10, ele_pinf_fin0, ele_pinf_fin10,
      Bool.false_eq_true, if_false]
    rw [killer.abMaxLoop.eq_2]
    simp only [C4K2child4, emax_ninf_fin0, emax_fin0_fin0, emax_fin0_fin10, emax_fin10_fin10, ele_pinf_fin0, ele_pinf_fin10,
      Bool.false_eq_true, if_false]
    rw [killer.abMaxLoop.eq_2]
    simp only [C4K2child5, emax_ninf_fin0, emax_fin0_fin0, emax_fin0_fin10, emax_fin10_fin10, ele_pinf_fin0, ele_pinf_fin10,
      Bool.false_eq_true, if_false]
    rw [killer.abMaxLoop.eq_2]
    simp only [C4K2child6, emax_ninf_fin0, emax_fin0_fin0, emax_fin0_fin10, emax_fin10_fin10, ele_pinf_fin0, ele_pinf_fin10,
      Bool.false_eq_true, if_false]
    rw [killer.abMaxLoop.eq_2]
    simp only [C4K2child7, emax_ninf_fin0, emax_fin0_fin0, emax_fin0_fin10, emax_fin10_fin10, ele_pinf_fin0, ele_pinf_fin10,
      Bool.false_eq_true, if_false]
    rw [killer.abMaxLoop.eq_1]
  · show ab.alphabetaF 10 [['X', ' ', ' '], [' ', 'O', ' '], [' ', ' ', ' ']] 'X' EInt.ninf EInt.pinf = EInt.fin 0
    rw [show (10 : Nat) = 9 + 1 from rfl,
      ab_alphabetaF_max_val 9 [['X', ' ', ' '], [' ', 'O', ' '], [' ', ' ', ' ']] EInt.ninf EInt.pinf (by decide), C4CAchildren]
    rw [ab.maxLoopC.eq_2]
    simp only [C4CAchild1, emax_ninf_fin0, emax_fin0_fin0, emax_fin0_fin10, emax_fin10_fin10, ele_pinf_fin0, ele_pinf_fin10,
      Bool.false_eq_true, if_false]
    rw [ab.maxLoopC.eq_2]
    simp only [C4CAchild2, emax_ninf_fin0, emax_fin0_fin0, emax_fin0_fin10, emax_fin10_fin10, ele_pinf_fin0, ele_pinf_fin10,
      Bool.false_eq_true, if_false]
    rw [ab.maxLoopC.eq_2]
    simp only [C4CAchild3, emax_ninf_fin0, emax_fin0_fin0, emax_fin0_fin10, emax_fin10_fin10, ele_pinf_fin0, ele_pinf_fin10,
      Bool.false_eq_true, if_false]
    rw [ab.maxLoopC.eq_2]
    simp only [C4CAchild4, emax_ninf_fin0, emax_fin0_fin0, emax_fin0_fin10, emax_fin10_fin10, ele_pinf_fin0, ele_pinf_fin10,
      Bool.false_eq_true, if_false]
    rw [ab.maxLoopC.eq_2]
    simp only [C4CAchild5, emax_ninf_fin0, emax_fin0_fin0, emax_fin0_fin10, emax_fin10_fin10, ele_pinf_fin0, ele_pinf_fin10,
      Bool.false_eq_true, if_false]
    rw [ab.maxLoopC.eq_2]
    simp only [C4CAchild6, emax_ninf_fin0, emax_fin0_fin0, emax_fin0_fin10, emax_fin10_fin10, ele_pinf_fin0, ele_pinf_fin10,
      Bool.false_eq_true, if_false]
    rw [ab.maxLoopC.eq_2]
    simp only [C4CAchild7, emax_ninf_fin0, emax_fin0_fin0, emax_fin0_fin10, emax_fin10_fin10, ele_pinf_fin0, ele_pinf_fin10,
      Bool.false_eq_true, if_false]
    rw [ab.maxLoopC.eq_1]
  · show ab.alphabetaF 10 [['X', 'O', ' '], [' ', ' ', ' '], [' ', ' ', ' ']] 'X' EInt.ninf EInt.pinf = EInt.fin 10
    rw [show (10 : Nat) = 9 + 1 from rfl,
      ab_alphabetaF_max_val 9 [['X', 'O', ' '], [' ', ' ', ' '], [' ', ' ', ' ']] EInt.ninf EInt.pinf (by decide), C4CBchildren]
    rw [ab.maxLoopC.eq_2]
    simp only [C4CBchild1, emax_ninf_fin0, emax_fin0_fin0, emax_fin0_fin10, emax_fin10_fin10, ele_pinf_fin0, ele_pinf_fin10,
      Bool.false_eq_true, if_false]
    rw [ab.maxLoopC.eq_2]
    simp only [C4CBchild2, emax_ninf_fin0, emax_fin0_fin0, emax_fin0_fin10, emax_fin10_fin10, ele_pinf_fin0, ele_pinf_fin10,
      Bool.false_eq_true, if_false]
    rw [ab.maxLoopC.eq_2]
    simp only [C4CBchild3, emax_ninf_fin0, emax_fin0_fin0, emax_fin0_fin10, emax_fin10_fin10, ele_pinf_fin0, ele_pinf_fin10,
      Bool.false_eq_true, if_false]
    rw [ab.maxLoopC.eq_2]
    simp only [C4CBchild4, emax_ninf_fin0, emax_fin0_fin0, emax_fin0_fin10, emax_fin10_fin10, ele_pinf_fin0, ele_pinf_fin10,
      Bool.false_eq_true, if_false]
    rw [ab.maxLoopC.eq_2]
    simp only [C4CBchild5, emax_ninf_fin0, emax_fin0_fin0, emax_fin0_fin10, emax_fin10_fin10, ele_pinf_fin0, ele_pinf_fin10,
      Bool.false_eq_true, if_false]
    rw [ab.maxLoopC.eq_2]
    simp only [C4CBchild6, emax_ninf_fin0, emax_fin0_fin0, emax_fin0_fin10, emax_fin10_fin10, ele_pinf_fin0, ele_pinf_fin10,
      Bool.false_eq_true, if_false]
    rw [ab.maxLoopC.eq_2]
    simp only [C4CBchild7, emax_ninf_fin0, emax_fin0_fin0, emax_fin0_fin10, emax_fin10_fin10, ele_pinf_fin0, ele_pinf_fin10,
      Bool.false_eq_true, if_false]
    rw [ab.maxLoopC.eq_1]



/-! ## Correspondence between `alphabeta.py` and its bit-level twin -/

/-- One ply of the search in `alphabeta.py` at a non-terminal minimizer node. -/
theorem ab_alphabetaF_min_val (fuel : Nat) (b : CBoard) (a b' : EInt)
    (he : csimple_evaluate b = none) :
    ab.alphabetaF (fuel + 1) b 'O' a b' =
      ab.minLoopC (fun c a2 bb => ab.alphabetaF fuel c 'X' a2 bb) a
        (POSITIONS.filterMap (fun rc => cplace b rc.1 rc.2 'O')) EInt.pinf b' := by
  simp only [ab.alphabetaF, he, heuristicFlag, Bool.false_eq_true, if_false,
    Char.reduceEq, eq_self_iff_true, if_true]

/-! ### Bit-level helper lemmas -/

theorem ne_zero_of_testBit (b t : Nat) (h : b.testBit t = true) : b ≠ 0 := by
  intro h0
  rw [h0, Nat.zero_testBit] at h
  cases h

theorem or2_and_eq_zero (b i j : Nat) :
    ((2 ^ i ||| 2 ^ j) &&& b = 0) ↔ (b.testBit i = false ∧ b.testBit j = false) := by
  constructor
  · intro h
    constructor
    · have hi := congrArg (fun n => n.testBit i) h
      simpa [Nat.testBit_and, Nat.testBit_or, Nat.testBit_two_pow_self] using hi
    · have hj := congrArg (fun n => n.testBit j) h
      simpa [Nat.testBit_and, Nat.testBit_or, Nat.testBit_two_pow_self] using hj
  · intro ⟨h1, h2⟩
    apply Nat.eq_of_testBit_eq
    intro t
    simp only [Nat.testBit_and, Nat.testBit_or, Nat.zero_testBit]
    by_cases hti : t = i
    · subst hti
      simp [h1]
    · by_cases htj : t = j
      · subst htj
        simp [h2]
      · simp [Nat.testBit_two_pow_of_ne (fun h => hti h.symm),
          Nat.testBit_two_pow_of_ne (fun h => htj h.symm)]

theorem and_ne_zero_of_left (b i j : Nat) (h : b.testBit i = true) :
    ¬((2 ^ i ||| 2 ^ j) &&& b = 0) := by
  intro h0
  rw [(or2_and_eq_zero b i j).mp h0 |>.1] at h
  cases h

theorem and_ne_zero_of_right (b i j : Nat) (h : b.testBit j = true) :
    ¬((2 ^ i ||| 2 ^ j) &&& b = 0) := by
  intro h0
  rw [(or2_and_eq_zero b i j).mp h0 |>.2] at h
  cases h

theorem disjoint_bits (b : Nat) (hd : killer.halvesDisjoint b) (t : Nat) (ht : t < 9) :
    ¬(b.testBit t = true ∧ b.testBit (t + 9) = true) := by
  intro ⟨h1, h2⟩
  have hb := congrArg (fun n => n.testBit t) hd
  simp only [Nat.testBit_and, Nat.testBit_shiftRight, Nat.zero_testBit] at hb
  rw [Nat.add_comm 9 t, h1, h2] at hb
  rw [show (511 : Nat) = 2 ^ 9 - 1 by norm_num, Nat.testBit_two_pow_sub_one] at hb
  simp [ht] at hb

/-! ### Cell-level lemmas about `encode` -/

theorem cellB_blank (b i : Nat) :
    (cellB b i == ' ') = !(b.testBit (i + 9) || b.testBit i) := by
  unfold cellB
  cases h1 : b.testBit (i + 9) <;> cases h2 : b.testBit i <;> simp

theorem cellB_or_ne (b i k : Nat) (h1 : i ≠ k + 9) (h2 : i ≠ k) :
    cellB (b ||| 2 ^ i) k = cellB b k := by
  unfold cellB
  rw [Nat.testBit_or, Nat.testBit_or, Nat.testBit_two_pow_of_ne h1,
    Nat.testBit_two_pow_of_ne h2, Bool.or_false, Bool.or_false]

theorem cellB_or_self_X (b i k : Nat) (h : i = k + 9) : cellB (b ||| 2 ^ i) k = 'X' := by
  subst h
  unfold cellB
  rw [Nat.testBit_or, Nat.testBit_two_pow_self, Bool.or_true]
  rfl

theorem cellB_or_self_O (b i k : Nat) (h : i = k) (h9 : b.testBit (k + 9) = false) :
    cellB (b ||| 2 ^ i) k = 'O' := by
  subst h
  unfold cellB
  rw [Nat.testBit_or, Nat.testBit_or, Nat.testBit_two_pow_of_ne (by omega), h9,
    Nat.testBit_two_pow_self, Bool.false_or, Bool.or_true]
  rfl

/-! ### Line and evaluation agreement -/

theorem blineN_values (b i j k : Nat) :
    blineN b i j k = none ∨ blineN b i j k = some 'X' ∨ blineN b i j k = some 'O' := by
  unfold blineN
  split
  · simp
  · split <;> simp

theorem bline_agree (b : Nat) (hd : killer.halvesDisjoint b) (i j k : Nat)
    (hi : i < 9) (hj : j < 9) (hk : k < 9) :
    lineWin [cellB b i, cellB b j, cellB b k] = blineN b i j k := by
  have di := disjoint_bits b hd i hi
  have dj := disjoint_bits b hd j hj
  have dk := disjoint_bits b hd k hk
  unfold lineWin blineN cellB
  cases h1 : b.testBit (i + 9) <;> cases h2 : b.testBit i <;>
    cases h3 : b.testBit (j + 9) <;> cases h4 : b.testBit j <;>
      cases h5 : b.testBit (k + 9) <;> cases h6 : b.testBit k <;>
        simp_all

theorem bwon_values (b : Nat) :
    bwon b = none ∨ bwon b = some 'X' ∨ bwon b = some 'O' := by
  unfold bwon
  simp only [List.findSome?_cons, List.findSome?_nil, id]
  rcases blineN_values b 8 7 6 with h1 | h1 | h1 <;> rw [h1]
  · rcases blineN_values b 5 4 3 with h2 | h2 | h2 <;> rw [h2]
    · rcases blineN_values b 2 1 0 with h3 | h3 | h3 <;> rw [h3]
      · rcases blineN_values b 8 5 2 with h4 | h4 | h4 <;> rw [h4]
        · rcases blineN_values b 7 4 1 with h5 | h5 | h5 <;> rw [h5]
          · rcases blineN_values b 6 3 0 with h6 | h6 | h6 <;> rw [h6]
            · rcases blineN_values b 8 4 0 with h7 | h7 | h7 <;> rw [h7]
              · rcases blineN_values b 6 4 2 with h8 | h8 | h8 <;> rw [h8] <;> simp
              · simp
              · simp
            · simp
            · simp
          · simp
          · simp
        · simp
        · simp
      · simp
      · simp
    · simp
    · simp
  · simp
  · simp

theorem cwon_encode (b : Nat) (hd : killer.halvesDisjoint b) :
    cwon (encode b) = bwon b := by
  have h1 := bline_agree b hd 8 7 6 (by norm_num) (by norm_num) (by norm_num)
  have h2 := bline_agree b hd 5 4 3 (by norm_num) (by norm_num) (by norm_num)
  have h3 := bline_agree b hd 2 1 0 (by norm_num) (by norm_num) (by norm_num)
  have h4 := bline_agree b hd 8 5 2 (by norm_num) (by norm_num) (by norm_num)
  have h5 := bline_agree b hd 7 4 1 (by norm_num) (by norm_num) (by norm_num)
  have h6 := bline_agree b hd 6 3 0 (by norm_num) (by norm_num) (by norm_num)
  have h7 := bline_agree b hd 8 4 0 (by norm_num) (by norm_num) (by norm_num)
  have h8 := bline_agree b hd 6 4 2 (by norm_num) (by norm_num) (by norm_num)
  show (match List.findSome? lineWin
      [[cellB b 8, cellB b 7, cellB b 6],
       [cellB b 5, cellB b 4, cellB b 3],
       [cellB b 2, cellB b 1, cellB b 0]] with
    | some w => some w
    | none =>
      match (List.range 3).findSome?
          (fun n => lineWin [cget (encode b) 0 n, cget (encode b) 1 n, cget (encode b) 2 n]) with
      | some w => some w
      | none =>
        match lineWin [cget (encode b) 0 0, cget (encode b) 1 1, cget (encode b) 2 2] with
        | some w => some w
        | none => lineWin [cget (encode b) 0 2, cget (encode b) 1 1, cget (encode b) 2 0]) = bwon b
  unfold bwon
  rw [show (List.range 3) = [0, 1, 2] by decide]
  simp only [List.findSome?_cons, List.findSome?_nil, id]
  rw [show cget (encode b) 0 0 = cellB b 8 from rfl, show cget (encode b) 0 1 = cellB b 7 from rfl,
    show cget (encode b) 0 2 = cellB b 6 from rfl, show cget (encode b) 1 0 = cellB b 5 from rfl,
    show cget (encode b) 1 1 = cellB b 4 from rfl, show cget (encode b) 1 2 = cellB b 3 from rfl,
    show cget (encode b) 2 0 = cellB b 2 from rfl, show cget (encode b) 2 1 = cellB b 1 from rfl,
    show cget (encode b) 2 2 = cellB b 0 from rfl]
  rw [h1, h2, h3, h4, h5, h6, h7, h8]

theorem cspaces_encode (b : Nat) : cspaces (encode b) = bspaces b := by
  unfold cspaces bspaces
  apply List.countP_congr
  intro rc hrc
  fin_cases hrc
  · rw [show cget (encode b) 0 0 = cellB b 8 from rfl, cellB_blank]
    norm_num
  · rw [show cget (encode b) 0 1 = cellB b 7 from rfl, cellB_blank]
    norm_num
  · rw [show cget (encode b) 0 2 = cellB b 6 from rfl, cellB_blank]
    norm_num
  · rw [show cget (encode b) 1 0 = cellB b 5 from rfl, cellB_blank]
    norm_num
  · rw [show cget (encode b) 1 1 = cellB b 4 from rfl, cellB_blank]
    norm_num
  · rw [show cget (encode b) 1 2 = cellB b 3 from rfl, cellB_blank]
    norm_num
  · rw [show cget (encode b) 2 0 = cellB b 2 from rfl, cellB_blank]
    norm_num
  · rw [show cget (encode b) 2 1 = cellB b 1 from rfl, cellB_blank]
    norm_num
  · rw [show cget (encode b) 2 2 = cellB b 0 from rfl, cellB_blank]
    norm_num

theorem eval_encode (b : Nat) (hd : killer.halvesDisjoint b) :
    csimple_evaluate (encode b) = bEval b := by
  rcases bwon_values b with h | h | h <;>
    (unfold csimple_evaluate bEval; rw [cwon_encode b hd, h, cspaces_encode b])

/-! ### Per-cell agreement between `cplace` on `encode` and `killer.place` -/

theorem cpX00 (b : Nat) :
    cplace (encode b) 0 0 'X' = (killer.place b 0 0 1).map encode := by
  have hko : (killer.mask 0 0 1 ||| killer.mask 0 0 (-1)) = 2 ^ 17 ||| 2 ^ 8 := by decide
  cases h9 : b.testBit 17 <;> cases h0 : b.testBit 8
  · have hz : (killer.mask 0 0 1 ||| killer.mask 0 0 (-1)) &&& b = 0 := by
      rw [hko]
      exact (or2_and_eq_zero b 17 8).mpr ⟨h9, h0⟩
    have hpl : killer.place b 0 0 1 = some (b ||| killer.mask 0 0 1) :=
      (killer.place_eq_some_iff b 0 0 1 _).mpr ⟨hz, rfl⟩
    rw [hpl, show killer.mask 0 0 1 = 2 ^ 17 by decide]
    have hfree : cget (encode b) 0 0 = ' ' := by
      show cellB b 8 = ' '
      simp [cellB, h9, h0]
    unfold cplace
    rw [hfree, if_pos rfl]
    show some
      [['X', cellB b 7, cellB b 6],
       [cellB b 5, cellB b 4, cellB b 3],
       [cellB b 2, cellB b 1, cellB b 0]] = some (encode (b ||| 2 ^ 17))
    unfold encode
    rw [cellB_or_self_X b 17 8 (by norm_num),
      cellB_or_ne b 17 0 (by norm_num) (by norm_num),
      cellB_or_ne b 17 1 (by norm_num) (by norm_num),
      cellB_or_ne b 17 2 (by norm_num) (by norm_num),
      cellB_or_ne b 17 3 (by norm_num) (by norm_num),
      cellB_or_ne b 17 4 (by norm_num) (by norm_num),
      cellB_or_ne b 17 5 (by norm_num) (by norm_num),
      cellB_or_ne b 17 6 (by norm_num) (by norm_num),
      cellB_or_ne b 17 7 (by norm_num) (by norm_num)]
  · have hnz : ¬((killer.mask 0 0 1 ||| killer.mask 0 0 (-1)) &&& b = 0) := by
      rw [hko]
      exact and_ne_zero_of_right b 17 8 h0
    have hpl : killer.place b 0 0 1 = none := (killer.place_eq_none_iff b 0 0 1).mpr hnz
    rw [hpl]
    have hocc : cget (encode b) 0 0 = 'O' := by
      show cellB b 8 = 'O'
      simp [cellB, h9, h0]
    unfold cplace
    rw [hocc, if_neg (by decide)]
    rfl
  · have hnz : ¬((killer.mask 0 0 1 ||| killer.mask 0 0 (-1)) &&& b = 0) := by
      rw [hko]
      exact and_ne_zero_of_left b 17 8 h9
    have hpl : killer.place b 0 0 1 = none := (killer.place_eq_none_iff b 0 0 1).mpr hnz
    rw [hpl]
    have hocc : cget (encode b) 0 0 = 'X' := by
      show cellB b 8 = 'X'
      simp [cellB, h9, h0]
    unfold cplace
    rw [hocc, if_neg (by decide)]
    rfl
  · have hnz : ¬((killer.mask 0 0 1 ||| killer.mask 0 0 (-1)) &&& b = 0) := by
      rw [hko]
      exact and_ne_zero_of_left b 17 8 h9
    have hpl : killer.place b 0 0 1 = none := (killer.place_eq_none_iff b 0 0 1).mpr hnz
    rw [hpl]
    have hocc : cget (encode b) 0 0 = 'X' := by
      show cellB b 8 = 'X'
      simp [cellB, h9, h0]
    unfold cplace
    rw [hocc, if_neg (by decide)]
    rfl

theorem cpO00 (b : Nat) :
    cplace (encode b) 0 0 'O' = (killer.place b 0 0 (-1)).map encode := by
  have hko : (killer.mask 0 0 (-1) ||| killer.mask 0 0 (-(-1))) = 2 ^ 8 ||| 2 ^ 17 := by decide
  cases h9 : b.testBit 17 <;> cases h0 : b.testBit 8
  · have hz : (killer.mask 0 0 (-1) ||| killer.mask 0 0 (-(-1))) &&& b = 0 := by
      rw [hko]
      exact (or2_and_eq_zero b 8 17).mpr ⟨h0, h9⟩
    have hpl : killer.place b 0 0 (-1) = some (b ||| killer.mask 0 0 (-1)) :=
      (killer.place_eq_some_iff b 0 0 (-1) _).mpr ⟨hz, rfl⟩
    rw [hpl, show killer.mask 0 0 (-1) = 2 ^ 8 by decide]
    have hfree : cget (encode b) 0 0 = ' ' := by
      show cellB b 8 = ' '
      simp [cellB, h9, h0]
    unfold cplace
    rw [hfree, if_pos rfl]
    show some
      [['O', cellB b 7, cellB b 6],
       [cellB b 5, cellB b 4, cellB b 3],
       [cellB b 2, cellB b 1, cellB b 0]] = some (encode (b ||| 2 ^ 8))
    unfold encode
    rw [cellB_or_self_O b 8 8 rfl h9,
      cellB_or_ne b 8 0 (by norm_num) (by norm_num),
      cellB_or_ne b 8 1 (by norm_num) (by norm_num),
      cellB_or_ne b 8 2 (by norm_num) (by norm_num),
      cellB_or_ne b 8 3 (by norm_num) (by norm_num),
      cellB_or_ne b 8 4 (by norm_num) (by norm_num),
      cellB_or_ne b 8 5 (by norm_num) (by norm_num),
      cellB_or_ne b 8 6 (by norm_num) (by norm_num),
      cellB_or_ne b 8 7 (by norm_num) (by norm_num)]
  · have hnz : ¬((killer.mask 0 0 (-1) ||| killer.mask 0 0 (-(-1))) &&& b = 0) := by
      rw [hko]
      exact and_ne_zero_of_left b 8 17 h0
    have hpl : killer.place b 0 0 (-1) = none := (killer.place_eq_none_iff b 0 0 (-1)).mpr hnz
    rw [hpl]
    have hocc : cget (encode b) 0 0 = 'O' := by
      show cellB b 8 = 'O'
      simp [cellB, h9, h0]
    unfold cplace
    rw [hocc, if_neg (by decide)]
    rfl
  · have hnz : ¬((killer.mask 0 0 (-1) ||| killer.mask 0 0 (-(-1))) &&& b = 0) := by
      rw [hko]
      exact and_ne_zero_of_right b 8 17 h9
    have hpl : killer.place b 0 0 (-1) = none := (killer.place_eq_none_iff b 0 0 (-1)).mpr hnz
    rw [hpl]
    have hocc : cget (encode b) 0 0 = 'X' := by
      show cellB b 8 = 'X'
      simp [cellB, h9, h0]
    unfold cplace
    rw [hocc, if_neg (by decide)]
    rfl
  · have hnz : ¬((killer.mask 0 0 (-1) ||| killer.mask 0 0 (-(-1))) &&& b = 0) := by
      rw [hko]
      exact and_ne_zero_of_right b 8 17 h9
    have hpl : killer.place b 0 0 (-1) = none := (killer.place_eq_none_iff b 0 0 (-1)).mpr hnz
    rw [hpl]
    have hocc : cget (encode b) 0 0 = 'X' := by
      show cellB b 8 = 'X'
      simp [cellB, h9, h0]
    unfold cplace
    rw [hocc, if_neg (by decide)]
    rfl

theorem cpX01 (b : Nat) :
    cplace (encode b) 0 1 'X' = (killer.place b 0 1 1).map encode := by
  have hko : (killer.mask 0 1 1 ||| killer.mask 0 1 (-1)) = 2 ^ 16 ||| 2 ^ 7 := by decide
  cases h9 : b.testBit 16 <;> cases h0 : b.testBit 7
  · have hz : (killer.mask 0 1 1 ||| killer.mask 0 1 (-1)) &&& b = 0 := by
      rw [hko]
      exact (or2_and_eq_zero b 16 7).mpr ⟨h9, h0⟩
    have hpl : killer.place b 0 1 1 = some (b ||| killer.mask 0 1 1) :=
      (killer.place_eq_some_iff b 0 1 1 _).mpr ⟨hz, rfl⟩
    rw [hpl, show killer.mask 0 1 1 = 2 ^ 16 by decide]
    have hfree : cget (encode b) 0 1 = ' ' := by
      show cellB b 7 = ' '
      simp [cellB, h9, h0]
    unfold cplace
    rw [hfree, if_pos rfl]
    show some
      [[cellB b 8, 'X', cellB b 6],
       [cellB b 5, cellB b 4, cellB b 3],
       [cellB b 2, cellB b 1, cellB b 0]] = some (encode (b ||| 2 ^ 16))
    unfold encode
    rw [cellB_or_self_X b 16 7 (by norm_num),
      cellB_or_ne b 16 0 (by norm_num) (by norm_num),
      cellB_or_ne b 16 1 (by norm_num) (by norm_num),
      cellB_or_ne b 16 2 (by norm_num) (by norm_num),
      cellB_or_ne b 16 3 (by norm_num) (by norm_num),
      cellB_or_ne b 16 4 (by norm_num) (by norm_num),
      cellB_or_ne b 16 5 (by norm_num) (by norm_num),
      cellB_or_ne b 16 6 (by norm_num) (by norm_num),
      cellB_or_ne b 16 8 (by norm_num) (by norm_num)]
  · have hnz : ¬((killer.mask 0 1 1 ||| killer.mask 0 1 (-1)) &&& b = 0) := by
      rw [hko]
      exact and_ne_zero_of_right b 16 7 h0
    have hpl : killer.place b 0 1 1 = none := (killer.place_eq_none_iff b 0 1 1).mpr hnz
    rw [hpl]
    have hocc : cget (encode b) 0 1 = 'O' := by
      show cellB b 7 = 'O'
      simp [cellB, h9, h0]
    unfold cplace
    rw [hocc, if_neg (by decide)]
    rfl
  · have hnz : ¬((killer.mask 0 1 1 ||| killer.mask 0 1 (-1)) &&& b = 0) := by
      rw [hko]
      exact and_ne_zero_of_left b 16 7 h9
    have hpl : killer.place b 0 1 1 = none := (killer.place_eq_none_iff b 0 1 1).mpr hnz
    rw [hpl]
    have hocc : cget (encode b) 0 1 = 'X' := by
      show cellB b 7 = 'X'
      simp [cellB, h9, h0]
    unfold cplace
    rw [hocc, if_neg (by decide)]
    rfl
  · have hnz : ¬((killer.mask 0 1 1 ||| killer.mask 0 1 (-1)) &&& b = 0) := by
      rw [hko]
      exact and_ne_zero_of_left b 16 7 h9
    have hpl : killer.place b 0 1 1 = none := (killer.place_eq_none_iff b 0 1 1).mpr hnz
    rw [hpl]
    have hocc : cget (encode b) 0 1 = 'X' := by
      show cellB b 7 = 'X'
      simp [cellB, h9, h0]
    unfold cplace
    rw [hocc, if_neg (by decide)]
    rfl

theorem cpO01 (b : Nat) :
    cplace (encode b) 0 1 'O' = (killer.place b 0 1 (-1)).map encode := by
  have hko : (killer.mask 0 1 (-1) ||| killer.mask 0 1 (-(-1))) = 2 ^ 7 ||| 2 ^ 16 := by decide
  cases h9 : b.testBit 16 <;> cases h0 : b.testBit 7
  · have hz : (killer.mask 0 1 (-1) ||| killer.mask 0 1 (-(-1))) &&& b = 0 := by
      rw [hko]
      exact (or2_and_eq_zero b 7 16).mpr ⟨h0, h9⟩
    have hpl : killer.place b 0 1 (-1) = some (b ||| killer.mask 0 1 (-1)) :=
      (killer.place_eq_some_iff b 0 1 (-1) _).mpr ⟨hz, rfl⟩
    rw [hpl, show killer.mask 0 1 (-1) = 2 ^ 7 by decide]
    have hfree : cget (encode b) 0 1 = ' ' := by
      show cellB b 7 = ' '
      simp [cellB, h9, h0]
    unfold cplace
    rw [hfree, if_pos rfl]
    show some
      [[cellB b 8, 'O', cellB b 6],
       [cellB b 5, cellB b 4, cellB b 3],
       [cellB b 2, cellB b 1, cellB b 0]] = some (encode (b ||| 2 ^ 7))
    unfold encode
    rw [cellB_or_self_O b 7 7 rfl h9,
      cellB_or_ne b 7 0 (by norm_num) (by norm_num),
      cellB_or_ne b 7 1 (by norm_num) (by norm_num),
      cellB_or_ne b 7 2 (by norm_num) (by norm_num),
      cellB_or_ne b 7 3 (by norm_num) (by norm_num),
      cellB_or_ne b 7 4 (by norm_num) (by norm_num),
      cellB_or_ne b 7 5 (by norm_num) (by norm_num),
      cellB_or_ne b 7 6 (by norm_num) (by norm_num),
      cellB_or_ne b 7 8 (by norm_num) (by norm_num)]
  · have hnz : ¬((killer.mask 0 1 (-1) ||| killer.mask 0 1 (-(-1))) &&& b = 0) := by
      rw [hko]
      exact and_ne_zero_of_left b 7 16 h0
    have hpl : killer.place b 0 1 (-1) = none := (killer.place_eq_none_iff b 0 1 (-1)).mpr hnz
    rw [hpl]
    have hocc : cget (encode b) 0 1 = 'O' := by
      show cellB b 7 = 'O'
      simp [cellB, h9, h0]
    unfold cplace
    rw [hocc, if_neg (by decide)]
    rfl
  · have hnz : ¬((killer.mask 0 1 (-1) ||| killer.mask 0 1 (-(-1))) &&& b = 0) := by
      rw [hko]
      exact and_ne_zero_of_right b 7 16 h9
    have hpl : killer.place b 0 1 (-1) = none := (killer.place_eq_none_iff b 0 1 (-1)).mpr hnz
    rw [hpl]
    have hocc : cget (encode b) 0 1 = 'X' := by
      show cellB b 7 = 'X'
      simp [cellB, h9, h0]
    unfold cplace
    rw [hocc, if_neg (by decide)]
    rfl
  · have hnz : ¬((killer.mask 0 1 (-1) ||| killer.mask 0 1 (-(-1))) &&& b = 0) := by
      rw [hko]
      exact and_ne_zero_of_right b 7 16 h9
    have hpl : killer.place b 0 1 (-1) = none := (killer.place_eq_none_iff b 0 1 (-1)).mpr hnz
    rw [hpl]
    have hocc : cget (encode b) 0 1 = 'X' := by
      show cellB b 7 = 'X'
      simp [cellB, h9, h0]
    unfold cplace
    rw [hocc, if_neg (by decide)]
    rfl

theorem cpX02 (b : Nat) :
    cplace (encode b) 0 2 'X' = (killer.place b 0 2 1).map encode := by
  have hko : (killer.mask 0 2 1 ||| killer.mask 0 2 (-1)) = 2 ^ 15 ||| 2 ^ 6 := by decide
  cases h9 : b.testBit 15 <;> cases h0 : b.testBit 6
  · have hz : (killer.mask 0 2 1 ||| killer.mask 0 2 (-1)) &&& b = 0 := by
      rw [hko]
      exact (or2_and_eq_zero b 15 6).mpr ⟨h9, h0⟩
    have hpl : killer.place b 0 2 1 = some (b ||| killer.mask 0 2 1) :=
      (killer.place_eq_some_iff b 0 2 1 _).mpr ⟨hz, rfl⟩
    rw [hpl, show killer.mask 0 2 1 = 2 ^ 15 by decide]
    have hfree : cget (encode b) 0 2 = ' ' := by
      show cellB b 6 = ' '
      simp [cellB, h9, h0]
    unfold cplace
    rw [hfree, if_pos rfl]
    show some
      [[cellB b 8, cellB b 7, 'X'],
       [cellB b 5, cellB b 4, cellB b 3],
       [cellB b 2, cellB b 1, cellB b 0]] = some (encode (b ||| 2 ^ 15))
    unfold encode
    rw [cellB_or_self_X b 15 6 (by norm_num),
      cellB_or_ne b 15 0 (by norm_num) (by norm_num),
      cellB_or_ne b 15 1 (by norm_num) (by norm_num),
      cellB_or_ne b 15 2 (by norm_num) (by norm_num),
      cellB_or_ne b 15 3 (by norm_num) (by norm_num),
      cellB_or_ne b 15 4 (by norm_num) (by norm_num),
      cellB_or_ne b 15 5 (by norm_num) (by norm_num),
      cellB_or_ne b 15 7 (by norm_num) (by norm_num),
      cellB_or_ne b 15 8 (by norm_num) (by norm_num)]
  · have hnz : ¬((killer.mask 0 2 1 ||| killer.mask 0 2 (-1)) &&& b = 0) := by
      rw [hko]
      exact and_ne_zero_of_right b 15 6 h0
    have hpl : killer.place b 0 2 1 = none := (killer.place_eq_none_iff b 0 2 1).mpr hnz
    rw [hpl]
    have hocc : cget (encode b) 0 2 = 'O' := by
      show cellB b 6 = 'O'
      simp [cellB, h9, h0]
    unfold cplace
    rw [hocc, if_neg (by decide)]
    rfl
  · have hnz : ¬((killer.mask 0 2 1 ||| killer.mask 0 2 (-1)) &&& b = 0) := by
      rw [hko]
      exact and_ne_zero_of_left b 15 6 h9
    have hpl : killer.place b 0 2 1 = none := (killer.place_eq_none_iff b 0 2 1).mpr hnz
    rw [hpl]
    have hocc : cget (encode b) 0 2 = 'X' := by
      show cellB b 6 = 'X'
      simp [cellB, h9, h0]
    unfold cplace
    rw [hocc, if_neg (by decide)]
    rfl
  · have hnz : ¬((killer.mask 0 2 1 ||| killer.mask 0 2 (-1)) &&& b = 0) := by
      rw [hko]
      exact and_ne_zero_of_left b 15 6 h9
    have hpl : killer.place b 0 2 1 = none := (killer.place_eq_none_iff b 0 2 1).mpr hnz
    rw [hpl]
    have hocc : cget (encode b) 0 2 = 'X' := by
      show cellB b 6 = 'X'
      simp [cellB, h9, h0]
    unfold cplace
    rw [hocc, if_neg (by decide)]
    rfl

theorem cpO02 (b : Nat) :
    cplace (encode b) 0 2 'O' = (killer.place b 0 2 (-1)).map encode := by
  have hko : (killer.mask 0 2 (-1) ||| killer.mask 0 2 (-(-1))) = 2 ^ 6 ||| 2 ^ 15 := by decide
  cases h9 : b.testBit 15 <;> cases h0 : b.testBit 6
  · have hz : (killer.mask 0 2 (-1) ||| killer.mask 0 2 (-(-1))) &&& b = 0 := by
      rw [hko]
      exact (or2_and_eq_zero b 6 15).mpr ⟨h0, h9⟩
    have hpl : killer.place b 0 2 (-1) = some (b ||| killer.mask 0 2 (-1)) :=
      (killer.place_eq_some_iff b 0 2 (-1) _).mpr ⟨hz, rfl⟩
    rw [hpl, show killer.mask 0 2 (-1) = 2 ^ 6 by decide]
    have hfree : cget (encode b) 0 2 = ' ' := by
      show cellB b 6 = ' '
      simp [cellB, h9, h0]
    unfold cplace
    rw [hfree, if_pos rfl]
    show some
      [[cellB b 8, cellB b 7, 'O'],
       [cellB b 5, cellB b 4, cellB b 3],
       [cellB b 2, cellB b 1, cellB b 0]] = some (encode (b ||| 2 ^ 6))
    unfold encode
    rw [cellB_or_self_O b 6 6 rfl h9,
      cellB_or_ne b 6 0 (by norm_num) (by norm_num),
      cellB_or_ne b 6 1 (by norm_num) (by norm_num),
      cellB_or_ne b 6 2 (by norm_num) (by norm_num),
      cellB_or_ne b 6 3 (by norm_num) (by norm_num),
      cellB_or_ne b 6 4 (by norm_num) (by norm_num),
      cellB_or_ne b 6 5 (by norm_num) (by norm_num),
      cellB_or_ne b 6 7 (by norm_num) (by norm_num),
      cellB_or_ne b 6 8 (by norm_num) (by norm_num)]
  · have hnz : ¬((killer.mask 0 2 (-1) ||| killer.mask 0 2 (-(-1))) &&& b = 0) := by
      rw [hko]
      exact and_ne_zero_of_left b 6 15 h0
    have hpl : killer.place b 0 2 (-1) = none := (killer.place_eq_none_iff b 0 2 (-1)).mpr hnz
    rw [hpl]
    have hocc : cget (encode b) 0 2 = 'O' := by
      show cellB b 6 = 'O'
      simp [cellB, h9, h0]
    unfold cplace
    rw [hocc, if_neg (by decide)]
    rfl
  · have hnz : ¬((killer.mask 0 2 (-1) ||| killer.mask 0 2 (-(-1))) &&& b = 0) := by
      rw [hko]
      exact and_ne_zero_of_right b 6 15 h9
    have hpl : killer.place b 0 2 (-1) = none := (killer.place_eq_none_iff b 0 2 (-1)).mpr hnz
    rw [hpl]
    have hocc : cget (encode b) 0 2 = 'X' := by
      show cellB b 6 = 'X'
      simp [cellB, h9, h0]
    unfold cplace
    rw [hocc, if_neg (by decide)]
    rfl
  · have hnz : ¬((killer.mask 0 2 (-1) ||| killer.mask 0 2 (-(-1))) &&& b = 0) := by
      rw [hko]
      exact and_ne_zero_of_right b 6 15 h9
    have hpl : killer.place b 0 2 (-1) = none := (killer.place_eq_none_iff b 0 2 (-1)).mpr hnz
    rw [hpl]
    have hocc : cget (encode b) 0 2 = 'X' := by
      show cellB b 6 = 'X'
      simp [cellB, h9, h0]
    unfold cplace
    rw [hocc, if_neg (by decide)]
    rfl

theorem cpX10 (b : Nat) :
    cplace (encode b) 1 0 'X' = (killer.place b 1 0 1).map encode := by
  have hko : (killer.mask 1 0 1 ||| killer.mask 1 0 (-1)) = 2 ^ 14 ||| 2 ^ 5 := by decide
  cases h9 : b.testBit 14 <;> cases h0 : b.testBit 5
  · have hz : (killer.mask 1 0 1 ||| killer.mask 1 0 (-1)) &&& b = 0 := by
      rw [hko]
      exact (or2_and_eq_zero b 14 5).mpr ⟨h9, h0⟩
    have hpl : killer.place b 1 0 1 = some (b ||| killer.mask 1 0 1) :=
      (killer.place_eq_some_iff b 1 0 1 _).mpr ⟨hz, rfl⟩
    rw [hpl, show killer.mask 1 0 1 = 2 ^ 14 by decide]
    have hfree : cget (encode b) 1 0 = ' ' := by
      show cellB b 5 = ' '
      simp [cellB, h9, h0]
    unfold cplace
    rw [hfree, if_pos rfl]
    show some
      [[cellB b 8, cellB b 7, cellB b 6],
       ['X', cellB b 4, cellB b 3],
       [cellB b 2, cellB b 1, cellB b 0]] = some (encode (b ||| 2 ^ 14))
    unfold encode
    rw [cellB_or_self_X b 14 5 (by norm_num),
      cellB_or_ne b 14 0 (by norm_num) (by norm_num),
      cellB_or_ne b 14 1 (by norm_num) (by norm_num),
      cellB_or_ne b 14 2 (by norm_num) (by norm_num),
      cellB_or_ne b 14 3 (by norm_num) (by norm_num),
      cellB_or_ne b 14 4 (by norm_num) (by norm_num),
      cellB_or_ne b 14 6 (by norm_num) (by norm_num),
      cellB_or_ne b 14 7 (by norm_num) (by norm_num),
      cellB_or_ne b 14 8 (by norm_num) (by norm_num)]
  · have hnz : ¬((killer.mask 1 0 1 ||| killer.mask 1 0 (-1)) &&& b = 0) := by
      rw [hko]
      exact and_ne_zero_of_right b 14 5 h0
    have hpl : killer.place b 1 0 1 = none := (killer.place_eq_none_iff b 1 0 1).mpr hnz
    rw [hpl]
    have hocc : cget (encode b) 1 0 = 'O' := by
      show cellB b 5 = 'O'
      simp [cellB, h9, h0]
    unfold cplace
    rw [hocc, if_neg (by decide)]
    rfl
  · have hnz : ¬((killer.mask 1 0 1 ||| killer.mask 1 0 (-1)) &&& b = 0) := by
      rw [hko]
      exact and_ne_zero_of_left b 14 5 h9
    have hpl : killer.place b 1 0 1 = none := (killer.place_eq_none_iff b 1 0 1).mpr hnz
    rw [hpl]
    have hocc : cget (encode b) 1 0 = 'X' := by
      show cellB b 5 = 'X'
      simp [cellB, h9, h0]
    unfold cplace
    rw [hocc, if_neg (by decide)]
    rfl
  · have hnz : ¬((killer.mask 1 0 1 ||| killer.mask 1 0 (-1)) &&& b = 0) := by
      rw [hko]
      exact and_ne_zero_of_left b 14 5 h9
    have hpl : killer.place b 1 0 1 = none := (killer.place_eq_none_iff b 1 0 1).mpr hnz
    rw [hpl]
    have hocc : cget (encode b) 1 0 = 'X' := by
      show cellB b 5 = 'X'
      simp [cellB, h9, h0]
    unfold cplace
    rw [hocc, if_neg (by decide)]
    rfl

theorem cpO10 (b : Nat) :
    cplace (encode b) 1 0 'O' = (killer.place b 1 0 (-1)).map encode := by
  have hko : (killer.mask 1 0 (-1) ||| killer.mask 1 0 (-(-1))) = 2 ^ 5 ||| 2 ^ 14 := by decide
  cases h9 : b.testBit 14 <;> cases h0 : b.testBit 5
  · have hz : (killer.mask 1 0 (-1) ||| killer.mask 1 0 (-(-1))) &&& b = 0 := by
      rw [hko]
      exact (or2_and_eq_zero b 5 14).mpr ⟨h0, h9⟩
    have hpl : killer.place b 1 0 (-1) = some (b ||| killer.mask 1 0 (-1)) :=
      (killer.place_eq_some_iff b 1 0 (-1) _).mpr ⟨hz, rfl⟩
    rw [hpl, show killer.mask 1 0 (-1) = 2 ^ 5 by decide]
    have hfree : cget (encode b) 1 0 = ' ' := by
      show cellB b 5 = ' '
      simp [cellB, h9, h0]
    unfold cplace
    rw [hfree, if_pos rfl]
    show some
      [[cellB b 8, cellB b 7, cellB b 6],
       ['O', cellB b 4, cellB b 3],
       [cellB b 2, cellB b 1, cellB b 0]] = some (encode (b ||| 2 ^ 5))
    unfold encode
    rw [cellB_or_self_O b 5 5 rfl h9,
      cellB_or_ne b 5 0 (by norm_num) (by norm_num),
      cellB_or_ne b 5 1 (by norm_num) (by norm_num),
      cellB_or_ne b 5 2 (by norm_num) (by norm_num),
      cellB_or_ne b 5 3 (by norm_num) (by norm_num),
      cellB_or_ne b 5 4 (by norm_num) (by norm_num),
      cellB_or_ne b 5 6 (by norm_num) (by norm_num),
      cellB_or_ne b 5 7 (by norm_num) (by norm_num),
      cellB_or_ne b 5 8 (by norm_num) (by norm_num)]
  · have hnz : ¬((killer.mask 1 0 (-1) ||| killer.mask 1 0 (-(-1))) &&& b = 0) := by
      rw [hko]
      exact and_ne_zero_of_left b 5 14 h0
    have hpl : killer.place b 1 0 (-1) = none := (killer.place_eq_none_iff b 1 0 (-1)).mpr hnz
    rw [hpl]
    have hocc : cget (encode b) 1 0 = 'O' := by
      show cellB b 5 = 'O'
      simp [cellB, h9, h0]
    unfold cplace
    rw [hocc, if_neg (by decide)]
    rfl
  · have hnz : ¬((killer.mask 1 0 (-1) ||| killer.mask 1 0 (-(-1))) &&& b = 0) := by
      rw [hko]
      exact and_ne_zero_of_right b 5 14 h9
    have hpl : killer.place b 1 0 (-1) = none := (killer.place_eq_none_iff b 1 0 (-1)).mpr hnz
    rw [hpl]
    have hocc : cget (encode b) 1 0 = 'X' := by
      show cellB b 5 = 'X'
      simp [cellB, h9, h0]
    unfold cplace
    rw [hocc, if_neg (by decide)]
    rfl
  · have hnz : ¬((killer.mask 1 0 (-1) ||| killer.mask 1 0 (-(-1))) &&& b = 0) := by
      rw [hko]
      exact and_ne_zero_of_right b 5 14 h9
    have hpl : killer.place b 1 0 (-1) = none := (killer.place_eq_none_iff b 1 0 (-1)).mpr hnz
    rw [hpl]
    have hocc : cget (encode b) 1 0 = 'X' := by
      show cellB b 5 = 'X'
      simp [cellB, h9, h0]
    unfold cplace
    rw [hocc, if_neg (by decide)]
    rfl

theorem cpX11 (b : Nat) :
    cplace (encode b) 1 1 'X' = (killer.place b 1 1 1).map encode := by
  have hko : (killer.mask 1 1 1 ||| killer.mask 1 1 (-1)) = 2 ^ 13 ||| 2 ^ 4 := by decide
  cases h9 : b.testBit 13 <;> cases h0 : b.testBit 4
  · have hz : (killer.mask 1 1 1 ||| killer.mask 1 1 (-1)) &&& b = 0 := by
      rw [hko]
      exact (or2_and_eq_zero b 13 4).mpr ⟨h9, h0⟩
    have hpl : killer.place b 1 1 1 = some (b ||| killer.mask 1 1 1) :=
      (killer.place_eq_some_iff b 1 1 1 _).mpr ⟨hz, rfl⟩
    rw [hpl, show killer.mask 1 1 1 = 2 ^ 13 by decide]
    have hfree : cget (encode b) 1 1 = ' ' := by
      show cellB b 4 = ' '
      simp [cellB, h9, h0]
    unfold cplace
    rw [hfree, if_pos rfl]
    show some
      [[cellB b 8, cellB b 7, cellB b 6],
       [cellB b 5, 'X', cellB b 3],
       [cellB b 2, cellB b 1, cellB b 0]] = some (encode (b ||| 2 ^ 13))
    unfold encode
    rw [cellB_or_self_X b 13 4 (by norm_num),
      cellB_or_ne b 13 0 (by norm_num) (by norm_num),
      cellB_or_ne b 13 1 (by norm_num) (by norm_num),
      cellB_or_ne b 13 2 (by norm_num) (by norm_num),
      cellB_or_ne b 13 3 (by norm_num) (by norm_num),
      cellB_or_ne b 13 5 (by norm_num) (by norm_num),
      cellB_or_ne b 13 6 (by norm_num) (by norm_num),
      cellB_or_ne b 13 7 (by norm_num) (by norm_num),
      cellB_or_ne b 13 8 (by norm_num) (by norm_num)]
  · have hnz : ¬((killer.mask 1 1 1 ||| killer.mask 1 1 (-1)) &&& b = 0) := by
      rw [hko]
      exact and_ne_zero_of_right b 13 4 h0
    have hpl : killer.place b 1 1 1 = none := (killer.place_eq_none_iff b 1 1 1).mpr hnz
    rw [hpl]
    have hocc : cget (encode b) 1 1 = 'O' := by
      show cellB b 4 = 'O'
      simp [cellB, h9, h0]
    unfold cplace
    rw [hocc, if_neg (by decide)]
    rfl
  · have hnz : ¬((killer.mask 1 1 1 ||| killer.mask 1 1 (-1)) &&& b = 0) := by
      rw [hko]
      exact and_ne_zero_of_left b 13 4 h9
    have hpl : killer.place b 1 1 1 = none := (killer.place_eq_none_iff b 1 1 1).mpr hnz
    rw [hpl]
    have hocc : cget (encode b) 1 1 = 'X' := by
      show cellB b 4 = 'X'
      simp [cellB, h9, h0]
    unfold cplace
    rw [hocc, if_neg (by decide)]
    rfl
  · have hnz : ¬((killer.mask 1 1 1 ||| killer.mask 1 1 (-1)) &&& b = 0) := by
      rw [hko]
      exact and_ne_zero_of_left b 13 4 h9
    have hpl : killer.place b 1 1 1 = none := (killer.place_eq_none_iff b 1 1 1).mpr hnz
    rw [hpl]
    have hocc : cget (encode b) 1 1 = 'X' := by
      show cellB b 4 = 'X'
      simp [cellB, h9, h0]
    unfold cplace
    rw [hocc, if_neg (by decide)]
    rfl

theorem cpO11 (b : Nat) :
    cplace (encode b) 1 1 'O' = (killer.place b 1 1 (-1)).map encode := by
  have hko : (killer.mask 1 1 (-1) ||| killer.mask 1 1 (-(-1))) = 2 ^ 4 ||| 2 ^ 13 := by decide
  cases h9 : b.testBit 13 <;> cases h0 : b.testBit 4
  · have hz : (killer.mask 1 1 (-1) ||| killer.mask 1 1 (-(-1))) &&& b = 0 := by
      rw [hko]
      exact (or2_and_eq_zero b 4 13).mpr ⟨h0, h9⟩
    have hpl : killer.place b 1 1 (-1) = some (b ||| killer.mask 1 1 (-1)) :=
      (killer.place_eq_some_iff b 1 1 (-1) _).mpr ⟨hz, rfl⟩
    rw [hpl, show killer.mask 1 1 (-1) = 2 ^ 4 by decide]
    have hfree : cget (encode b) 1 1 = ' ' := by
      show cellB b 4 = ' '
      simp [cellB, h9, h0]
    unfold cplace
    rw [hfree, if_pos rfl]
    show some
      [[cellB b 8, cellB b 7, cellB b 6],
       [cellB b 5, 'O', cellB b 3],
       [cellB b 2, cellB b 1, cellB b 0]] = some (encode (b ||| 2 ^ 4))
    unfold encode
    rw [cellB_or_self_O b 4 4 rfl h9,
      cellB_or_ne b 4 0 (by norm_num) (by norm_num),
      cellB_or_ne b 4 1 (by norm_num) (by norm_num),
      cellB_or_ne b 4 2 (by norm_num) (by norm_num),
      cellB_or_ne b 4 3 (by norm_num) (by norm_num),
      cellB_or_ne b 4 5 (by norm_num) (by norm_num),
      cellB_or_ne b 4 6 (by norm_num) (by norm_num),
      cellB_or_ne b 4 7 (by norm_num) (by norm_num),
      cellB_or_ne b 4 8 (by norm_num) (by norm_num)]
  · have hnz : ¬((killer.mask 1 1 (-1) ||| killer.mask 1 1 (-(-1))) &&& b = 0) := by
      rw [hko]
      exact and_ne_zero_of_left b 4 13 h0
    have hpl : killer.place b 1 1 (-1) = none := (killer.place_eq_none_iff b 1 1 (-1)).mpr hnz
    rw [hpl]
    have hocc : cget (encode b) 1 1 = 'O' := by
      show cellB b 4 = 'O'
      simp [cellB, h9, h0]
    unfold cplace
    rw [hocc, if_neg (by decide)]
    rfl
  · have hnz : ¬((killer.mask 1 1 (-1) ||| killer.mask 1 1 (-(-1))) &&& b = 0) := by
      rw [hko]
      exact and_ne_zero_of_right b 4 13 h9
    have hpl : killer.place b 1 1 (-1) = none := (killer.place_eq_none_iff b 1 1 (-1)).mpr hnz
    rw [hpl]
    have hocc : cget (encode b) 1 1 = 'X' := by
      show cellB b 4 = 'X'
      simp [cellB, h9, h0]
    unfold cplace
    rw [hocc, if_neg (by decide)]
    rfl
  · have hnz : ¬((killer.mask 1 1 (-1) ||| killer.mask 1 1 (-(-1))) &&& b = 0) := by
      rw [hko]
      exact and_ne_zero_of_right b 4 13 h9
    have hpl : killer.place b 1 1 (-1) = none := (killer.place_eq_none_iff b 1 1 (-1)).mpr hnz
    rw [hpl]
    have hocc : cget (encode b) 1 1 = 'X' := by
      show cellB b 4 = 'X'
      simp [cellB, h9, h0]
    unfold cplace
    rw [hocc, if_neg (by decide)]
    rfl

theorem cpX12 (b : Nat) :
    cplace (encode b) 1 2 'X' = (killer.place b 1 2 1).map encode := by
  have hko : (killer.mask 1 2 1 ||| killer.mask 1 2 (-1)) = 2 ^ 12 ||| 2 ^ 3 := by decide
  cases h9 : b.testBit 12 <;> cases h0 : b.testBit 3
  · have hz : (killer.mask 1 2 1 ||| killer.mask 1 2 (-1)) &&& b = 0 := by
      rw [hko]
      exact (or2_and_eq_zero b 12 3).mpr ⟨h9, h0⟩
    have hpl : killer.place b 1 2 1 = some (b ||| killer.mask 1 2 1) :=
      (killer.place_eq_some_iff b 1 2 1 _).mpr ⟨hz, rfl⟩
    rw [hpl, show killer.mask 1 2 1 = 2 ^ 12 by decide]
    have hfree : cget (encode b) 1 2 = ' ' := by
      show cellB b 3 = ' '
      simp [cellB, h9, h0]
    unfold cplace
    rw [hfree, if_pos rfl]
    show some
      [[cellB b 8, cellB b 7, cellB b 6],
       [cellB b 5, cellB b 4, 'X'],
       [cellB b 2, cellB b 1, cellB b 0]] = some (encode (b ||| 2 ^ 12))
    unfold encode
    rw [cellB_or_self_X b 12 3 (by norm_num),
      cellB_or_ne b 12 0 (by norm_num) (by norm_num),
      cellB_or_ne b 12 1 (by norm_num) (by norm_num),
      cellB_or_ne b 12 2 (by norm_num) (by norm_num),
      cellB_or_ne b 12 4 (by norm_num) (by norm_num),
      cellB_or_ne b 12 5 (by norm_num) (by norm_num),
      cellB_or_ne b 12 6 (by norm_num) (by norm_num),
      cellB_or_ne b 12 7 (by norm_num) (by norm_num),
      cellB_or_ne b 12 8 (by norm_num) (by norm_num)]
  · have hnz : ¬((killer.mask 1 2 1 ||| killer.mask 1 2 (-1)) &&& b = 0) := by
      rw [hko]
      exact and_ne_zero_of_right b 12 3 h0
    have hpl : killer.place b 1 2 1 = none := (killer.place_eq_none_iff b 1 2 1).mpr hnz
    rw [hpl]
    have hocc : cget (encode b) 1 2 = 'O' := by
      show cellB b 3 = 'O'
      simp [cellB, h9, h0]
    unfold cplace
    rw [hocc, if_neg (by decide)]
    rfl
  · have hnz : ¬((killer.mask 1 2 1 ||| killer.mask 1 2 (-1)) &&& b = 0) := by
      rw [hko]
      exact and_ne_zero_of_left b 12 3 h9
    have hpl : killer.place b 1 2 1 = none := (killer.place_eq_none_iff b 1 2 1).mpr hnz
    rw [hpl]
    have hocc : cget (encode b) 1 2 = 'X' := by
      show cellB b 3 = 'X'
      simp [cellB, h9, h0]
    unfold cplace
    rw [hocc, if_neg (by decide)]
    rfl
  · have hnz : ¬((killer.mask 1 2 1 ||| killer.mask 1 2 (-1)) &&& b = 0) := by
      rw [hko]
      exact and_ne_zero_of_left b 12 3 h9
    have hpl : killer.place b 1 2 1 = none := (killer.place_eq_none_iff b 1 2 1).mpr hnz
    rw [hpl]
    have hocc : cget (encode b) 1 2 = 'X' := by
      show cellB b 3 = 'X'
      simp [cellB, h9, h0]
    unfold cplace
    rw [hocc, if_neg (by decide)]
    rfl

theorem cpO12 (b : Nat) :
    cplace (encode b) 1 2 'O' = (killer.place b 1 2 (-1)).map encode := by
  have hko : (killer.mask 1 2 (-1) ||| killer.mask 1 2 (-(-1))) = 2 ^ 3 ||| 2 ^ 12 := by decide
  cases h9 : b.testBit 12 <;> cases h0 : b.testBit 3
  · have hz : (killer.mask 1 2 (-1) ||| killer.mask 1 2 (-(-1))) &&& b = 0 := by
      rw [hko]
      exact (or2_and_eq_zero b 3 12).mpr ⟨h0, h9⟩
    have hpl : killer.place b 1 2 (-1) = some (b ||| killer.mask 1 2 (-1)) :=
      (killer.place_eq_some_iff b 1 2 (-1) _).mpr ⟨hz, rfl⟩
    rw [hpl, show killer.mask 1 2 (-1) = 2 ^ 3 by decide]
    have hfree : cget (encode b) 1 2 = ' ' := by
      show cellB b 3 = ' '
      simp [cellB, h9, h0]
    unfold cplace
    rw [hfree, if_pos rfl]
    show some
      [[cellB b 8, cellB b 7, cellB b 6],
       [cellB b 5, cellB b 4, 'O'],
       [cellB b 2, cellB b 1, cellB b 0]] = some (encode (b ||| 2 ^ 3))
    unfold encode
    rw [cellB_or_self_O b 3 3 rfl h9,
      cellB_or_ne b 3 0 (by norm_num) (by norm_num),
      cellB_or_ne b 3 1 (by norm_num) (by norm_num),
      cellB_or_ne b 3 2 (by norm_num) (by norm_num),
      cellB_or_ne b 3 4 (by norm_num) (by norm_num),
      cellB_or_ne b 3 5 (by norm_num) (by norm_num),
      cellB_or_ne b 3 6 (by norm_num) (by norm_num),
      cellB_or_ne b 3 7 (by norm_num) (by norm_num),
      cellB_or_ne b 3 8 (by norm_num) (by norm_num)]
  · have hnz : ¬((killer.mask 1 2 (-1) ||| killer.mask 1 2 (-(-1))) &&& b = 0) := by
      rw [hko]
      exact and_ne_zero_of_left b 3 12 h0
    have hpl : killer.place b 1 2 (-1) = none := (killer.place_eq_none_iff b 1 2 (-1)).mpr hnz
    rw [hpl]
    have hocc : cget (encode b) 1 2 = 'O' := by
      show cellB b 3 = 'O'
      simp [cellB, h9, h0]
    unfold cplace
    rw [hocc, if_neg (by decide)]
    rfl
  · have hnz : ¬((killer.mask 1 2 (-1) ||| killer.mask 1 2 (-(-1))) &&& b = 0) := by
      rw [hko]
      exact and_ne_zero_of_right b 3 12 h9
    have hpl : killer.place b 1 2 (-1) = none := (killer.place_eq_none_iff b 1 2 (-1)).mpr hnz
    rw [hpl]
    have hocc : cget (encode b) 1 2 = 'X' := by
      show cellB b 3 = 'X'
      simp [cellB, h9, h0]
    unfold cplace
    rw [hocc, if_neg (by decide)]
    rfl
  · have hnz : ¬((killer.mask 1 2 (-1) ||| killer.mask 1 2 (-(-1))) &&& b = 0) := by
      rw [hko]
      exact and_ne_zero_of_right b 3 12 h9
    have hpl : killer.place b 1 2 (-1) = none := (killer.place_eq_none_iff b 1 2 (-1)).mpr hnz
    rw [hpl]
    have hocc : cget (encode b) 1 2 = 'X' := by
      show cellB b 3 = 'X'
      simp [cellB, h9, h0]
    unfold cplace
    rw [hocc, if_neg (by decide)]
    rfl

theorem cpX20 (b : Nat) :
    cplace (encode b) 2 0 'X' = (killer.place b 2 0 1).map encode := by
  have hko : (killer.mask 2 0 1 ||| killer.mask 2 0 (-1)) = 2 ^ 11 ||| 2 ^ 2 := by decide
  cases h9 : b.testBit 11 <;> cases h0 : b.testBit 2
  · have hz : (killer.mask 2 0 1 ||| killer.mask 2 0 (-1)) &&& b = 0 := by
      rw [hko]
      exact (or2_and_eq_zero b 11 2).mpr ⟨h9, h0⟩
    have hpl : killer.place b 2 0 1 = some (b ||| killer.mask 2 0 1) :=
      (killer.place_eq_some_iff b 2 0 1 _).mpr ⟨hz, rfl⟩
    rw [hpl, show killer.mask 2 0 1 = 2 ^ 11 by decide]
    have hfree : cget (encode b) 2 0 = ' ' := by
      show cellB b 2 = ' '
      simp [cellB, h9, h0]
    unfold cplace
    rw [hfree, if_pos rfl]
    show some
      [[cellB b 8, cellB b 7, cellB b 6],
       [cellB b 5, cellB b 4, cellB b 3],
       ['X', cellB b 1, cellB b 0]] = some (encode (b ||| 2 ^ 11))
    unfold encode
    rw [cellB_or_self_X b 11 2 (by norm_num),
      cellB_or_ne b 11 0 (by norm_num) (by norm_num),
      cellB_or_ne b 11 1 (by norm_num) (by norm_num),
      cellB_or_ne b 11 3 (by norm_num) (by norm_num),
      cellB_or_ne b 11 4 (by norm_num) (by norm_num),
      cellB_or_ne b 11 5 (by norm_num) (by norm_num),
      cellB_or_ne b 11 6 (by norm_num) (by norm_num),
      cellB_or_ne b 11 7 (by norm_num) (by norm_num),
      cellB_or_ne b 11 8 (by norm_num) (by norm_num)]
  · have hnz : ¬((killer.mask 2 0 1 ||| killer.mask 2 0 (-1)) &&& b = 0) := by
      rw [hko]
      exact and_ne_zero_of_right b 11 2 h0
    have hpl : killer.place b 2 0 1 = none := (killer.place_eq_none_iff b 2 0 1).mpr hnz
    rw [hpl]
    have hocc : cget (encode b) 2 0 = 'O' := by
      show cellB b 2 = 'O'
      simp [cellB, h9, h0]
    unfold cplace
    rw [hocc, if_neg (by decide)]
    rfl
  · have hnz : ¬((killer.mask 2 0 1 ||| killer.mask 2 0 (-1)) &&& b = 0) := by
      rw [hko]
      exact and_ne_zero_of_left b 11 2 h9
    have hpl : killer.place b 2 0 1 = none := (killer.place_eq_none_iff b 2 0 1).mpr hnz
    rw [hpl]
    have hocc : cget (encode b) 2 0 = 'X' := by
      show cellB b 2 = 'X'
      simp [cellB, h9, h0]
    unfold cplace
    rw [hocc, if_neg (by decide)]
    rfl
  · have hnz : ¬((killer.mask 2 0 1 ||| killer.mask 2 0 (-1)) &&& b = 0) := by
      rw [hko]
      exact and_ne_zero_of_left b 11 2 h9
    have hpl : killer.place b 2 0 1 = none := (killer.place_eq_none_iff b 2 0 1).mpr hnz
    rw [hpl]
    have hocc : cget (encode b) 2 0 = 'X' := by
      show cellB b 2 = 'X'
      simp [cellB, h9, h0]
    unfold cplace
    rw [hocc, if_neg (by decide)]
    rfl

theorem cpO20 (b : Nat) :
    cplace (encode b) 2 0 'O' = (killer.place b 2 0 (-1)).map encode := by
  have hko : (killer.mask 2 0 (-1) ||| killer.mask 2 0 (-(-1))) = 2 ^ 2 ||| 2 ^ 11 := by decide
  cases h9 : b.testBit 11 <;> cases h0 : b.testBit 2
  · have hz : (killer.mask 2 0 (-1) ||| killer.mask 2 0 (-(-1))) &&& b = 0 := by
      rw [hko]
      exact (or2_and_eq_zero b 2 11).mpr ⟨h0, h9⟩
    have hpl : killer.place b 2 0 (-1) = some (b ||| killer.mask 2 0 (-1)) :=
      (killer.place_eq_some_iff b 2 0 (-1) _).mpr ⟨hz, rfl⟩
    rw [hpl, show killer.mask 2 0 (-1) = 2 ^ 2 by decide]
    have hfree : cget (encode b) 2 0 = ' ' := by
      show cellB b 2 = ' '
      simp [cellB, h9, h0]
    unfold cplace
    rw [hfree, if_pos rfl]
    show some
      [[cellB b 8, cellB b 7, cellB b 6],
       [cellB b 5, cellB b 4, cellB b 3],
       ['O', cellB b 1, cellB b 0]] = some (encode (b ||| 2 ^ 2))
    unfold encode
    rw [cellB_or_self_O b 2 2 rfl h9,
      cellB_or_ne b 2 0 (by norm_num) (by norm_num),
      cellB_or_ne b 2 1 (by norm_num) (by norm_num),
      cellB_or_ne b 2 3 (by norm_num) (by norm_num),
      cellB_or_ne b 2 4 (by norm_num) (by norm_num),
      cellB_or_ne b 2 5 (by norm_num) (by norm_num),
      cellB_or_ne b 2 6 (by norm_num) (by norm_num),
      cellB_or_ne b 2 7 (by norm_num) (by norm_num),
      cellB_or_ne b 2 8 (by norm_num) (by norm_num)]
  · have hnz : ¬((killer.mask 2 0 (-1) ||| killer.mask 2 0 (-(-1))) &&& b = 0) := by
      rw [hko]
      exact and_ne_zero_of_left b 2 11 h0
    have hpl : killer.place b 2 0 (-1) = none := (killer.place_eq_none_iff b 2 0 (-1)).mpr hnz
    rw [hpl]
    have hocc : cget (encode b) 2 0 = 'O' := by
      show cellB b 2 = 'O'
      simp [cellB, h9, h0]
    unfold cplace
    rw [hocc, if_neg (by decide)]
    rfl
  · have hnz : ¬((killer.mask 2 0 (-1) ||| killer.mask 2 0 (-(-1))) &&& b = 0) := by
      rw [hko]
      exact and_ne_zero_of_right b 2 11 h9
    have hpl : killer.place b 2 0 (-1) = none := (killer.place_eq_none_iff b 2 0 (-1)).mpr hnz
    rw [hpl]
    have hocc : cget (encode b) 2 0 = 'X' := by
      show cellB b 2 = 'X'
      simp [cellB, h9, h0]
    unfold cplace
    rw [hocc, if_neg (by decide)]
    rfl
  · have hnz : ¬((killer.mask 2 0 (-1) ||| killer.mask 2 0 (-(-1))) &&& b = 0) := by
      rw [hko]
      exact and_ne_zero_of_right b 2 11 h9
    have hpl : killer.place b 2 0 (-1) = none := (killer.place_eq_none_iff b 2 0 (-1)).mpr hnz
    rw [hpl]
    have hocc : cget (encode b) 2 0 = 'X' := by
      show cellB b 2 = 'X'
      simp [cellB, h9, h0]
    unfold cplace
    rw [hocc, if_neg (by decide)]
    rfl

theorem cpX21 (b : Nat) :
    cplace (encode b) 2 1 'X' = (killer.place b 2 1 1).map encode := by
  have hko : (killer.mask 2 1 1 ||| killer.mask 2 1 (-1)) = 2 ^ 10 ||| 2 ^ 1 := by decide
  cases h9 : b.testBit 10 <;> cases h0 : b.testBit 1
  · have hz : (killer.mask 2 1 1 ||| killer.mask 2 1 (-1)) &&& b = 0 := by
      rw [hko]
      exact (or2_and_eq_zero b 10 1).mpr ⟨h9, h0⟩
    have hpl : killer.place b 2 1 1 = some (b ||| killer.mask 2 1 1) :=
      (killer.place_eq_some_iff b 2 1 1 _).mpr ⟨hz, rfl⟩
    rw [hpl, show killer.mask 2 1 1 = 2 ^ 10 by decide]
    have hfree : cget (encode b) 2 1 = ' ' := by
      show cellB b 1 = ' '
      simp [cellB, h9, h0]
    unfold cplace
    rw [hfree, if_pos rfl]
    show some
      [[cellB b 8, cellB b 7, cellB b 6],
       [cellB b 5, cellB b 4, cellB b 3],
       [cellB b 2, 'X', cellB b 0]] = some (encode (b ||| 2 ^ 10))
    unfold encode
    rw [cellB_or_self_X b 10 1 (by norm_num),
      cellB_or_ne b 10 0 (by norm_num) (by norm_num),
      cellB_or_ne b 10 2 (by norm_num) (by norm_num),
      cellB_or_ne b 10 3 (by norm_num) (by norm_num),
      cellB_or_ne b 10 4 (by norm_num) (by norm_num),
      cellB_or_ne b 10 5 (by norm_num) (by norm_num),
      cellB_or_ne b 10 6 (by norm_num) (by norm_num),
      cellB_or_ne b 10 7 (by norm_num) (by norm_num),
      cellB_or_ne b 10 8 (by norm_num) (by norm_num)]
  · have hnz : ¬((killer.mask 2 1 1 ||| killer.mask 2 1 (-1)) &&& b = 0) := by
      rw [hko]
      exact and_ne_zero_of_right b 10 1 h0
    have hpl : killer.place b 2 1 1 = none := (killer.place_eq_none_iff b 2 1 1).mpr hnz
    rw [hpl]
    have hocc : cget (encode b) 2 1 = 'O' := by
      show cellB b 1 = 'O'
      simp [cellB, h9, h0]
    unfold cplace
    rw [hocc, if_neg (by decide)]
    rfl
  · have hnz : ¬((killer.mask 2 1 1 ||| killer.mask 2 1 (-1)) &&& b = 0) := by
      rw [hko]
      exact and_ne_zero_of_left b 10 1 h9
    have hpl : killer.place b 2 1 1 = none := (killer.place_eq_none_iff b 2 1 1).mpr hnz
    rw [hpl]
    have hocc : cget (encode b) 2 1 = 'X' := by
      show cellB b 1 = 'X'
      simp [cellB, h9, h0]
    unfold cplace
    rw [hocc, if_neg (by decide)]
    rfl
  · have hnz : ¬((killer.mask 2 1 1 ||| killer.mask 2 1 (-1)) &&& b = 0) := by
      rw [hko]
      exact and_ne_zero_of_left b 10 1 h9
    have hpl : killer.place b 2 1 1 = none := (killer.place_eq_none_iff b 2 1 1).mpr hnz
    rw [hpl]
    have hocc : cget (encode b) 2 1 = 'X' := by
      show cellB b 1 = 'X'
      simp [cellB, h9, h0]
    unfold cplace
    rw [hocc, if_neg (by decide)]
    rfl

theorem cpO21 (b : Nat) :
    cplace (encode b) 2 1 'O' = (killer.place b 2 1 (-1)).map encode := by
  have hko : (killer.mask 2 1 (-1) ||| killer.mask 2 1 (-(-1))) = 2 ^ 1 ||| 2 ^ 10 := by decide
  cases h9 : b.testBit 10 <;> cases h0 : b.testBit 1
  · have hz : (killer.mask 2 1 (-1) ||| killer.mask 2 1 (-(-1))) &&& b = 0 := by
      rw [hko]
      exact (or2_and_eq_zero b 1 10).mpr ⟨h0, h9⟩
    have hpl : killer.place b 2 1 (-1) = some (b ||| killer.mask 2 1 (-1)) :=
      (killer.place_eq_some_iff b 2 1 (-1) _).mpr ⟨hz, rfl⟩
    rw [hpl, show killer.mask 2 1 (-1) = 2 ^ 1 by decide]
    have hfree : cget (encode b) 2 1 = ' ' := by
      show cellB b 1 = ' '
      simp [cellB, h9, h0]
    unfold cplace
    rw [hfree, if_pos rfl]
    show some
      [[cellB b 8, cellB b 7, cellB b 6],
       [cellB b 5, cellB b 4, cellB b 3],
       [cellB b 2, 'O', cellB b 0]] = some (encode (b ||| 2 ^ 1))
    unfold encode
    rw [cellB_or_self_O b 1 1 rfl h9,
      cellB_or_ne b 1 0 (by norm_num) (by norm_num),
      cellB_or_ne b 1 2 (by norm_num) (by norm_num),
      cellB_or_ne b 1 3 (by norm_num) (by norm_num),
      cellB_or_ne b 1 4 (by norm_num) (by norm_num),
      cellB_or_ne b 1 5 (by norm_num) (by norm_num),
      cellB_or_ne b 1 6 (by norm_num) (by norm_num),
      cellB_or_ne b 1 7 (by norm_num) (by norm_num),
      cellB_or_ne b 1 8 (by norm_num) (by norm_num)]
  · have hnz : ¬((killer.mask 2 1 (-1) ||| killer.mask 2 1 (-(-1))) &&& b = 0) := by
      rw [hko]
      exact and_ne_zero_of_left b 1 10 h0
    have hpl : killer.place b 2 1 (-1) = none := (killer.place_eq_none_iff b 2 1 (-1)).mpr hnz
    rw [hpl]
    have hocc : cget (encode b) 2 1 = 'O' := by
      show cellB b 1 = 'O'
      simp [cellB, h9, h0]
    unfold cplace
    rw [hocc, if_neg (by decide)]
    rfl
  · have hnz : ¬((killer.mask 2 1 (-1) ||| killer.mask 2 1 (-(-1))) &&& b = 0) := by
      rw [hko]
      exact and_ne_zero_of_right b 1 10 h9
    have hpl : killer.place b 2 1 (-1) = none := (killer.place_eq_none_iff b 2 1 (-1)).mpr hnz
    rw [hpl]
    have hocc : cget (encode b) 2 1 = 'X' := by
      show cellB b 1 = 'X'
      simp [cellB, h9, h0]
    unfold cplace
    rw [hocc, if_neg (by decide)]
    rfl
  · have hnz : ¬((killer.mask 2 1 (-1) ||| killer.mask 2 1 (-(-1))) &&& b = 0) := by
      rw [hko]
      exact and_ne_zero_of_right b 1 10 h9
    have hpl : killer.place b 2 1 (-1) = none := (killer.place_eq_none_iff b 2 1 (-1)).mpr hnz
    rw [hpl]
    have hocc : cget (encode b) 2 1 = 'X' := by
      show cellB b 1 = 'X'
      simp [cellB, h9, h0]
    unfold cplace
    rw [hocc, if_neg (by decide)]
    rfl

theorem cpX22 (b : Nat) :
    cplace (encode b) 2 2 'X' = (killer.place b 2 2 1).map encode := by
  have hko : (killer.mask 2 2 1 ||| killer.mask 2 2 (-1)) = 2 ^ 9 ||| 2 ^ 0 := by decide
  cases h9 : b.testBit 9 <;> cases h0 : b.testBit 0
  · have hz : (killer.mask 2 2 1 ||| killer.mask 2 2 (-1)) &&& b = 0 := by
      rw [hko]
      exact (or2_and_eq_zero b 9 0).mpr ⟨h9, h0⟩
    have hpl : killer.place b 2 2 1 = some (b ||| killer.mask 2 2 1) :=
      (killer.place_eq_some_iff b 2 2 1 _).mpr ⟨hz, rfl⟩
    rw [hpl, show killer.mask 2 2 1 = 2 ^ 9 by decide]
    have hfree : cget (encode b) 2 2 = ' ' := by
      show cellB b 0 = ' '
      simp [cellB, h9, h0]
    unfold cplace
    rw [hfree, if_pos rfl]
    show some
      [[cellB b 8, cellB b 7, cellB b 6],
       [cellB b 5, cellB b 4, cellB b 3],
       [cellB b 2, cellB b 1, 'X']] = some (encode (b ||| 2 ^ 9))
    unfold encode
    rw [cellB_or_self_X b 9 0 (by norm_num),
      cellB_or_ne b 9 1 (by norm_num) (by norm_num),
      cellB_or_ne b 9 2 (by norm_num) (by norm_num),
      cellB_or_ne b 9 3 (by norm_num) (by norm_num),
      cellB_or_ne b 9 4 (by norm_num) (by norm_num),
      cellB_or_ne b 9 5 (by norm_num) (by norm_num),
      cellB_or_ne b 9 6 (by norm_num) (by norm_num),
      cellB_or_ne b 9 7 (by norm_num) (by norm_num),
      cellB_or_ne b 9 8 (by norm_num) (by norm_num)]
  · have hnz : ¬((killer.mask 2 2 1 ||| killer.mask 2 2 (-1)) &&& b = 0) := by
      rw [hko]
      exact and_ne_zero_of_right b 9 0 h0
    have hpl : killer.place b 2 2 1 = none := (killer.place_eq_none_iff b 2 2 1).mpr hnz
    rw [hpl]
    have hocc : cget (encode b) 2 2 = 'O' := by
      show cellB b 0 = 'O'
      simp [cellB, h9, h0]
    unfold cplace
    rw [hocc, if_neg (by decide)]
    rfl
  · have hnz : ¬((killer.mask 2 2 1 ||| killer.mask 2 2 (-1)) &&& b = 0) := by
      rw [hko]
      exact and_ne_zero_of_left b 9 0 h9
    have hpl : killer.place b 2 2 1 = none := (killer.place_eq_none_iff b 2 2 1).mpr hnz
    rw [hpl]
    have hocc : cget (encode b) 2 2 = 'X' := by
      show cellB b 0 = 'X'
      simp [cellB, h9, h0]
    unfold cplace
    rw [hocc, if_neg (by decide)]
    rfl
  · have hnz : ¬((killer.mask 2 2 1 ||| killer.mask 2 2 (-1)) &&& b = 0) := by
      rw [hko]
      exact and_ne_zero_of_left b 9 0 h9
    have hpl : killer.place b 2 2 1 = none := (killer.place_eq_none_iff b 2 2 1).mpr hnz
    rw [hpl]
    have hocc : cget (encode b) 2 2 = 'X' := by
      show cellB b 0 = 'X'
      simp [cellB, h9, h0]
    unfold cplace
    rw [hocc, if_neg (by decide)]
    rfl

theorem cpO22 (b : Nat) :
    cplace (encode b) 2 2 'O' = (killer.place b 2 2 (-1)).map encode := by
  have hko : (killer.mask 2 2 (-1) ||| killer.mask 2 2 (-(-1))) = 2 ^ 0 ||| 2 ^ 9 := by decide
  cases h9 : b.testBit 9 <;> cases h0 : b.testBit 0
  · have hz : (killer.mask 2 2 (-1) ||| killer.mask 2 2 (-(-1))) &&& b = 0 := by
      rw [hko]
      exact (or2_and_eq_zero b 0 9).mpr ⟨h0, h9⟩
    have hpl : killer.place b 2 2 (-1) = some (b ||| killer.mask 2 2 (-1)) :=
      (killer.place_eq_some_iff b 2 2 (-1) _).mpr ⟨hz, rfl⟩
    rw [hpl, show killer.mask 2 2 (-1) = 2 ^ 0 by decide]
    have hfree : cget (encode b) 2 2 = ' ' := by
      show cellB b 0 = ' '
      simp [cellB, h9, h0]
    unfold cplace
    rw [hfree, if_pos rfl]
    show some
      [[cellB b 8, cellB b 7, cellB b 6],
       [cellB b 5, cellB b 4, cellB b 3],
       [cellB b 2, cellB b 1, 'O']] = some (encode (b ||| 2 ^ 0))
    unfold encode
    rw [cellB_or_self_O b 0 0 rfl h9,
      cellB_or_ne b 0 1 (by norm_num) (by norm_num),
      cellB_or_ne b 0 2 (by norm_num) (by norm_num),
      cellB_or_ne b 0 3 (by norm_num) (by norm_num),
      cellB_or_ne b 0 4 (by norm_num) (by norm_num),
      cellB_or_ne b 0 5 (by norm_num) (by norm_num),
      cellB_or_ne b 0 6 (by norm_num) (by norm_num),
      cellB_or_ne b 0 7 (by norm_num) (by norm_num),
      cellB_or_ne b 0 8 (by norm_num) (by norm_num)]
  · have hnz : ¬((killer.mask 2 2 (-1) ||| killer.mask 2 2 (-(-1))) &&& b = 0) := by
      rw [hko]
      exact and_ne_zero_of_left b 0 9 h0
    have hpl : killer.place b 2 2 (-1) = none := (killer.place_eq_none_iff b 2 2 (-1)).mpr hnz
    rw [hpl]
    have hocc : cget (encode b) 2 2 = 'O' := by
      show cellB b 0 = 'O'
      simp [cellB, h9, h0]
    unfold cplace
    rw [hocc, if_neg (by decide)]
    rfl
  · have hnz : ¬((killer.mask 2 2 (-1) ||| killer.mask 2 2 (-(-1))) &&& b = 0) := by
      rw [hko]
      exact and_ne_zero_of_right b 0 9 h9
    have hpl : killer.place b 2 2 (-1) = none := (killer.place_eq_none_iff b 2 2 (-1)).mpr hnz
    rw [hpl]
    have hocc : cget (encode b) 2 2 = 'X' := by
      show cellB b 0 = 'X'
      simp [cellB, h9, h0]
    unfold cplace
    rw [hocc, if_neg (by decide)]
    rfl
  · have hnz : ¬((killer.mask 2 2 (-1) ||| killer.mask 2 2 (-(-1))) &&& b = 0) := by
      rw [hko]
      exact and_ne_zero_of_right b 0 9 h9
    have hpl : killer.place b 2 2 (-1) = none := (killer.place_eq_none_iff b 2 2 (-1)).mpr hnz
    rw [hpl]
    have hocc : cget (encode b) 2 2 = 'X' := by
      show cellB b 0 = 'X'
      simp [cellB, h9, h0]
    unfold cplace
    rw [hocc, if_neg (by decide)]
    rfl

/-! ### Children and loop agreement, and the engine correspondence -/

theorem children_encode_X (b : Nat) :
    POSITIONS.filterMap (fun rc => cplace (encode b) rc.1 rc.2 'X') =
      (POSITIONS.filterMap (fun rc => killer.place b rc.1 rc.2 1)).map encode := by
  rw [List.map_filterMap]
  apply List.filterMap_congr
  intro rc hrc
  fin_cases hrc
  · exact cpX00 b
  · exact cpX01 b
  · exact cpX02 b
  · exact cpX10 b
  · exact cpX11 b
  · exact cpX12 b
  · exact cpX20 b
  · exact cpX21 b
  · exact cpX22 b

theorem children_encode_O (b : Nat) :
    POSITIONS.filterMap (fun rc => cplace (encode b) rc.1 rc.2 'O') =
      (POSITIONS.filterMap (fun rc => killer.place b rc.1 rc.2 (-1))).map encode := by
  rw [List.map_filterMap]
  apply List.filterMap_congr
  intro rc hrc
  fin_cases hrc
  · exact cpO00 b
  · exact cpO01 b
  · exact cpO02 b
  · exact cpO10 b
  · exact cpO11 b
  · exact cpO12 b
  · exact cpO20 b
  · exact cpO21 b
  · exact cpO22 b

theorem bMaxLoop_encode (beta : EInt) (f : CBoard → EInt → EInt → EInt)
    (g : Nat → EInt → EInt → EInt) (l : List Nat)
    (h : ∀ c ∈ l, ∀ a2 b2, f (encode c) a2 b2 = g c a2 b2) :
    ∀ v a, ab.maxLoopC f beta (l.map encode) v a = bMaxLoop g beta l v a := by
  induction l with
  | nil => intro v a; rfl
  | cons c rest ih =>
    intro v a
    rw [List.map_cons, ab.maxLoopC.eq_2, bMaxLoop.eq_2,
      h c (List.mem_cons_self c rest)]
    by_cases hb : ele beta (emax a (emax v (g c a beta))) = true
    · simp only [hb, if_true]
    · rw [Bool.not_eq_true] at hb
      simp only [hb, Bool.false_eq_true, if_false]
      exact ih (fun c2 hc2 a2 b2 => h c2 (List.mem_cons_of_mem c hc2) a2 b2) _ _

theorem bMinLoop_encode (alpha : EInt) (f : CBoard → EInt → EInt → EInt)
    (g : Nat → EInt → EInt → EInt) (l : List Nat)
    (h : ∀ c ∈ l, ∀ a2 b2, f (encode c) a2 b2 = g c a2 b2) :
    ∀ v bb, ab.minLoopC f alpha (l.map encode) v bb = bMinLoop g alpha l v bb := by
  induction l with
  | nil => intro v bb; rfl
  | cons c rest ih =>
    intro v bb
    rw [List.map_cons, ab.minLoopC.eq_2, bMinLoop.eq_2,
      h c (List.mem_cons_self c rest)]
    by_cases hb : ele (emin bb (emin v (g c alpha bb))) alpha = true
    · simp only [hb, if_true]
    · rw [Bool.not_eq_true] at hb
      simp only [hb, Bool.false_eq_true, if_false]
      exact ih (fun c2 hc2 a2 b2 => h c2 (List.mem_cons_of_mem c hc2) a2 b2) _ _

/-- One ply of the bit-level twin at a non-terminal maximizer node. -/
theorem babF_max_val (fuel : Nat) (b : Nat) (a b' : EInt) (he : bEval b = none) :
    babF (fuel + 1) b 1 a b' =
      bMaxLoop (fun c a2 bb => babF fuel c (-1) a2 bb) b'
        (POSITIONS.filterMap (fun rc => killer.place b rc.1 rc.2 1)) EInt.ninf a := by
  simp only [babF, he, eq_self_iff_true, if_true]

/-- One ply of the bit-level twin at a non-terminal minimizer node. -/
theorem babF_min_val (fuel : Nat) (b : Nat) (a b' : EInt) (he : bEval b = none) :
    babF (fuel + 1) b (-1) a b' =
      bMinLoop (fun c a2 bb => babF fuel c 1 a2 bb) a
        (POSITIONS.filterMap (fun rc => killer.place b rc.1 rc.2 (-1))) EInt.pinf b' := by
  have hne : ¬((-1 : Int) = 1) := by norm_num
  simp only [babF, he, hne, if_false]

/-- `alphabeta.py`'s search agrees with its bit-level twin through `encode`. -/
theorem babF_agree : ∀ (fuel : Nat) (b : Nat) (p : Int) (a b' : EInt),
    (p = 1 ∨ p = -1) → killer.wf b →
    ab.alphabetaF fuel (encode b) (if p = 1 then 'X' else 'O') a b' = babF fuel b p a b' := by
  intro fuel
  induction fuel with
  | zero =>
    intro b p a b' hp hw
    show EInt.fin ((csimple_evaluate (encode b)).getD 0) = EInt.fin ((bEval b).getD 0)
    rw [eval_encode b hw.2]
  | succ fuel ih =>
    intro b p a b' hp hw
    rcases hp with rfl | rfl
    · rw [if_pos rfl]
      rcases hE : bEval b with _ | v
      · have hE' : csimple_evaluate (encode b) = none := by rw [eval_encode b hw.2, hE]
        rw [ab_alphabetaF_max_val fuel (encode b) a b' hE', babF_max_val fuel b a b' hE,
          children_encode_X b]
        apply bMaxLoop_encode
        intro c hc a2 b2
        obtain ⟨hwc, _⟩ := killer.childBoards_facts hw (Or.inl rfl) c hc
        have hx := ih c (-1) a2 b2 (Or.inr rfl) hwc
        rw [show (if (-1 : Int) = 1 then 'X' else 'O') = 'O' by norm_num] at hx
        exact hx
      · have hE' : csimple_evaluate (encode b) = some v := by rw [eval_encode b hw.2, hE]
        rw [ab.alphabetaF.eq_2, babF.eq_2, hE', hE]
    · rw [show (if (-1 : Int) = 1 then 'X' else 'O') = 'O' by norm_num]
      rcases hE : bEval b with _ | v
      · have hE' : csimple_evaluate (encode b) = none := by rw [eval_encode b hw.2, hE]
        rw [ab_alphabetaF_min_val fuel (encode b) a b' hE', babF_min_val fuel b a b' hE,
          children_encode_O b]
        apply bMinLoop_encode
        intro c hc a2 b2
        obtain ⟨hwc, _⟩ := killer.childBoards_facts hw (Or.inr rfl) c hc
        have hx := ih c 1 a2 b2 (Or.inl rfl) hwc
        rw [show (if (1 : Int) = 1 then 'X' else 'O') = 'X' from rfl] at hx
        exact hx
      · have hE' : csimple_evaluate (encode b) = some v := by rw [eval_encode b hw.2, hE]
        rw [ab.alphabetaF.eq_2, babF.eq_2, hE', hE]

theorem bMaxLoop_contract
    (f : Nat → EInt → EInt → EInt)
    (val : Nat → Int) (a0 b0 : EInt) :
    ∀ cs : List Nat,
      (∀ c2 ∈ cs, ∀ a, elt a b0 = true →
        EContract (val c2) a b0 (f c2 a b0)) →
      ∀ v a, a = emax a0 v → elt a b0 = true →
        (ele (bMaxLoop f b0 cs v a) a0 = true →
          ele (foldEmax (fun c2 => EInt.fin (val c2)) v cs)
            (bMaxLoop f b0 cs v a) = true) ∧
        (ele b0 (bMaxLoop f b0 cs v a) = true →
          ele (bMaxLoop f b0 cs v a)
            (foldEmax (fun c2 => EInt.fin (val c2)) v cs) = true) ∧
        (elt a0 (bMaxLoop f b0 cs v a) = true →
          elt (bMaxLoop f b0 cs v a) b0 = true →
          (bMaxLoop f b0 cs v a) =
            foldEmax (fun c2 => EInt.fin (val c2)) v cs) := by
  intro cs
  induction cs with
  | nil =>
    intro _ v a _ _
    exact ⟨fun _ => ele_refl v, fun _ => ele_refl v, fun _ _ => rfl⟩
  | cons ch rest ih =>
    intro hf v a ha hab
    have hva : ele v a = true := ha ▸ ele_right_emax a0 v
    have ha0a : ele a0 a = true := ha ▸ ele_left_emax a0 v
    have Hc := hf ch (List.mem_cons_self _ _) a hab
    simp only [bMaxLoop, foldEmax_cons]
    obtain ⟨Hc1, Hc2, Hc3⟩ := Hc
    generalize hrc : f ch a b0 = rc at Hc1 Hc2 Hc3 ⊢
    by_cases hbreak : ele b0 (emax a (emax v rc)) = true
    · -- beta cut-off: the loop returns `emax v rc` at once
      simp only [hbreak, if_true]
      have hb0rc : ele b0 rc = true := by
        rcases ele_emax_elim hbreak with h | h
        · exact absurd_elt_ele hab h |>.elim
        · rcases ele_emax_elim h with h' | h'
          · exact absurd_elt_ele hab (ele_trans h' hva) |>.elim
          · exact h'
      refine ⟨?_, ?_, ?_⟩
      · intro hRa0
        have : ele b0 a = true :=
          ele_trans hb0rc (ele_trans (ele_trans (ele_right_emax v rc) hRa0) ha0a)
        exact absurd_elt_ele hab this |>.elim
      · intro _
        apply emax_le
        · exact ele_trans (ele_left_emax v (EInt.fin (val ch)))
            (ele_seed_foldEmax _ _ rest)
        · exact ele_trans (Hc2 hb0rc)
            (ele_trans (ele_right_emax v (EInt.fin (val ch)))
              (ele_seed_foldEmax _ _ rest))
      · intro _ hRb0
        exact absurd_elt_ele hRb0
          (ele_trans hb0rc (ele_right_emax v rc)) |>.elim
    · -- no cut-off: continue with the rest of the children
      simp only [eq_false_of_ne_true hbreak, Bool.false_eq_true, if_false]
      have hcont : elt (emax a (emax v rc)) b0 = true :=
        elt_true_of_ele_false (eq_false_of_ne_true hbreak)
      have halpha : emax a (emax v rc) = emax a0 (emax v rc) := by
        rw [ha]
        exact emax_assoc_self a0 v rc
      have IH := ih (fun c2 hc2 => hf c2 (List.mem_cons_of_mem _ hc2))
        (emax v rc) (emax a (emax v rc)) halpha hcont
      obtain ⟨IH1, IH2, IH3⟩ := IH
      have hrc_cases : ele rc a = true ∨ (elt a rc = true ∧ rc = EInt.fin (val ch)) := by
        by_cases h : ele rc a = true
        · exact Or.inl h
        · have h' : elt a rc = true := elt_true_of_ele_false (eq_false_of_ne_true h)
          have hrcb : elt rc b0 = true :=
            elt_of_ele_of_elt
              (ele_trans (ele_right_emax v rc) (ele_right_emax a (emax v rc))) hcont
          exact Or.inr ⟨h', Hc3 h' hrcb⟩
      have hvT : ele (emax v rc)
          (foldEmax (fun c2 => EInt.fin (val c2)) (emax v rc) rest) = true :=
        ele_seed_foldEmax _ _ rest
      rcases hrc_cases with hle | ⟨_, heq⟩
      · -- the child failed low (its soft value is at most alpha)
        refine ⟨?_, ?_, ?_⟩
        · -- fail low
          intro hRa0
          have hT'R := IH1 hRa0
          apply foldEmax_le
          · apply emax_le
            · exact ele_trans (ele_left_emax v rc) (ele_trans hvT hT'R)
            · exact ele_trans (Hc1 hle)
                (ele_trans (ele_right_emax v rc) (ele_trans hvT hT'R))
          · intro c2 hc2
            exact ele_trans (ele_mem_foldEmax (fun c2 => EInt.fin (val c2)) hc2) hT'R
        · -- fail high
          intro hb0R
          have hRT' := IH2 hb0R
          rcases foldEmax_cases (fun c2 => EInt.fin (val c2)) (emax v rc) rest
            with hT | ⟨c2, hc2, hT⟩
          · rw [hT] at hRT'
            rcases ele_emax_elim hRT' with h | h
            · exact ele_trans h
                (ele_trans (ele_left_emax v (EInt.fin (val ch)))
                  (ele_seed_foldEmax (fun c2 => EInt.fin (val c2)) _ rest))
            · exact absurd_elt_ele hab
                (ele_trans hb0R (ele_trans h hle)) |>.elim
          · rw [hT] at hRT'
            exact ele_trans hRT'
              (ele_mem_foldEmax (fun c2 => EInt.fin (val c2)) hc2)
        · -- exact inside the window
          intro ha0R hRb0
          have hR := IH3 ha0R hRb0
          apply ele_antisymm
          · -- the loop result is at most the fold over the true values
            rw [hR]
            rcases foldEmax_cases (fun c2 => EInt.fin (val c2)) (emax v rc) rest
              with hT | ⟨c2, hc2, hT⟩
            · rw [hT]
              apply emax_le
              · exact ele_trans (ele_left_emax v (EInt.fin (val ch)))
                  (ele_seed_foldEmax (fun c2 => EInt.fin (val c2)) _ rest)
              · have hrca0v : ele rc (emax a0 v) = true := by rw [← ha]; exact hle
                rcases ele_emax_elim hrca0v with h9 | h9
                · rcases emax_or v rc with hv1 | hv1
                  · have hrcv : ele rc v = true := ele_of_emax_eq_left hv1
                    exact ele_trans hrcv
                      (ele_trans (ele_left_emax v (EInt.fin (val ch)))
                        (ele_seed_foldEmax (fun c2 => EInt.fin (val c2)) _ rest))
                  · rw [hR, hT, hv1] at ha0R
                    exact absurd_elt_ele ha0R h9 |>.elim
                · exact ele_trans h9
                    (ele_trans (ele_left_emax v (EInt.fin (val ch)))
                      (ele_seed_foldEmax (fun c2 => EInt.fin (val c2)) _ rest))
            · rw [hT]
              exact ele_mem_foldEmax (fun c2 => EInt.fin (val c2)) hc2
          · -- the fold is at most the loop result
            apply foldEmax_le
            · apply emax_le
              · rw [hR]
                exact ele_trans (ele_left_emax v rc) hvT
              · rw [hR]
                exact ele_trans (Hc1 hle)
                  (ele_trans (ele_right_emax v rc) hvT)
            · intro c2 hc2
              rw [hR]
              exact ele_mem_foldEmax (fun c2 => EInt.fin (val c2)) hc2
      · -- the child's score is its exact value: seeds agree on both sides
        subst heq
        exact ⟨IH1, IH2, IH3⟩

theorem bMinLoop_contract
    (f : Nat → EInt → EInt → EInt)
    (val : Nat → Int) (a0 b0 : EInt) :
    ∀ cs : List Nat,
      (∀ c2 ∈ cs, ∀ bb, elt a0 bb = true →
        EContract (val c2) a0 bb (f c2 a0 bb)) →
      ∀ v bb, bb = emin b0 v → elt a0 bb = true →
        (ele (bMinLoop f a0 cs v bb) a0 = true →
          ele (foldEmin (fun c2 => EInt.fin (val c2)) v cs)
            (bMinLoop f a0 cs v bb) = true) ∧
        (ele b0 (bMinLoop f a0 cs v bb) = true →
          ele (bMinLoop f a0 cs v bb)
            (foldEmin (fun c2 => EInt.fin (val c2)) v cs) = true) ∧
        (elt a0 (bMinLoop f a0 cs v bb) = true →
          elt (bMinLoop f a0 cs v bb) b0 = true →
          (bMinLoop f a0 cs v bb) =
            foldEmin (fun c2 => EInt.fin (val c2)) v cs) := by
  intro cs
  induction cs with
  | nil =>
    intro _ v bb _ _
    exact ⟨fun _ => ele_refl v, fun _ => ele_refl v, fun _ _ => rfl⟩
  | cons ch rest ih =>
    intro hf v bb hb hab
    have hbv : ele bb v = true := hb ▸ ele_emin_right b0 v
    have hbb0 : ele bb b0 = true := hb ▸ ele_emin_left b0 v
    have Hc := hf ch (List.mem_cons_self _ _) bb hab
    simp only [bMinLoop, foldEmin_cons]
    obtain ⟨Hc1, Hc2, Hc3⟩ := Hc
    generalize hrc : f ch a0 bb = rc at Hc1 Hc2 Hc3 ⊢
    by_cases hbreak : ele (emin bb (emin v rc)) a0 = true
    · -- alpha cut-off: the loop returns `emin v rc` at once
      simp only [hbreak, if_true]
      have hrca0 : ele rc a0 = true := by
        rcases ele_emin_elim hbreak with h | h
        · exact absurd_elt_ele hab h |>.elim
        · rcases ele_emin_elim h with h' | h'
          · exact absurd_elt_ele hab (ele_trans hbv h') |>.elim
          · exact h'
      refine ⟨?_, ?_, ?_⟩
      · intro _
        apply le_emin
        · exact ele_trans (foldEmin_ele_seed _ _ rest)
            (ele_emin_left v (EInt.fin (val ch)))
        · exact ele_trans
            (ele_trans (foldEmin_ele_seed _ _ rest)
              (ele_emin_right v (EInt.fin (val ch))))
            (Hc1 hrca0)
      · intro hb0R
        have : ele bb a0 = true :=
          ele_trans (ele_trans hbb0 (ele_trans hb0R (ele_emin_right v rc))) hrca0
        exact absurd_elt_ele hab this |>.elim
      · intro ha0R _
        exact absurd_elt_ele ha0R
          (ele_trans (ele_emin_right v rc) hrca0) |>.elim
    · -- no cut-off: continue with the rest of the children
      simp only [eq_false_of_ne_true hbreak, Bool.false_eq_true, if_false]
      have hcont : elt a0 (emin bb (emin v rc)) = true :=
        elt_true_of_ele_false (eq_false_of_ne_true hbreak)
      have hbeta : emin bb (emin v rc) = emin b0 (emin v rc) := by
        rw [hb]
        exact emin_assoc_self b0 v rc
      have IH := ih (fun c2 hc2 => hf c2 (List.mem_cons_of_mem _ hc2))
        (emin v rc) (emin bb (emin v rc)) hbeta hcont
      obtain ⟨IH1, IH2, IH3⟩ := IH
      have hrc_cases : ele bb rc = true ∨ (elt rc bb = true ∧ rc = EInt.fin (val ch)) := by
        by_cases h : ele bb rc = true
        · exact Or.inl h
        · have h' : elt rc bb = true := elt_true_of_ele_false (eq_false_of_ne_true h)
          have ha0rc : elt a0 rc = true :=
            elt_of_elt_of_ele hcont
              (ele_trans (ele_emin_right bb (emin v rc)) (ele_emin_right v rc))
          exact Or.inr ⟨h', Hc3 ha0rc h'⟩
      have hvT : ele (foldEmin (fun c2 => EInt.fin (val c2)) (emin v rc) rest)
          (emin v rc) = true :=
        foldEmin_ele_seed _ _ rest
      rcases hrc_cases with hge | ⟨_, heq⟩
      · -- the child failed high (its soft value is at least beta)
        refine ⟨?_, ?_, ?_⟩
        · -- fail low
          intro hRa0
          have hT'R := IH1 hRa0
          rcases foldEmin_cases (fun c2 => EInt.fin (val c2)) (emin v rc) rest
            with hT | ⟨c2, hc2, hT⟩
          · rw [hT] at hT'R
            rcases ele_emin_elim hT'R with h | h
            · exact ele_trans
                (ele_trans (foldEmin_ele_seed (fun c2 => EInt.fin (val c2)) _ rest)
                  (ele_emin_left v (EInt.fin (val ch)))) h
            · exact absurd_elt_ele hab
                (ele_trans hge (ele_trans h hRa0)) |>.elim
          · rw [hT] at hT'R
            exact ele_trans
              (foldEmin_ele_mem (fun c2 => EInt.fin (val c2)) hc2) hT'R
        · -- fail high
          intro hb0R
          have hRT' := IH2 hb0R
          apply le_foldEmin
          · apply le_emin
            · exact ele_trans (ele_trans hRT' hvT) (ele_emin_left v rc)
            · exact ele_trans
                (ele_trans (ele_trans hRT' hvT) (ele_emin_right v rc))
                (Hc2 hge)
          · intro c2 hc2
            exact ele_trans hRT' (foldEmin_ele_mem (fun c2 => EInt.fin (val c2)) hc2)
        · -- exact inside the window
          intro ha0R hRb0
          have hR := IH3 ha0R hRb0
          apply ele_antisymm
          · -- the loop result is at most the fold over the true values
            apply le_foldEmin
            · apply le_emin
              · rw [hR]
                exact ele_trans hvT (ele_emin_left v rc)
              · rw [hR]
                exact ele_trans (ele_trans hvT (ele_emin_right v rc)) (Hc2 hge)
            · intro c2 hc2
              rw [hR]
              exact foldEmin_ele_mem (fun c2 => EInt.fin (val c2)) hc2
          · -- the fold is at most the loop result
            rw [hR]
            rcases foldEmin_cases (fun c2 => EInt.fin (val c2)) (emin v rc) rest
              with hT | ⟨c2, hc2, hT⟩
            · rw [hT]
              apply le_emin
              · exact ele_trans
                  (foldEmin_ele_seed (fun c2 => EInt.fin (val c2)) _ rest)
                  (ele_emin_left v (EInt.fin (val ch)))
              · have hrcb0v : ele (emin b0 v) rc = true := by rw [← hb]; exact hge
                rcases ele_emin_elim hrcb0v with h9 | h9
                · rcases emin_or v rc with hv1 | hv1
                  · have hvrc : ele v rc = true := ele_of_emin_eq_left hv1
                    exact ele_trans
                      (ele_trans (foldEmin_ele_seed (fun c2 => EInt.fin (val c2)) _ rest)
                        (ele_emin_left v (EInt.fin (val ch)))) hvrc
                  · rw [hR, hT, hv1] at hRb0
                    exact absurd_elt_ele hRb0 h9 |>.elim
                · exact ele_trans
                    (ele_trans (foldEmin_ele_seed (fun c2 => EInt.fin (val c2)) _ rest)
                      (ele_emin_left v (EInt.fin (val ch)))) h9
            · rw [hT]
              exact foldEmin_ele_mem (fun c2 => EInt.fin (val c2)) hc2
      · -- the child's score is its exact value: seeds agree on both sides
        subst heq
        exact ⟨IH1, IH2, IH3⟩

theorem mmB_terminal {fuel : Nat} {b : Nat} {v : Int} (p : Int)
    (h : bEval b = some v) : mmB fuel b p = v := by
  cases fuel with
  | zero => simp [mmB, h]
  | succ fuel => simp [mmB, h]

theorem mmB_nonterminal {fuel : Nat} {b : Nat} (p : Int)
    (h : bEval b = none) :
    mmB (fuel + 1) b p =
      if p = 1 then
        maxList ((POSITIONS.filterMap (fun rc => killer.place b rc.1 rc.2 p)).map
          (fun bb => mmB fuel bb (-p)))
      else
        minList ((POSITIONS.filterMap (fun rc => killer.place b rc.1 rc.2 p)).map
          (fun bb => mmB fuel bb (-p))) := by
  by_cases hp : p = 1 <;> simp [mmB, h, hp]

theorem bchildren_ne_nil {b : Nat} {p : Int} (hp : p = 1 ∨ p = -1)
    (heval : bEval b = none) :
    POSITIONS.filterMap (fun rc => killer.place b rc.1 rc.2 p) ≠ [] := by
  have hsp : ¬(bspaces b = 0) := by
    intro h0
    unfold bEval at heval
    rcases bwon_values b with hw | hw | hw <;> rw [hw] at heval <;> simp [h0] at heval
  unfold bspaces at hsp
  rw [List.countP_eq_zero] at hsp
  push_neg at hsp
  obtain ⟨rc, hrc, hfree⟩ := hsp
  have hfree' : b.testBit (3 * (2 - rc.1) + (2 - rc.2) + 9) = false ∧
      b.testBit (3 * (2 - rc.1) + (2 - rc.2)) = false := by
    cases h1 : b.testBit (3 * (2 - rc.1) + (2 - rc.2) + 9) <;>
      cases h2 : b.testBit (3 * (2 - rc.1) + (2 - rc.2)) <;>
        simp_all
  have hz : (killer.mask rc.1 rc.2 p ||| killer.mask rc.1 rc.2 (-p)) &&& b = 0 :=
    (killer.free_iff_testBit b rc.1 rc.2 p hp).mpr ⟨hfree'.2, hfree'.1⟩
  have hpl : killer.place b rc.1 rc.2 p = some (b ||| killer.mask rc.1 rc.2 p) :=
    (killer.place_eq_some_iff b rc.1 rc.2 p _).mpr ⟨hz, rfl⟩
  exact List.ne_nil_of_mem (List.mem_filterMap.mpr ⟨rc, hrc, hpl⟩)

/-- A terminal node of the bit-level twin returns the exact score. -/
theorem babF_term (fuel : Nat) (b : Nat) (p : Int) (a b' : EInt) (v : Int)
    (he : bEval b = some v) :
    babF (fuel + 1) b p a b' = EInt.fin v := by
  simp only [babF, he]

/-- The bit-level twin satisfies the fail-soft contract for `mmB`. -/
theorem babF_contract :
    ∀ fuel b p a bb, killer.wf b → (p = 1 ∨ p = -1) → 10 ≤ fuel + popcount b →
      elt a bb = true →
      EContract (mmB fuel b p) a bb (babF fuel b p a bb) := by
  intro fuel
  induction fuel with
  | zero =>
    intro b p a bb hw _ hf _
    have := killer.wf_popcount_le hw
    omega
  | succ fuel ih =>
    intro b p a bb hw hp hfc hab
    rcases heval : bEval b with _ | v
    · rcases hp with rfl | rfl
      · have hne_cb : POSITIONS.filterMap (fun rc => killer.place b rc.1 rc.2 1) ≠ [] :=
          bchildren_ne_nil (Or.inl rfl) heval
        have hcbf := killer.childBoards_facts hw (Or.inl (rfl : (1 : Int) = 1))
        have hmm1 : mmB (fuel + 1) b 1 =
            maxList ((POSITIONS.filterMap (fun rc => killer.place b rc.1 rc.2 1)).map
              (fun c => mmB fuel c (-1))) := by
          rw [mmB_nonterminal 1 heval, if_pos rfl]
        rw [babF_max_val fuel b a bb heval]
        generalize hgc : POSITIONS.filterMap (fun rc => killer.place b rc.1 rc.2 1) = children
        rw [hgc] at hne_cb hcbf hmm1
        have hf' : ∀ c2 ∈ children,
            ∀ a2, elt a2 bb = true →
            EContract (mmB fuel c2 (-1)) a2 bb (babF fuel c2 (-1) a2 bb) := by
          intro c2 hc2 a2 hab'
          obtain ⟨hwc, hpcc⟩ := hcbf c2 hc2
          exact ih c2 (-1) a2 bb hwc (Or.inr rfl) (by omega) hab'
        have hTfold : foldEmax (fun c2 => EInt.fin (mmB fuel c2 (-1))) EInt.ninf children =
            EInt.fin (mmB (fuel + 1) b 1) := by
          rw [foldEmax_ninf_maxList (fun c2 => mmB fuel c2 (-1)) _ hne_cb, hmm1]
        have HC := bMaxLoop_contract
          (fun c2 a2 b2 => babF fuel c2 (-1) a2 b2)
          (fun c2 => mmB fuel c2 (-1)) a bb children
          hf' EInt.ninf a (emax_ninf_right a).symm hab
        rw [hTfold] at HC
        exact HC
      · have hne1 : ¬((-1 : Int) = 1) := by decide
        have hne_cb : POSITIONS.filterMap (fun rc => killer.place b rc.1 rc.2 (-1)) ≠ [] :=
          bchildren_ne_nil (Or.inr rfl) heval
        have hcbf := killer.childBoards_facts hw (Or.inr (rfl : (-1 : Int) = -1))
        have hmm1 : mmB (fuel + 1) b (-1) =
            minList ((POSITIONS.filterMap (fun rc => killer.place b rc.1 rc.2 (-1))).map
              (fun c => mmB fuel c 1)) := by
          rw [mmB_nonterminal (-1) heval, if_neg hne1]
          simp only [neg_neg]
        rw [babF_min_val fuel b a bb heval]
        generalize hgc : POSITIONS.filterMap (fun rc => killer.place b rc.1 rc.2 (-1)) = children
        rw [hgc] at hne_cb hcbf hmm1
        have hf' : ∀ c2 ∈ children,
            ∀ b2, elt a b2 = true →
            EContract (mmB fuel c2 1) a b2 (babF fuel c2 1 a b2) := by
          intro c2 hc2 b2 hab'
          obtain ⟨hwc, hpcc⟩ := hcbf c2 hc2
          exact ih c2 1 a b2 hwc (Or.inl rfl) (by omega) hab'
        have hTfold : foldEmin (fun c2 => EInt.fin (mmB fuel c2 1)) EInt.pinf children =
            EInt.fin (mmB (fuel + 1) b (-1)) := by
          rw [foldEmin_pinf_minList (fun c2 => mmB fuel c2 1) _ hne_cb, hmm1]
        have HC := bMinLoop_contract
          (fun c2 a2 b2 => babF fuel c2 1 a2 b2)
          (fun c2 => mmB fuel c2 1) a bb children
          hf' EInt.pinf bb (emin_pinf_right bb).symm hab
        rw [hTfold] at HC
        exact HC
    · rw [babF_term fuel b p a bb v heval]
      rw [mmB_terminal p heval]
      exact ⟨fun _ => ele_refl _, fun _ => ele_refl _, fun _ _ => rfl⟩

/-! ### Line predicates and the two winner scans -/

theorem blineN_eq (b i j k : Nat) :
    blineN b i j k =
      if lineX b i j k = true then some 'X'
      else if lineO b i j k = true then some 'O' else none := rfl

theorem and3_iff (x i j k : Nat) (hij : i ≠ j) (hik : i ≠ k) (hjk : j ≠ k) :
    (x &&& (2 ^ i ||| 2 ^ j ||| 2 ^ k) = (2 ^ i ||| 2 ^ j ||| 2 ^ k)) ↔
      (x.testBit i && x.testBit j && x.testBit k) = true := by
  constructor
  · intro h
    have hi := congrArg (fun n => n.testBit i) h
    have hj := congrArg (fun n => n.testBit j) h
    have hk := congrArg (fun n => n.testBit k) h
    simp only [Nat.testBit_and, Nat.testBit_or, Nat.testBit_two_pow_self,
      Nat.testBit_two_pow_of_ne hij, Nat.testBit_two_pow_of_ne hik,
      Nat.testBit_two_pow_of_ne hjk, Nat.testBit_two_pow_of_ne (Ne.symm hij),
      Nat.testBit_two_pow_of_ne (Ne.symm hik), Nat.testBit_two_pow_of_ne (Ne.symm hjk),
      Bool.or_false, Bool.false_or, Bool.or_true, Bool.true_or, Bool.and_true] at hi hj hk
    simp [hi, hj, hk]
  · intro h
    obtain ⟨⟨h1, h2⟩, h3⟩ : (x.testBit i = true ∧ x.testBit j = true) ∧ x.testBit k = true := by
      cases hbi : x.testBit i <;> cases hbj : x.testBit j <;> cases hbk : x.testBit k <;>
        simp_all
    apply Nat.eq_of_testBit_eq
    intro t
    simp only [Nat.testBit_and, Nat.testBit_or]
    by_cases hti : t = i
    · subst hti
      simp [h1]
    · by_cases htj : t = j
      · subst htj
        simp [h2]
      · by_cases htk : t = k
        · subst htk
          simp [h3]
        · simp [Nat.testBit_two_pow_of_ne (fun h => hti h.symm),
            Nat.testBit_two_pow_of_ne (fun h => htj h.symm),
            Nat.testBit_two_pow_of_ne (fun h => htk h.symm)]

theorem maskO_1 (b : Nat) : (b &&& 7 = 7) ↔ lineO b 2 1 0 = true := by
  rw [show (7 : Nat) = 2 ^ 2 ||| 2 ^ 1 ||| 2 ^ 0 by decide]
  exact and3_iff b 2 1 0 (by norm_num) (by norm_num) (by norm_num)

theorem maskX_1 (b : Nat) : ((b >>> 9) &&& 7 = 7) ↔ lineX b 2 1 0 = true := by
  rw [show (7 : Nat) = 2 ^ 2 ||| 2 ^ 1 ||| 2 ^ 0 by decide,
    and3_iff (b >>> 9) 2 1 0 (by norm_num) (by norm_num) (by norm_num)]
  simp [lineX, Nat.testBit_shiftRight, Nat.add_comm 9]

theorem maskO_2 (b : Nat) : (b &&& 56 = 56) ↔ lineO b 5 4 3 = true := by
  rw [show (56 : Nat) = 2 ^ 5 ||| 2 ^ 4 ||| 2 ^ 3 by decide]
  exact and3_iff b 5 4 3 (by norm_num) (by norm_num) (by norm_num)

theorem maskX_2 (b : Nat) : ((b >>> 9) &&& 56 = 56) ↔ lineX b 5 4 3 = true := by
  rw [show (56 : Nat) = 2 ^ 5 ||| 2 ^ 4 ||| 2 ^ 3 by decide,
    and3_iff (b >>> 9) 5 4 3 (by norm_num) (by norm_num) (by norm_num)]
  simp [lineX, Nat.testBit_shiftRight, Nat.add_comm 9]

theorem maskO_3 (b : Nat) : (b &&& 448 = 448) ↔ lineO b 8 7 6 = true := by
  rw [show (448 : Nat) = 2 ^ 8 ||| 2 ^ 7 ||| 2 ^ 6 by decide]
  exact and3_iff b 8 7 6 (by norm_num) (by norm_num) (by norm_num)

theorem maskX_3 (b : Nat) : ((b >>> 9) &&& 448 = 448) ↔ lineX b 8 7 6 = true := by
  rw [show (448 : Nat) = 2 ^ 8 ||| 2 ^ 7 ||| 2 ^ 6 by decide,
    and3_iff (b >>> 9) 8 7 6 (by norm_num) (by norm_num) (by norm_num)]
  simp [lineX, Nat.testBit_shiftRight, Nat.add_comm 9]

theorem maskO_4 (b : Nat) : (b &&& 73 = 73) ↔ lineO b 6 3 0 = true := by
  rw [show (73 : Nat) = 2 ^ 6 ||| 2 ^ 3 ||| 2 ^ 0 by decide]
  exact and3_iff b 6 3 0 (by norm_num) (by norm_num) (by norm_num)

theorem maskX_4 (b : Nat) : ((b >>> 9) &&& 73 = 73) ↔ lineX b 6 3 0 = true := by
  rw [show (73 : Nat) = 2 ^ 6 ||| 2 ^ 3 ||| 2 ^ 0 by decide,
    and3_iff (b >>> 9) 6 3 0 (by norm_num) (by norm_num) (by norm_num)]
  simp [lineX, Nat.testBit_shiftRight, Nat.add_comm 9]

theorem maskO_5 (b : Nat) : (b &&& 146 = 146) ↔ lineO b 7 4 1 = true := by
  rw [show (146 : Nat) = 2 ^ 7 ||| 2 ^ 4 ||| 2 ^ 1 by decide]
  exact and3_iff b 7 4 1 (by norm_num) (by norm_num) (by norm_num)

theorem maskX_5 (b : Nat) : ((b >>> 9) &&& 146 = 146) ↔ lineX b 7 4 1 = true := by
  rw [show (146 : Nat) = 2 ^ 7 ||| 2 ^ 4 ||| 2 ^ 1 by decide,
    and3_iff (b >>> 9) 7 4 1 (by norm_num) (by norm_num) (by norm_num)]
  simp [lineX, Nat.testBit_shiftRight, Nat.add_comm 9]

theorem maskO_6 (b : Nat) : (b &&& 292 = 292) ↔ lineO b 8 5 2 = true := by
  rw [show (292 : Nat) = 2 ^ 8 ||| 2 ^ 5 ||| 2 ^ 2 by decide]
  exact and3_iff b 8 5 2 (by norm_num) (by norm_num) (by norm_num)

theorem maskX_6 (b : Nat) : ((b >>> 9) &&& 292 = 292) ↔ lineX b 8 5 2 = true := by
  rw [show (292 : Nat) = 2 ^ 8 ||| 2 ^ 5 ||| 2 ^ 2 by decide,
    and3_iff (b >>> 9) 8 5 2 (by norm_num) (by norm_num) (by norm_num)]
  simp [lineX, Nat.testBit_shiftRight, Nat.add_comm 9]

theorem maskO_7 (b : Nat) : (b &&& 273 = 273) ↔ lineO b 8 4 0 = true := by
  rw [show (273 : Nat) = 2 ^ 8 ||| 2 ^ 4 ||| 2 ^ 0 by decide]
  exact and3_iff b 8 4 0 (by norm_num) (by norm_num) (by norm_num)

theorem maskX_7 (b : Nat) : ((b >>> 9) &&& 273 = 273) ↔ lineX b 8 4 0 = true := by
  rw [show (273 : Nat) = 2 ^ 8 ||| 2 ^ 4 ||| 2 ^ 0 by decide,
    and3_iff (b >>> 9) 8 4 0 (by norm_num) (by norm_num) (by norm_num)]
  simp [lineX, Nat.testBit_shiftRight, Nat.add_comm 9]

theorem maskO_8 (b : Nat) : (b &&& 84 = 84) ↔ lineO b 6 4 2 = true := by
  rw [show (84 : Nat) = 2 ^ 6 ||| 2 ^ 4 ||| 2 ^ 2 by decide]
  exact and3_iff b 6 4 2 (by norm_num) (by norm_num) (by norm_num)

theorem maskX_8 (b : Nat) : ((b >>> 9) &&& 84 = 84) ↔ lineX b 6 4 2 = true := by
  rw [show (84 : Nat) = 2 ^ 6 ||| 2 ^ 4 ||| 2 ^ 2 by decide,
    and3_iff (b >>> 9) 6 4 2 (by norm_num) (by norm_num) (by norm_num)]
  simp [lineX, Nat.testBit_shiftRight, Nat.add_comm 9]

theorem won_unfold (b : Nat) :
    killer.won b = [7, 56, 448, 73, 146, 292, 273, 84].findSome? (fun m =>
      if b &&& m = m then some (-1 : Int)
      else if (b >>> 9) &&& m = m then some 1 else none) := rfl

theorem won_of_none (b : Nat) (hO : anyOb b = false) (hX : anyXb b = false) :
    killer.won b = none := by
  simp only [anyOb, Bool.or_eq_false_iff] at hO
  obtain ⟨⟨⟨⟨⟨⟨⟨hO1, hO2⟩, hO3⟩, hO4⟩, hO5⟩, hO6⟩, hO7⟩, hO8⟩ := hO
  simp only [anyXb, Bool.or_eq_false_iff] at hX
  obtain ⟨⟨⟨⟨⟨⟨⟨hX1, hX2⟩, hX3⟩, hX4⟩, hX5⟩, hX6⟩, hX7⟩, hX8⟩ := hX
  rw [won_unfold]
  simp only [List.findSome?_cons, List.findSome?_nil,
    maskX_1, maskX_2, maskX_3, maskX_4, maskX_5, maskX_6, maskX_7, maskX_8]
  simp only [maskO_1, maskO_2, maskO_3, maskO_4, maskO_5, maskO_6, maskO_7, maskO_8,
    hO1, hO2, hO3, hO4, hO5, hO6, hO7, hO8, hX1, hX2, hX3, hX4, hX5, hX6, hX7, hX8,
    Bool.false_eq_true, if_false]

theorem won_of_1 (b : Nat) (hO : anyOb b = false) (hX : anyXb b = true) :
    killer.won b = some 1 := by
  simp only [anyOb, Bool.or_eq_false_iff] at hO
  obtain ⟨⟨⟨⟨⟨⟨⟨hO1, hO2⟩, hO3⟩, hO4⟩, hO5⟩, hO6⟩, hO7⟩, hO8⟩ := hO
  rw [won_unfold]
  simp only [List.findSome?_cons, List.findSome?_nil,
    maskX_1, maskX_2, maskX_3, maskX_4, maskX_5, maskX_6, maskX_7, maskX_8]
  simp only [maskO_1, maskO_2, maskO_3, maskO_4, maskO_5, maskO_6, maskO_7, maskO_8,
    hO1, hO2, hO3, hO4, hO5, hO6, hO7, hO8, Bool.false_eq_true, if_false]
  cases hx1 : lineX b 2 1 0
  · simp only [hx1, Bool.false_eq_true, if_false]
    cases hx2 : lineX b 5 4 3
    · simp only [hx2, Bool.false_eq_true, if_false]
      cases hx3 : lineX b 8 7 6
      · simp only [hx3, Bool.false_eq_true, if_false]
        cases hx4 : lineX b 6 3 0
        · simp only [hx4, Bool.false_eq_true, if_false]
          cases hx5 : lineX b 7 4 1
          · simp only [hx5, Bool.false_eq_true, if_false]
            cases hx6 : lineX b 8 5 2
            · simp only [hx6, Bool.false_eq_true, if_false]
              cases hx7 : lineX b 8 4 0
              · simp only [hx7, Bool.false_eq_true, if_false]
                cases hx8 : lineX b 6 4 2
                · simp only [hx8, Bool.false_eq_true, if_false]
                  simp [anyXb, hx1, hx2, hx3, hx4, hx5, hx6, hx7, hx8] at hX
                · simp [hx8]
              · simp [hx7]
            · simp [hx6]
          · simp [hx5]
        · simp [hx4]
      · simp [hx3]
    · simp [hx2]
  · simp [hx1]

theorem won_of_neg1 (b : Nat) (hX : anyXb b = false) (hO : anyOb b = true) :
    killer.won b = some (-1) := by
  simp only [anyXb, Bool.or_eq_false_iff] at hX
  obtain ⟨⟨⟨⟨⟨⟨⟨hX1, hX2⟩, hX3⟩, hX4⟩, hX5⟩, hX6⟩, hX7⟩, hX8⟩ := hX
  rw [won_unfold]
  simp only [List.findSome?_cons, List.findSome?_nil,
    maskX_1, maskX_2, maskX_3, maskX_4, maskX_5, maskX_6, maskX_7, maskX_8]
  simp only [maskO_1, maskO_2, maskO_3, maskO_4, maskO_5, maskO_6, maskO_7, maskO_8,
    hX1, hX2, hX3, hX4, hX5, hX6, hX7, hX8, Bool.false_eq_true, if_false]
  cases ho1 : lineO b 2 1 0
  · simp only [ho1, Bool.false_eq_true, if_false]
    cases ho2 : lineO b 5 4 3
    · simp only [ho2, Bool.false_eq_true, if_false]
      cases ho3 : lineO b 8 7 6
      · simp only [ho3, Bool.false_eq_true, if_false]
        cases ho4 : lineO b 6 3 0
        · simp only [ho4, Bool.false_eq_true, if_false]
          cases ho5 : lineO b 7 4 1
          · simp only [ho5, Bool.false_eq_true, if_false]
            cases ho6 : lineO b 8 5 2
            · simp only [ho6, Bool.false_eq_true, if_false]
              cases ho7 : lineO b 8 4 0
              · simp only [ho7, Bool.false_eq_true, if_false]
                cases ho8 : lineO b 6 4 2
                · simp only [ho8, Bool.false_eq_true, if_false]
                  simp [anyOb, ho1, ho2, ho3, ho4, ho5, ho6, ho7, ho8] at hO
                · simp [ho8]
              · simp [ho7]
            · simp [ho6]
          · simp [ho5]
        · simp [ho4]
      · simp [ho3]
    · simp [ho2]
  · simp [ho1]

theorem won_none_mp (b : Nat) (h : killer.won b = none) :
    anyOb b = false ∧ anyXb b = false := by
  rw [won_unfold] at h
  simp only [List.findSome?_cons, List.findSome?_nil,
    maskX_1, maskX_2, maskX_3, maskX_4, maskX_5, maskX_6, maskX_7, maskX_8] at h
  simp only [maskO_1, maskO_2, maskO_3, maskO_4, maskO_5, maskO_6, maskO_7, maskO_8] at h
  cases ho1 : lineO b 2 1 0
  · rw [ho1] at h
    simp only [Bool.false_eq_true, if_false] at h
    cases hx1 : lineX b 2 1 0
    · rw [hx1] at h
      simp only [Bool.false_eq_true, if_false] at h
      cases ho2 : lineO b 5 4 3
      · rw [ho2] at h
        simp only [Bool.false_eq_true, if_false] at h
        cases hx2 : lineX b 5 4 3
        · rw [hx2] at h
          simp only [Bool.false_eq_true, if_false] at h
          cases ho3 : lineO b 8 7 6
          · rw [ho3] at h
            simp only [Bool.false_eq_true, if_false] at h
            cases hx3 : lineX b 8 7 6
            · rw [hx3] at h
              simp only [Bool.false_eq_true, if_false] at h
              cases ho4 : lineO b 6 3 0
              · rw [ho4] at h
                simp only [Bool.false_eq_true, if_false] at h
                cases hx4 : lineX b 6 3 0
                · rw [hx4] at h
                  simp only [Bool.false_eq_true, if_false] at h
                  cases ho5 : lineO b 7 4 1
                  · rw [ho5] at h
                    simp only [Bool.false_eq_true, if_false] at h
                    cases hx5 : lineX b 7 4 1
                    · rw [hx5] at h
                      simp only [Bool.false_eq_true, if_false] at h
                      cases ho6 : lineO b 8 5 2
                      · rw [ho6] at h
                        simp only [Bool.false_eq_true, if_false] at h
                        cases hx6 : lineX b 8 5 2
                        · rw [hx6] at h
                          simp only [Bool.false_eq_true, if_false] at h
                          cases ho7 : lineO b 8 4 0
                          · rw [ho7] at h
                            simp only [Bool.false_eq_true, if_false] at h
                            cases hx7 : lineX b 8 4 0
                            · rw [hx7] at h
                              simp only [Bool.false_eq_true, if_false] at h
                              cases ho8 : lineO b 6 4 2
                              · rw [ho8] at h
                                simp only [Bool.false_eq_true, if_false] at h
                                cases hx8 : lineX b 6 4 2
                                · rw [hx8] at h
                                  simp only [Bool.false_eq_true, if_false] at h
                                  refine ⟨?_, ?_⟩ <;> simp [anyOb, anyXb, ho1, ho2, ho3, ho4, ho5, ho6, ho7, ho8, hx1, hx2, hx3, hx4, hx5, hx6, hx7, hx8]
                                · rw [hx8] at h
                                  simp at h
                              · rw [ho8] at h
                                simp at h
                            · rw [hx7] at h
                              simp at h
                          · rw [ho7] at h
                            simp at h
                        · rw [hx6] at h
                          simp at h
                      · rw [ho6] at h
                        simp at h
                    · rw [hx5] at h
                      simp at h
                  · rw [ho5] at h
                    simp at h
                · rw [hx4] at h
                  simp at h
              · rw [ho4] at h
                simp at h
            · rw [hx3] at h
              simp at h
          · rw [ho3] at h
            simp at h
        · rw [hx2] at h
          simp at h
      · rw [ho2] at h
        simp at h
    · rw [hx1] at h
      simp at h
  · rw [ho1] at h
    simp at h
theorem bwon_of_none (b : Nat) (hO : anyOb b = false) (hX : anyXb b = false) :
    bwon b = none := by
  simp only [anyOb, Bool.or_eq_false_iff] at hO
  obtain ⟨⟨⟨⟨⟨⟨⟨hO1, hO2⟩, hO3⟩, hO4⟩, hO5⟩, hO6⟩, hO7⟩, hO8⟩ := hO
  simp only [anyXb, Bool.or_eq_false_iff] at hX
  obtain ⟨⟨⟨⟨⟨⟨⟨hX1, hX2⟩, hX3⟩, hX4⟩, hX5⟩, hX6⟩, hX7⟩, hX8⟩ := hX
  simp only [bwon, List.findSome?_cons, List.findSome?_nil, id, blineN_eq,
    hO1, hO2, hO3, hO4, hO5, hO6, hO7, hO8, hX1, hX2, hX3, hX4, hX5, hX6, hX7, hX8,
    Bool.false_eq_true, if_false]

theorem bwon_of_X (b : Nat) (hO : anyOb b = false) (hX : anyXb b = true) :
    bwon b = some 'X' := by
  simp only [anyOb, Bool.or_eq_false_iff] at hO
  obtain ⟨⟨⟨⟨⟨⟨⟨hO1, hO2⟩, hO3⟩, hO4⟩, hO5⟩, hO6⟩, hO7⟩, hO8⟩ := hO
  simp only [bwon, List.findSome?_cons, List.findSome?_nil, id, blineN_eq,
    hO1, hO2, hO3, hO4, hO5, hO6, hO7, hO8, Bool.false_eq_true, if_false]
  cases hx1 : lineX b 8 7 6
  · simp only [hx1, Bool.false_eq_true, if_false]
    cases hx2 : lineX b 5 4 3
    · simp only [hx2, Bool.false_eq_true, if_false]
      cases hx3 : lineX b 2 1 0
      · simp only [hx3, Bool.false_eq_true, if_false]
        cases hx4 : lineX b 8 5 2
        · simp only [hx4, Bool.false_eq_true, if_false]
          cases hx5 : lineX b 7 4 1
          · simp only [hx5, Bool.false_eq_true, if_false]
            cases hx6 : lineX b 6 3 0
            · simp only [hx6, Bool.false_eq_true, if_false]
              cases hx7 : lineX b 8 4 0
              · simp only [hx7, Bool.false_eq_true, if_false]
                cases hx8 : lineX b 6 4 2
                · simp only [hx8, Bool.false_eq_true, if_false]
                  simp [anyXb, hx1, hx2, hx3, hx4, hx5, hx6, hx7, hx8] at hX
                · simp [hx8]
              · simp [hx7]
            · simp [hx6]
          · simp [hx5]
        · simp [hx4]
      · simp [hx3]
    · simp [hx2]
  · simp [hx1]

theorem bwon_of_O (b : Nat) (hX : anyXb b = false) (hO : anyOb b = true) :
    bwon b = some 'O' := by
  simp only [anyXb, Bool.or_eq_false_iff] at hX
  obtain ⟨⟨⟨⟨⟨⟨⟨hX1, hX2⟩, hX3⟩, hX4⟩, hX5⟩, hX6⟩, hX7⟩, hX8⟩ := hX
  simp only [bwon, List.findSome?_cons, List.findSome?_nil, id, blineN_eq,
    hX1, hX2, hX3, hX4, hX5, hX6, hX7, hX8, Bool.false_eq_true, if_false]
  cases ho1 : lineO b 8 7 6
  · simp only [ho1, Bool.false_eq_true, if_false]
    cases ho2 : lineO b 5 4 3
    · simp only [ho2, Bool.false_eq_true, if_false]
      cases ho3 : lineO b 2 1 0
      · simp only [ho3, Bool.false_eq_true, if_false]
        cases ho4 : lineO b 8 5 2
        · simp only [ho4, Bool.false_eq_true, if_false]
          cases ho5 : lineO b 7 4 1
          · simp only [ho5, Bool.false_eq_true, if_false]
            cases ho6 : lineO b 6 3 0
            · simp only [ho6, Bool.false_eq_true, if_false]
              cases ho7 : lineO b 8 4 0
              · simp only [ho7, Bool.false_eq_true, if_false]
                cases ho8 : lineO b 6 4 2
                · simp only [ho8, Bool.false_eq_true, if_false]
                  simp [anyOb, ho1, ho2, ho3, ho4, ho5, ho6, ho7, ho8] at hO
                · simp [ho8]
              · simp [ho7]
            · simp [ho6]
          · simp [ho5]
        · simp [ho4]
      · simp [ho3]
    · simp [ho2]
  · simp [ho1]

/-- On boards where at most one side owns a completed line and whose blank
count agrees with `9 - popcount`, the two evaluators coincide. -/
theorem bEval_eq_simple_evaluate (b : Nat)
    (hOW : ¬(anyXb b = true ∧ anyOb b = true))
    (hsp : (bspaces b : Int) = killer.spaces b) :
    bEval b = killer.simple_evaluate b := by
  have hiff : (bspaces b = 0) ↔ (killer.spaces b = 0) := by
    rw [← hsp]
    exact Int.natCast_eq_zero.symm
  cases hX : anyXb b <;> cases hO : anyOb b
  · unfold bEval killer.simple_evaluate
    rw [bwon_of_none b hO hX, won_of_none b hO hX]
    by_cases h0 : bspaces b = 0
    · rw [if_pos h0, if_pos (hiff.mp h0)]
    · rw [if_neg h0, if_neg (fun hc => h0 (hiff.mpr hc))]
  · unfold bEval killer.simple_evaluate
    rw [bwon_of_O b hX hO, won_of_neg1 b hX hO]
    rfl
  · unfold bEval killer.simple_evaluate
    rw [bwon_of_X b hO hX, won_of_1 b hO hX]
    rfl
  · exact absurd ⟨hX, hO⟩ hOW

/-! ### Preservation of the line predicates and the blank count -/

theorem lineO_or_high (b k i j l : Nat) (hk : 9 ≤ k)
    (hi : i < 9) (hj : j < 9) (hl : l < 9) :
    lineO (b ||| 2 ^ k) i j l = lineO b i j l := by
  unfold lineO
  rw [Nat.testBit_or, Nat.testBit_or, Nat.testBit_or,
    Nat.testBit_two_pow_of_ne (by omega), Nat.testBit_two_pow_of_ne (by omega),
    Nat.testBit_two_pow_of_ne (by omega), Bool.or_false, Bool.or_false, Bool.or_false]

theorem lineX_or_low (b k i j l : Nat) (hk : k < 9)
    (hi : i < 9) (hj : j < 9) (hl : l < 9) :
    lineX (b ||| 2 ^ k) i j l = lineX b i j l := by
  unfold lineX
  rw [Nat.testBit_or, Nat.testBit_or, Nat.testBit_or,
    Nat.testBit_two_pow_of_ne (by omega), Nat.testBit_two_pow_of_ne (by omega),
    Nat.testBit_two_pow_of_ne (by omega), Bool.or_false, Bool.or_false, Bool.or_false]

theorem anyOb_or_high (b k : Nat) (hk : 9 ≤ k) : anyOb (b ||| 2 ^ k) = anyOb b := by
  unfold anyOb
  rw [lineO_or_high b k 8 7 6 hk (by norm_num) (by norm_num) (by norm_num),
    lineO_or_high b k 5 4 3 hk (by norm_num) (by norm_num) (by norm_num),
    lineO_or_high b k 2 1 0 hk (by norm_num) (by norm_num) (by norm_num),
    lineO_or_high b k 8 5 2 hk (by norm_num) (by norm_num) (by norm_num),
    lineO_or_high b k 7 4 1 hk (by norm_num) (by norm_num) (by norm_num),
    lineO_or_high b k 6 3 0 hk (by norm_num) (by norm_num) (by norm_num),
    lineO_or_high b k 8 4 0 hk (by norm_num) (by norm_num) (by norm_num),
    lineO_or_high b k 6 4 2 hk (by norm_num) (by norm_num) (by norm_num)]

theorem anyXb_or_low (b k : Nat) (hk : k < 9) : anyXb (b ||| 2 ^ k) = anyXb b := by
  unfold anyXb
  rw [lineX_or_low b k 8 7 6 hk (by norm_num) (by norm_num) (by norm_num),
    lineX_or_low b k 5 4 3 hk (by norm_num) (by norm_num) (by norm_num),
    lineX_or_low b k 2 1 0 hk (by norm_num) (by norm_num) (by norm_num),
    lineX_or_low b k 8 5 2 hk (by norm_num) (by norm_num) (by norm_num),
    lineX_or_low b k 7 4 1 hk (by norm_num) (by norm_num) (by norm_num),
    lineX_or_low b k 6 3 0 hk (by norm_num) (by norm_num) (by norm_num),
    lineX_or_low b k 8 4 0 hk (by norm_num) (by norm_num) (by norm_num),
    lineX_or_low b k 6 4 2 hk (by norm_num) (by norm_num) (by norm_num)]

/-! ### Blank-count decrement for a placement -/

theorem bspCell8 (b : Nat) (h9 : b.testBit 17 = false) (h0 : b.testBit 8 = false) :
    bspaces b = bspaces (b ||| 2 ^ 17) + 1 ∧ bspaces b = bspaces (b ||| 2 ^ 8) + 1 := by
  constructor
  · unfold bspaces
    rw [show POSITIONS = [(0, 0), (0, 1), (0, 2), (1, 0), (1, 1), (1, 2), (2, 0), (2, 1), (2, 2)]
      from rfl]
    simp only [List.countP_cons, List.countP_nil]
    norm_num [Nat.testBit_or, h9, h0,
      (by decide : Nat.testBit 131072 17 = true),
      (by decide : Nat.testBit 131072 8 = false),
      (by decide : Nat.testBit 131072 16 = false),
      (by decide : Nat.testBit 131072 7 = false),
      (by decide : Nat.testBit 131072 15 = false),
      (by decide : Nat.testBit 131072 6 = false),
      (by decide : Nat.testBit 131072 14 = false),
      (by decide : Nat.testBit 131072 5 = false),
      (by decide : Nat.testBit 131072 13 = false),
      (by decide : Nat.testBit 131072 4 = false),
      (by decide : Nat.testBit 131072 12 = false),
      (by decide : Nat.testBit 131072 3 = false),
      (by decide : Nat.testBit 131072 11 = false),
      (by decide : Nat.testBit 131072 2 = false),
      (by decide : Nat.testBit 131072 10 = false),
      (by decide : Nat.testBit 131072 1 = false),
      (by decide : Nat.testBit 131072 9 = false),
      (by decide : Nat.testBit 131072 0 = false)]
    try omega
  · unfold bspaces
    rw [show POSITIONS = [(0, 0), (0, 1), (0, 2), (1, 0), (1, 1), (1, 2), (2, 0), (2, 1), (2, 2)]
      from rfl]
    simp only [List.countP_cons, List.countP_nil]
    norm_num [Nat.testBit_or, h9, h0,
      (by decide : Nat.testBit 256 17 = false),
      (by decide : Nat.testBit 256 8 = true),
      (by decide : Nat.testBit 256 16 = false),
      (by decide : Nat.testBit 256 7 = false),
      (by decide : Nat.testBit 256 15 = false),
      (by decide : Nat.testBit 256 6 = false),
      (by decide : Nat.testBit 256 14 = false),
      (by decide : Nat.testBit 256 5 = false),
      (by decide : Nat.testBit 256 13 = false),
      (by decide : Nat.testBit 256 4 = false),
      (by decide : Nat.testBit 256 12 = false),
      (by decide : Nat.testBit 256 3 = false),
      (by decide : Nat.testBit 256 11 = false),
      (by decide : Nat.testBit 256 2 = false),
      (by decide : Nat.testBit 256 10 = false),
      (by decide : Nat.testBit 256 1 = false),
      (by decide : Nat.testBit 256 9 = false),
      (by decide : Nat.testBit 256 0 = false)]
    try omega

theorem bspCell7 (b : Nat) (h9 : b.testBit 16 = false) (h0 : b.testBit 7 = false) :
    bspaces b = bspaces (b ||| 2 ^ 16) + 1 ∧ bspaces b = bspaces (b ||| 2 ^ 7) + 1 := by
  constructor
  · unfold bspaces
    rw [show POSITIONS = [(0, 0), (0, 1), (0, 2), (1, 0), (1, 1), (1, 2), (2, 0), (2, 1), (2, 2)]
      from rfl]
    simp only [List.countP_cons, List.countP_nil]
    norm_num [Nat.testBit_or, h9, h0,
      (by decide : Nat.testBit 65536 17 = false),
      (by decide : Nat.testBit 65536 8 = false),
      (by decide : Nat.testBit 65536 16 = true),
      (by decide : Nat.testBit 65536 7 = false),
      (by decide : Nat.testBit 65536 15 = false),
      (by decide : Nat.testBit 65536 6 = false),
      (by decide : Nat.testBit 65536 14 = false),
      (by decide : Nat.testBit 65536 5 = false),
      (by decide : Nat.testBit 65536 13 = false),
      (by decide : Nat.testBit 65536 4 = false),
      (by decide : Nat.testBit 65536 12 = false),
      (by decide : Nat.testBit 65536 3 = false),
      (by decide : Nat.testBit 65536 11 = false),
      (by decide : Nat.testBit 65536 2 = false),
      (by decide : Nat.testBit 65536 10 = false),
      (by decide : Nat.testBit 65536 1 = false),
      (by decide : Nat.testBit 65536 9 = false),
      (by decide : Nat.testBit 65536 0 = false)]
    try omega
  · unfold bspaces
    rw [show POSITIONS = [(0, 0), (0, 1), (0, 2), (1, 0), (1, 1), (1, 2), (2, 0), (2, 1), (2, 2)]
      from rfl]
    simp only [List.countP_cons, List.countP_nil]
    norm_num [Nat.testBit_or, h9, h0,
      (by decide : Nat.testBit 128 17 = false),
      (by decide : Nat.testBit 128 8 = false),
      (by decide : Nat.testBit 128 16 = false),
      (by decide : Nat.testBit 128 7 = true),
      (by decide : Nat.testBit 128 15 = false),
      (by decide : Nat.testBit 128 6 = false),
      (by decide : Nat.testBit 128 14 = false),
      (by decide : Nat.testBit 128 5 = false),
      (by decide : Nat.testBit 128 13 = false),
      (by decide : Nat.testBit 128 4 = false),
      (by decide : Nat.testBit 128 12 = false),
      (by decide : Nat.testBit 128 3 = false),
      (by decide : Nat.testBit 128 11 = false),
      (by decide : Nat.testBit 128 2 = false),
      (by decide : Nat.testBit 128 10 = false),
      (by decide : Nat.testBit 128 1 = false),
      (by decide : Nat.testBit 128 9 = false),
      (by decide : Nat.testBit 128 0 = false)]
    try omega

theorem bspCell6 (b : Nat) (h9 : b.testBit 15 = false) (h0 : b.testBit 6 = false) :
    bspaces b = bspaces (b ||| 2 ^ 15) + 1 ∧ bspaces b = bspaces (b ||| 2 ^ 6) + 1 := by
  constructor
  · unfold bspaces
    rw [show POSITIONS = [(0, 0), (0, 1), (0, 2), (1, 0), (1, 1), (1, 2), (2, 0), (2, 1), (2, 2)]
      from rfl]
    simp only [List.countP_cons, List.countP_nil]
    norm_num [Nat.testBit_or, h9, h0,
      (by decide : Nat.testBit 32768 17 = false),
      (by decide : Nat.testBit 32768 8 = false),
      (by decide : Nat.testBit 32768 16 = false),
      (by decide : Nat.testBit 32768 7 = false),
      (by decide : Nat.testBit 32768 15 = true),
      (by decide : Nat.testBit 32768 6 = false),
      (by decide : Nat.testBit 32768 14 = false),
      (by decide : Nat.testBit 32768 5 = false),
      (by decide : Nat.testBit 32768 13 = false),
      (by decide : Nat.testBit 32768 4 = false),
      (by decide : Nat.testBit 32768 12 = false),
      (by decide : Nat.testBit 32768 3 = false),
      (by decide : Nat.testBit 32768 11 = false),
      (by decide : Nat.testBit 32768 2 = false),
      (by decide : Nat.testBit 32768 10 = false),
      (by decide : Nat.testBit 32768 1 = false),
      (by decide : Nat.testBit 32768 9 = false),
      (by decide : Nat.testBit 32768 0 = false)]
    try omega
  · unfold bspaces
    rw [show POSITIONS = [(0, 0), (0, 1), (0, 2), (1, 0), (1, 1), (1, 2), (2, 0), (2, 1), (2, 2)]
      from rfl]
    simp only [List.countP_cons, List.countP_nil]
    norm_num [Nat.testBit_or, h9, h0,
      (by decide : Nat.testBit 64 17 = false),
      (by decide : Nat.testBit 64 8 = false),
      (by decide : Nat.testBit 64 16 = false),
      (by decide : Nat.testBit 64 7 = false),
      (by decide : Nat.testBit 64 15 = false),
      (by decide : Nat.testBit 64 6 = true),
      (by decide : Nat.testBit 64 14 = false),
      (by decide : Nat.testBit 64 5 = false),
      (by decide : Nat.testBit 64 13 = false),
      (by decide : Nat.testBit 64 4 = false),
      (by decide : Nat.testBit 64 12 = false),
      (by decide : Nat.testBit 64 3 = false),
      (by decide : Nat.testBit 64 11 = false),
      (by decide : Nat.testBit 64 2 = false),
      (by decide : Nat.testBit 64 10 = false),
      (by decide : Nat.testBit 64 1 = false),
      (by decide : Nat.testBit 64 9 = false),
      (by decide : Nat.testBit 64 0 = false)]
    try omega

theorem bspCell5 (b : Nat) (h9 : b.testBit 14 = false) (h0 : b.testBit 5 = false) :
    bspaces b = bspaces (b ||| 2 ^ 14) + 1 ∧ bspaces b = bspaces (b ||| 2 ^ 5) + 1 := by
  constructor
  · unfold bspaces
    rw [show POSITIONS = [(0, 0), (0, 1), (0, 2), (1, 0), (1, 1), (1, 2), (2, 0), (2, 1), (2, 2)]
      from rfl]
    simp only [List.countP_cons, List.countP_nil]
    norm_num [Nat.testBit_or, h9, h0,
      (by decide : Nat.testBit 16384 17 = false),
      (by decide : Nat.testBit 16384 8 = false),
      (by decide : Nat.testBit 16384 16 = false),
      (by decide : Nat.testBit 16384 7 = false),
      (by decide : Nat.testBit 16384 15 = false),
      (by decide : Nat.testBit 16384 6 = false),
      (by decide : Nat.testBit 16384 14 = true),
      (by decide : Nat.testBit 16384 5 = false),
      (by decide : Nat.testBit 16384 13 = false),
      (by decide : Nat.testBit 16384 4 = false),
      (by decide : Nat.testBit 16384 12 = false),
      (by decide : Nat.testBit 16384 3 = false),
      (by decide : Nat.testBit 16384 11 = false),
      (by decide : Nat.testBit 16384 2 = false),
      (by decide : Nat.testBit 16384 10 = false),
      (by decide : Nat.testBit 16384 1 = false),
      (by decide : Nat.testBit 16384 9 = false),
      (by decide : Nat.testBit 16384 0 = false)]
    try omega
  · unfold bspaces
    rw [show POSITIONS = [(0, 0), (0, 1), (0, 2), (1, 0), (1, 1), (1, 2), (2, 0), (2, 1), (2, 2)]
      from rfl]
    simp only [List.countP_cons, List.countP_nil]
    norm_num [Nat.testBit_or, h9, h0,
      (by decide : Nat.testBit 32 17 = false),
      (by decide : Nat.testBit 32 8 = false),
      (by decide : Nat.testBit 32 16 = false),
      (by decide : Nat.testBit 32 7 = false),
      (by decide : Nat.testBit 32 15 = false),
      (by decide : Nat.testBit 32 6 = false),
      (by decide : Nat.testBit 32 14 = false),
      (by decide : Nat.testBit 32 5 = true),
      (by decide : Nat.testBit 32 13 = false),
      (by decide : Nat.testBit 32 4 = false),
      (by decide : Nat.testBit 32 12 = false),
      (by decide : Nat.testBit 32 3 = false),
      (by decide : Nat.testBit 32 11 = false),
      (by decide : Nat.testBit 32 2 = false),
      (by decide : Nat.testBit 32 10 = false),
      (by decide : Nat.testBit 32 1 = false),
      (by decide : Nat.testBit 32 9 = false),
      (by decide : Nat.testBit 32 0 = false)]
    try omega

theorem bspCell4 (b : Nat) (h9 : b.testBit 13 = false) (h0 : b.testBit 4 = false) :
    bspaces b = bspaces (b ||| 2 ^ 13) + 1 ∧ bspaces b = bspaces (b ||| 2 ^ 4) + 1 := by
  constructor
  · unfold bspaces
    rw [show POSITIONS = [(0, 0), (0, 1), (0, 2), (1, 0), (1, 1), (1, 2), (2, 0), (2, 1), (2, 2)]
      from rfl]
    simp only [List.countP_cons, List.countP_nil]
    norm_num [Nat.testBit_or, h9, h0,
      (by decide : Nat.testBit 8192 17 = false),
      (by decide : Nat.testBit 8192 8 = false),
      (by decide : Nat.testBit 8192 16 = false),
      (by decide : Nat.testBit 8192 7 = false),
      (by decide : Nat.testBit 8192 15 = false),
      (by decide : Nat.testBit 8192 6 = false),
      (by decide : Nat.testBit 8192 14 = false),
      (by decide : Nat.testBit 8192 5 = false),
      (by decide : Nat.testBit 8192 13 = true),
      (by decide : Nat.testBit 8192 4 = false),
      (by decide : Nat.testBit 8192 12 = false),
      (by decide : Nat.testBit 8192 3 = false),
      (by decide : Nat.testBit 8192 11 = false),
      (by decide : Nat.testBit 8192 2 = false),
      (by decide : Nat.testBit 8192 10 = false),
      (by decide : Nat.testBit 8192 1 = false),
      (by decide : Nat.testBit 8192 9 = false),
      (by decide : Nat.testBit 8192 0 = false)]
    try omega
  · unfold bspaces
    rw [show POSITIONS = [(0, 0), (0, 1), (0, 2), (1, 0), (1, 1), (1, 2), (2, 0), (2, 1), (2, 2)]
      from rfl]
    simp only [List.countP_cons, List.countP_nil]
    norm_num [Nat.testBit_or, h9, h0,
      (by decide : Nat.testBit 16 17 = false),
      (by decide : Nat.testBit 16 8 = false),
      (by decide : Nat.testBit 16 16 = false),
      (by decide : Nat.testBit 16 7 = false),
      (by decide : Nat.testBit 16 15 = false),
      (by decide : Nat.testBit 16 6 = false),
      (by decide : Nat.testBit 16 14 = false),
      (by decide : Nat.testBit 16 5 = false),
      (by decide : Nat.testBit 16 13 = false),
      (by decide : Nat.testBit 16 4 = true),
      (by decide : Nat.testBit 16 12 = false),
      (by decide : Nat.testBit 16 3 = false),
      (by decide : Nat.testBit 16 11 = false),
      (by decide : Nat.testBit 16 2 = false),
      (by decide : Nat.testBit 16 10 = false),
      (by decide : Nat.testBit 16 1 = false),
      (by decide : Nat.testBit 16 9 = false),
      (by decide : Nat.testBit 16 0 = false)]
    try omega

theorem bspCell3 (b : Nat) (h9 : b.testBit 12 = false) (h0 : b.testBit 3 = false) :
    bspaces b = bspaces (b ||| 2 ^ 12) + 1 ∧ bspaces b = bspaces (b ||| 2 ^ 3) + 1 := by
  constructor
  · unfold bspaces
    rw [show POSITIONS = [(0, 0), (0, 1), (0, 2), (1, 0), (1, 1), (1, 2), (2, 0), (2, 1), (2, 2)]
      from rfl]
    simp only [List.countP_cons, List.countP_nil]
    norm_num [Nat.testBit_or, h9, h0,
      (by decide : Nat.testBit 4096 17 = false),
      (by decide : Nat.testBit 4096 8 = false),
      (by decide : Nat.testBit 4096 16 = false),
      (by decide : Nat.testBit 4096 7 = false),
      (by decide : Nat.testBit 4096 15 = false),
      (by decide : Nat.testBit 4096 6 = false),
      (by decide : Nat.testBit 4096 14 = false),
      (by decide : Nat.testBit 4096 5 = false),
      (by decide : Nat.testBit 4096 13 = false),
      (by decide : Nat.testBit 4096 4 = false),
      (by decide : Nat.testBit 4096 12 = true),
      (by decide : Nat.testBit 4096 3 = false),
      (by decide : Nat.testBit 4096 11 = false),
      (by decide : Nat.testBit 4096 2 = false),
      (by decide : Nat.testBit 4096 10 = false),
      (by decide : Nat.testBit 4096 1 = false),
      (by decide : Nat.testBit 4096 9 = false),
      (by decide : Nat.testBit 4096 0 = false)]
    try omega
  · unfold bspaces
    rw [show POSITIONS = [(0, 0), (0, 1), (0, 2), (1, 0), (1, 1), (1, 2), (2, 0), (2, 1), (2, 2)]
      from rfl]
    simp only [List.countP_cons, List.countP_nil]
    norm_num [Nat.testBit_or, h9, h0,
      (by decide : Nat.testBit 8 17 = false),
      (by decide : Nat.testBit 8 8 = false),
      (by decide : Nat.testBit 8 16 = false),
      (by decide : Nat.testBit 8 7 = false),
      (by decide : Nat.testBit 8 15 = false),
      (by decide : Nat.testBit 8 6 = false),
      (by decide : Nat.testBit 8 14 = false),
      (by decide : Nat.testBit 8 5 = false),
      (by decide : Nat.testBit 8 13 = false),
      (by decide : Nat.testBit 8 4 = false),
      (by decide : Nat.testBit 8 12 = false),
      (by decide : Nat.testBit 8 3 = true),
      (by decide : Nat.testBit 8 11 = false),
      (by decide : Nat.testBit 8 2 = false),
      (by decide : Nat.testBit 8 10 = false),
      (by decide : Nat.testBit 8 1 = false),
      (by decide : Nat.testBit 8 9 = false),
      (by decide : Nat.testBit 8 0 = false)]
    try omega

theorem bspCell2 (b : Nat) (h9 : b.testBit 11 = false) (h0 : b.testBit 2 = false) :
    bspaces b = bspaces (b ||| 2 ^ 11) + 1 ∧ bspaces b = bspaces (b ||| 2 ^ 2) + 1 := by
  constructor
  · unfold bspaces
    rw [show POSITIONS = [(0, 0), (0, 1), (0, 2), (1, 0), (1, 1), (1, 2), (2, 0), (2, 1), (2, 2)]
      from rfl]
    simp only [List.countP_cons, List.countP_nil]
    norm_num [Nat.testBit_or, h9, h0,
      (by decide : Nat.testBit 2048 17 = false),
      (by decide : Nat.testBit 2048 8 = false),
      (by decide : Nat.testBit 2048 16 = false),
      (by decide : Nat.testBit 2048 7 = false),
      (by decide : Nat.testBit 2048 15 = false),
      (by decide : Nat.testBit 2048 6 = false),
      (by decide : Nat.testBit 2048 14 = false),
      (by decide : Nat.testBit 2048 5 = false),
      (by decide : Nat.testBit 2048 13 = false),
      (by decide : Nat.testBit 2048 4 = false),
      (by decide : Nat.testBit 2048 12 = false),
      (by decide : Nat.testBit 2048 3 = false),
      (by decide : Nat.testBit 2048 11 = true),
      (by decide : Nat.testBit 2048 2 = false),
      (by decide : Nat.testBit 2048 10 = false),
      (by decide : Nat.testBit 2048 1 = false),
      (by decide : Nat.testBit 2048 9 = false),
      (by decide : Nat.testBit 2048 0 = false)]
    try omega
  · unfold bspaces
    rw [show POSITIONS = [(0, 0), (0, 1), (0, 2), (1, 0), (1, 1), (1, 2), (2, 0), (2, 1), (2, 2)]
      from rfl]
    simp only [List.countP_cons, List.countP_nil]
    norm_num [Nat.testBit_or, h9, h0,
      (by decide : Nat.testBit 4 17 = false),
      (by decide : Nat.testBit 4 8 = false),
      (by decide : Nat.testBit 4 16 = false),
      (by decide : Nat.testBit 4 7 = false),
      (by decide : Nat.testBit 4 15 = false),
      (by decide : Nat.testBit 4 6 = false),
      (by decide : Nat.testBit 4 14 = false),
      (by decide : Nat.testBit 4 5 = false),
      (by decide : Nat.testBit 4 13 = false),
      (by decide : Nat.testBit 4 4 = false),
      (by decide : Nat.testBit 4 12 = false),
      (by decide : Nat.testBit 4 3 = false),
      (by decide : Nat.testBit 4 11 = false),
      (by decide : Nat.testBit 4 2 = true),
      (by decide : Nat.testBit 4 10 = false),
      (by decide : Nat.testBit 4 1 = false),
      (by decide : Nat.testBit 4 9 = false),
      (by decide : Nat.testBit 4 0 = false)]
    try omega

theorem bspCell1 (b : Nat) (h9 : b.testBit 10 = false) (h0 : b.testBit 1 = false) :
    bspaces b = bspaces (b ||| 2 ^ 10) + 1 ∧ bspaces b = bspaces (b ||| 2 ^ 1) + 1 := by
  constructor
  · unfold bspaces
    rw [show POSITIONS = [(0, 0), (0, 1), (0, 2), (1, 0), (1, 1), (1, 2), (2, 0), (2, 1), (2, 2)]
      from rfl]
    simp only [List.countP_cons, List.countP_nil]
    norm_num [Nat.testBit_or, h9, h0,
      (by decide : Nat.testBit 1024 17 = false),
      (by decide : Nat.testBit 1024 8 = false),
      (by decide : Nat.testBit 1024 16 = false),
      (by decide : Nat.testBit 1024 7 = false),
      (by decide : Nat.testBit 1024 15 = false),
      (by decide : Nat.testBit 1024 6 = false),
      (by decide : Nat.testBit 1024 14 = false),
      (by decide : Nat.testBit 1024 5 = false),
      (by decide : Nat.testBit 1024 13 = false),
      (by decide : Nat.testBit 1024 4 = false),
      (by decide : Nat.testBit 1024 12 = false),
      (by decide : Nat.testBit 1024 3 = false),
      (by decide : Nat.testBit 1024 11 = false),
      (by decide : Nat.testBit 1024 2 = false),
      (by decide : Nat.testBit 1024 10 = true),
      (by decide : Nat.testBit 1024 1 = false),
      (by decide : Nat.testBit 1024 9 = false),
      (by decide : Nat.testBit 1024 0 = false)]
    try omega
  · unfold bspaces
    rw [show POSITIONS = [(0, 0), (0, 1), (0, 2), (1, 0), (1, 1), (1, 2), (2, 0), (2, 1), (2, 2)]
      from rfl]
    simp only [List.countP_cons, List.countP_nil]
    norm_num [Nat.testBit_or, h9, h0,
      (by decide : Nat.testBit 2 17 = false),
      (by decide : Nat.testBit 2 8 = false),
      (by decide : Nat.testBit 2 16 = false),
      (by decide : Nat.testBit 2 7 = false),
      (by decide : Nat.testBit 2 15 = false),
      (by decide : Nat.testBit 2 6 = false),
      (by decide : Nat.testBit 2 14 = false),
      (by decide : Nat.testBit 2 5 = false),
      (by decide : Nat.testBit 2 13 = false),
      (by decide : Nat.testBit 2 4 = false),
      (by decide : Nat.testBit 2 12 = false),
      (by decide : Nat.testBit 2 3 = false),
      (by decide : Nat.testBit 2 11 = false),
      (by decide : Nat.testBit 2 2 = false),
      (by decide : Nat.testBit 2 10 = false),
      (by decide : Nat.testBit 2 1 = true),
      (by decide : Nat.testBit 2 9 = false),
      (by decide : Nat.testBit 2 0 = false)]
    try omega

theorem bspCell0 (b : Nat) (h9 : b.testBit 9 = false) (h0 : b.testBit 0 = false) :
    bspaces b = bspaces (b ||| 2 ^ 9) + 1 ∧ bspaces b = bspaces (b ||| 2 ^ 0) + 1 := by
  constructor
  · unfold bspaces
    rw [show POSITIONS = [(0, 0), (0, 1), (0, 2), (1, 0), (1, 1), (1, 2), (2, 0), (2, 1), (2, 2)]
      from rfl]
    simp only [List.countP_cons, List.countP_nil]
    norm_num [Nat.testBit_or, h9, h0,
      (by decide : Nat.testBit 512 17 = false),
      (by decide : Nat.testBit 512 8 = false),
      (by decide : Nat.testBit 512 16 = false),
      (by decide : Nat.testBit 512 7 = false),
      (by decide : Nat.testBit 512 15 = false),
      (by decide : Nat.testBit 512 6 = false),
      (by decide : Nat.testBit 512 14 = false),
      (by decide : Nat.testBit 512 5 = false),
      (by decide : Nat.testBit 512 13 = false),
      (by decide : Nat.testBit 512 4 = false),
      (by decide : Nat.testBit 512 12 = false),
      (by decide : Nat.testBit 512 3 = false),
      (by decide : Nat.testBit 512 11 = false),
      (by decide : Nat.testBit 512 2 = false),
      (by decide : Nat.testBit 512 10 = false),
      (by decide : Nat.testBit 512 1 = false),
      (by decide : Nat.testBit 512 9 = true),
      (by decide : Nat.testBit 512 0 = false)]
    try omega
  · unfold bspaces
    rw [show POSITIONS = [(0, 0), (0, 1), (0, 2), (1, 0), (1, 1), (1, 2), (2, 0), (2, 1), (2, 2)]
      from rfl]
    simp only [List.countP_cons, List.countP_nil]
    norm_num [Nat.testBit_or, h9, h0,
      (by decide : Nat.testBit 1 17 = false),
      (by decide : Nat.testBit 1 8 = false),
      (by decide : Nat.testBit 1 16 = false),
      (by decide : Nat.testBit 1 7 = false),
      (by decide : Nat.testBit 1 15 = false),
      (by decide : Nat.testBit 1 6 = false),
      (by decide : Nat.testBit 1 14 = false),
      (by decide : Nat.testBit 1 5 = false),
      (by decide : Nat.testBit 1 13 = false),
      (by decide : Nat.testBit 1 4 = false),
      (by decide : Nat.testBit 1 12 = false),
      (by decide : Nat.testBit 1 3 = false),
      (by decide : Nat.testBit 1 11 = false),
      (by decide : Nat.testBit 1 2 = false),
      (by decide : Nat.testBit 1 10 = false),
      (by decide : Nat.testBit 1 1 = false),
      (by decide : Nat.testBit 1 9 = false),
      (by decide : Nat.testBit 1 0 = true)]
    try omega

theorem bspaces_place (b : Nat) (rc : Nat × Nat) (hrc : rc ∈ POSITIONS) (p : Int)
    (hp : p = 1 ∨ p = -1)
    (h9 : b.testBit (3 * (2 - rc.1) + (2 - rc.2) + 9) = false)
    (h0 : b.testBit (3 * (2 - rc.1) + (2 - rc.2)) = false) :
    bspaces b = bspaces (b ||| killer.mask rc.1 rc.2 p) + 1 := by
  fin_cases hrc <;> rcases hp with rfl | rfl
  · rw [show killer.mask 0 0 1 = 2 ^ 17 by decide]
    exact (bspCell8 b (by simpa using h9) (by simpa using h0)).1
  · rw [show killer.mask 0 0 (-1) = 2 ^ 8 by decide]
    exact (bspCell8 b (by simpa using h9) (by simpa using h0)).2
  · rw [show killer.mask 0 1 1 = 2 ^ 16 by decide]
    exact (bspCell7 b (by simpa using h9) (by simpa using h0)).1
  · rw [show killer.mask 0 1 (-1) = 2 ^ 7 by decide]
    exact (bspCell7 b (by simpa using h9) (by simpa using h0)).2
  · rw [show killer.mask 0 2 1 = 2 ^ 15 by decide]
    exact (bspCell6 b (by simpa using h9) (by simpa using h0)).1
  · rw [show killer.mask 0 2 (-1) = 2 ^ 6 by decide]
    exact (bspCell6 b (by simpa using h9) (by simpa using h0)).2
  · rw [show killer.mask 1 0 1 = 2 ^ 14 by decide]
    exact (bspCell5 b (by simpa using h9) (by simpa using h0)).1
  · rw [show killer.mask 1 0 (-1) = 2 ^ 5 by decide]
    exact (bspCell5 b (by simpa using h9) (by simpa using h0)).2
  · rw [show killer.mask 1 1 1 = 2 ^ 13 by decide]
    exact (bspCell4 b (by simpa using h9) (by simpa using h0)).1
  · rw [show killer.mask 1 1 (-1) = 2 ^ 4 by decide]
    exact (bspCell4 b (by simpa using h9) (by simpa using h0)).2
  · rw [show killer.mask 1 2 1 = 2 ^ 12 by decide]
    exact (bspCell3 b (by simpa using h9) (by simpa using h0)).1
  · rw [show killer.mask 1 2 (-1) = 2 ^ 3 by decide]
    exact (bspCell3 b (by simpa using h9) (by simpa using h0)).2
  · rw [show killer.mask 2 0 1 = 2 ^ 11 by decide]
    exact (bspCell2 b (by simpa using h9) (by simpa using h0)).1
  · rw [show killer.mask 2 0 (-1) = 2 ^ 2 by decide]
    exact (bspCell2 b (by simpa using h9) (by simpa using h0)).2
  · rw [show killer.mask 2 1 1 = 2 ^ 10 by decide]
    exact (bspCell1 b (by simpa using h9) (by simpa using h0)).1
  · rw [show killer.mask 2 1 (-1) = 2 ^ 1 by decide]
    exact (bspCell1 b (by simpa using h9) (by simpa using h0)).2
  · rw [show killer.mask 2 2 1 = 2 ^ 9 by decide]
    exact (bspCell0 b (by simpa using h9) (by simpa using h0)).1
  · rw [show killer.mask 2 2 (-1) = 2 ^ 0 by decide]
    exact (bspCell0 b (by simpa using h9) (by simpa using h0)).2

/-- The bit-level reference minimax agrees with `killer.py`'s reference
minimax along the game tree: the two winner scans only differ on boards
where both sides own a completed line, which the search never visits. -/
theorem mmB_eq_mm : ∀ (fuel : Nat) (b : Nat) (p : Int), (p = 1 ∨ p = -1) →
    killer.wf b → ¬(anyXb b = true ∧ anyOb b = true) →
    (bspaces b : Int) = killer.spaces b →
    mmB fuel b p = killer.mm fuel b p := by
  intro fuel
  induction fuel with
  | zero =>
    intro b p hp hw hOW hsp
    show (bEval b).getD 0 = (killer.simple_evaluate b).getD 0
    rw [bEval_eq_simple_evaluate b hOW hsp]
  | succ fuel ih =>
    intro b p hp hw hOW hsp
    have hE := bEval_eq_simple_evaluate b hOW hsp
    rcases heval : killer.simple_evaluate b with _ | v
    · have hEb : bEval b = none := by rw [hE, heval]
      have hwonN : killer.won b = none := by
        rcases killer.won_values b with h | h | h
        · exact h
        · rw [killer.simple_evaluate, h] at heval
          cases heval
        · rw [killer.simple_evaluate, h] at heval
          cases heval
      obtain ⟨hOf, hXf⟩ := won_none_mp b hwonN
      rw [mmB_nonterminal p hEb, killer.mm_nonterminal p heval]
      have hch : ∀ c2 ∈ POSITIONS.filterMap (fun rc => killer.place b rc.1 rc.2 p),
          mmB fuel c2 (-p) = killer.mm fuel c2 (-p) := by
        intro c2 hc2
        obtain ⟨hwc, hpc⟩ := killer.childBoards_facts hw hp c2 hc2
        rw [List.mem_filterMap] at hc2
        obtain ⟨rc, hrc, hpl⟩ := hc2
        rw [killer.place_eq_some_iff] at hpl
        obtain ⟨hfree, rfl⟩ := hpl
        have hfree' := (killer.free_iff_testBit b rc.1 rc.2 p hp).mp hfree
        have hofflt := killer.offset_lt_nine rc.1 rc.2
        have hdec := bspaces_place b rc hrc p hp hfree'.2 hfree'.1
        have hOWc : ¬(anyXb (b ||| killer.mask rc.1 rc.2 p) = true ∧
            anyOb (b ||| killer.mask rc.1 rc.2 p) = true) := by
          rcases hp with rfl | rfl
          · have hm : killer.mask rc.1 rc.2 1 = 2 ^ (3 * (2 - rc.1) + (2 - rc.2) + 9) := by
              rw [killer.mask_eq]
              norm_num
            intro hco
            rw [hm, anyOb_or_high b _ (by omega), hOf] at hco
            cases hco.2
          · have hm : killer.mask rc.1 rc.2 (-1) = 2 ^ (3 * (2 - rc.1) + (2 - rc.2)) := by
              rw [killer.mask_eq]
              norm_num
            intro hco
            rw [hm, anyXb_or_low b _ hofflt, hXf] at hco
            cases hco.1
        have hspc : (bspaces (b ||| killer.mask rc.1 rc.2 p) : Int) =
            killer.spaces (b ||| killer.mask rc.1 rc.2 p) := by
          unfold killer.spaces at hsp ⊢
          rw [hpc]
          omega
        have hneg : (-p = 1 ∨ -p = -1) := by
          rcases hp with rfl | rfl <;> norm_num
        exact ih _ (-p) hneg hwc hOWc hspc
      rw [List.map_congr_left hch]
    · rw [mmB_terminal p (by rw [hE, heval]), killer.mm_terminal p heval]

/-- The empty character board decodes from the empty bitboard. -/
theorem cempty_eq_encode_zero : cempty = encode 0 := by decide

/-- `alphabeta.py` on the empty board computes the reference minimax value of
`killer.py`'s `mm` on the empty bitboard. -/
theorem ab_empty_eq_mm :
    ab.alphabeta cempty 'X' EInt.ninf EInt.pinf = EInt.fin (killer.mm 10 0 1) := by
  have hx := babF_agree 10 0 1 EInt.ninf EInt.pinf (Or.inl rfl) killer.wf_zero
  rw [if_pos rfl] at hx
  have h1 : ab.alphabeta cempty 'X' EInt.ninf EInt.pinf = babF 10 0 1 EInt.ninf EInt.pinf := by
    rw [cempty_eq_encode_zero]
    exact hx
  have hmm : mmB 10 0 1 = killer.mm 10 0 1 :=
    mmB_eq_mm 10 0 1 (Or.inl rfl) killer.wf_zero (by decide) (by decide)
  obtain ⟨c1, c2, c3⟩ := babF_contract 10 0 1 EInt.ninf EInt.pinf killer.wf_zero
    (Or.inl rfl) (by decide) elt_ninf_pinf
  rw [h1]
  rcases hR : babF 10 0 1 EInt.ninf EInt.pinf with _ | r | _
  · rw [hR] at c1
    have hcon := c1 (ele_refl _)
    rw [ele_ninf_iff] at hcon
    simp at hcon
  · rw [hR] at c3
    rw [c3 (elt_ninf_fin r) (elt_fin_pinf r), hmm]
  · rw [hR] at c2
    have hcon := c2 (ele_refl _)
    rw [pinf_ele_iff] at hcon
    simp at hcon

/-! ## C3: the empty board is a draw under the exhaustive alpha-beta search -/

set_option maxRecDepth 40000 in
set_option maxHeartbeats 8000000 in
theorem C3childK1 :
    killer.alphabetaF 9 131072 (-1) EInt.ninf EInt.pinf [] [] =
      (EInt.fin 0, [65536, 65536, 65536, 32768], []) := by decide

set_option maxRecDepth 40000 in
set_option maxHeartbeats 8000000 in
theorem C3childK2 :
    killer.alphabetaF 9 65536 (-1) (EInt.fin 0) EInt.pinf [65536, 65536, 65536, 32768] [] =
      (EInt.fin 0, [2048, 2048, 2048, 2048], []) := by decide

set_option maxRecDepth 40000 in
set_option maxHeartbeats 8000000 in
theorem C3childK3 :
    killer.alphabetaF 9 32768 (-1) (EInt.fin 0) EInt.pinf [2048, 2048, 2048, 2048] [] =
      (EInt.fin 0, [1024, 1024, 2048, 2048], []) := by decide

set_option maxRecDepth 40000 in
set_option maxHeartbeats 8000000 in
theorem C3childK4 :
    killer.alphabetaF 9 16384 (-1) (EInt.fin 0) EInt.pinf [1024, 1024, 2048, 2048] [] =
      (EInt.fin 0, [4096, 8192, 1024, 2048], []) := by decide

set_option maxRecDepth 40000 in
set_option maxHeartbeats 8000000 in
theorem C3childK5 :
    killer.alphabetaF 9 8192 (-1) (EInt.fin 0) EInt.pinf [4096, 8192, 1024, 2048] [] =
      (EInt.fin 0, [1024, 1024, 1024, 1024], []) := by decide

set_option maxRecDepth 40000 in
set_option maxHeartbeats 8000000 in
theorem C3childK6 :
    killer.alphabetaF 9 4096 (-1) (EInt.fin 0) EInt.pinf [1024, 1024, 1024, 1024] [] =
      (EInt.fin 0, [2048, 512, 1024, 2048], []) := by decide

set_option maxRecDepth 40000 in
set_option maxHeartbeats 8000000 in
theorem C3childK7 :
    killer.alphabetaF 9 2048 (-1) (EInt.fin 0) EInt.pinf [2048, 512, 1024, 2048] [] =
      (EInt.fin 0, [1024, 4096, 4096, 32768], []) := by decide

set_option maxRecDepth 40000 in
set_option maxHeartbeats 8000000 in
theorem C3childK8 :
    killer.alphabetaF 9 1024 (-1) (EInt.fin 0) EInt.pinf [1024, 4096, 4096, 32768] [] =
      (EInt.fin 0, [8192, 4096, 32768, 8192], []) := by decide

set_option maxRecDepth 40000 in
set_option maxHeartbeats 8000000 in
theorem C3childK9 :
    killer.alphabetaF 9 512 (-1) (EInt.fin 0) EInt.pinf [8192, 4096, 32768, 8192] [] =
      (EInt.fin 0, [32768, 4096, 32768, 32768], []) := by decide

theorem C3rootChildren :
    List.filter (fun mc => List.contains ([] : List Nat) mc.1)
      ((List.filterMap (fun rc => killer.check 0 rc.1 rc.2 1) POSITIONS).map
        (fun m => (m, killer.placeMask 0 m))) ++
    List.filter (fun mc => !List.contains ([] : List Nat) mc.1)
      ((List.filterMap (fun rc => killer.check 0 rc.1 rc.2 1) POSITIONS).map
        (fun m => (m, killer.placeMask 0 m))) =
    [(131072, 131072), (65536, 65536), (32768, 32768), (16384, 16384), (8192, 8192),
     (4096, 4096), (2048, 2048), (1024, 1024), (512, 512)] := by decide

/-- The `killer.py` engine's empty-board value: the root is unfolded one ply
and each of the nine reply subtrees is evaluated by the kernel. -/
theorem killer_empty_val :
    (killer.alphabeta 0 1 EInt.ninf EInt.pinf [] []).1 = EInt.fin 0 := by
  show (killer.alphabetaF 10 0 1 EInt.ninf EInt.pinf [] []).1 = EInt.fin 0
  rw [show (10 : Nat) = 9 + 1 from rfl,
    alphabetaF_max_val 9 0 EInt.ninf EInt.pinf [] [] (by decide), C3rootChildren]
  rw [killer.abMaxLoop.eq_2]
  simp only [C3childK1, emax_ninf_fin0, emax_fin0_fin0, ele_pinf_fin0,
    Bool.false_eq_true, if_false]
  rw [killer.abMaxLoop.eq_2]
  simp only [C3childK2, emax_ninf_fin0, emax_fin0_fin0, ele_pinf_fin0,
    Bool.false_eq_true, if_false]
  rw [killer.abMaxLoop.eq_2]
  simp only [C3childK3, emax_ninf_fin0, emax_fin0_fin0, ele_pinf_fin0,
    Bool.false_eq_true, if_false]
  rw [killer.abMaxLoop.eq_2]
  simp only [C3childK4, emax_ninf_fin0, emax_fin0_fin0, ele_pinf_fin0,
    Bool.false_eq_true, if_false]
  rw [killer.abMaxLoop.eq_2]
  simp only [C3childK5, emax_ninf_fin0, emax_fin0_fin0, ele_pinf_fin0,
    Bool.false_eq_true, if_false]
  rw [killer.abMaxLoop.eq_2]
  simp only [C3childK6, emax_ninf_fin0, emax_fin0_fin0, ele_pinf_fin0,
    Bool.false_eq_true, if_false]
  rw [killer.abMaxLoop.eq_2]
  simp only [C3childK7, emax_ninf_fin0, emax_fin0_fin0, ele_pinf_fin0,
    Bool.false_eq_true, if_false]
  rw [killer.abMaxLoop.eq_2]
  simp only [C3childK8, emax_ninf_fin0, emax_fin0_fin0, ele_pinf_fin0,
    Bool.false_eq_true, if_false]
  rw [killer.abMaxLoop.eq_2]
  simp only [C3childK9, emax_ninf_fin0, emax_fin0_fin0, ele_pinf_fin0,
    Bool.false_eq_true, if_false]
  rw [killer.abMaxLoop.eq_1]

/-- The reference minimax value of the empty board is `0`, extracted from the
kernel-computed alpha-beta value through the fail-soft contract. -/
theorem mm_empty_zero : killer.mm 10 0 1 = 0 := by
  obtain ⟨d1, d2, d3⟩ := killer.alphabetaF_contract 10 0 1 EInt.ninf EInt.pinf [] []
    killer.wf_zero (Or.inl rfl) (by decide) elt_ninf_pinf
  have hr : (killer.alphabetaF 10 0 1 EInt.ninf EInt.pinf [] []).1 = EInt.fin 0 :=
    killer_empty_val
  rw [hr] at d3
  have hfin := d3 (by decide) (by decide)
  exact (EInt.fin.inj hfin).symm

/-- C3: starting from the empty board with the maximizer to move and the
initial window `(-inf, +inf)`, both exhaustive alpha-beta searches — the
bit-vector engine of `killer.py` and the character-matrix engine of
`alphabeta.py` — return exactly `0`: optimal play by both sides draws the
game.  The killer engine's value is kernel-computed by a one-ply root
expansion; the `alphabeta.py` value follows through the verified bit-level
twin, its fail-soft contract, and the agreement of the two reference minimax
functions along the game tree. -/
theorem C3_empty_board_draw :
    (killer.alphabeta 0 1 EInt.ninf EInt.pinf [] []).1 = EInt.fin 0 ∧
    ab.alphabeta cempty 'X' EInt.ninf EInt.pinf = EInt.fin 0 := by
  refine ⟨killer_empty_val, ?_⟩
  rw [ab_empty_eq_mm, mm_empty_zero]
